import Mathlib

/-!
The camera and the loaders of the graphics experiments.

A shallow embedding of the `Camera` class of `Code/CP4/src/Camera.h` (Euler-angle and
quaternion modes) with the GLM routines it calls, of the shader, texture and material
loaders of the `Utils.h` files, and of the OBJ loader of `Code/CP6/src/OBJLoader.h`.  The
C++ `float` is read as an exact scalar: every definition is written once, over any ordered
field `K` carrying the C math functions (`CMath K`), and the theorems are proved for
`K = ℝ`.
-/

namespace CG

/-! ## Scalars and GLM value types -/

/-- The functions of the C math library the camera calls, over the scalar type that
stands for `float`. `atan2 y x` takes its arguments in the C order. -/
class CMath (K : Type) where
  sqrt : K → K
  sin : K → K
  cos : K → K
  asin : K → K
  atan2 : K → K → K
  pi : K

/-- Exact real arithmetic: `atan2 y x` is the argument of `x + i y`, in `(-π, π]`, and
`atan2 0 0 = 0` as in C. -/
noncomputable instance instCMathReal : CMath ℝ where
  sqrt := Real.sqrt
  sin := Real.sin
  cos := Real.cos
  asin := Real.arcsin
  atan2 := fun y x => Complex.arg ⟨x, y⟩
  pi := Real.pi

/-- The type `glm::vec3`. -/
@[ext]
structure Vec3 (K : Type) where
  x : K
  y : K
  z : K

/-- The type `glm::vec4`. -/
@[ext]
structure Vec4 (K : Type) where
  x : K
  y : K
  z : K
  w : K

/-- The type `glm::quat`, scalar part `w` and vector part `(x, y, z)`. -/
@[ext]
structure Quat (K : Type) where
  w : K
  x : K
  y : K
  z : K

/-- The type `glm::mat3`, stored by columns: `c0` is `m[0]`. -/
@[ext]
structure Mat3 (K : Type) where
  c0 : Vec3 K
  c1 : Vec3 K
  c2 : Vec3 K

/-- The type `glm::mat4`, stored by columns: `c0` is `m[0]`. -/
@[ext]
structure Mat4 (K : Type) where
  c0 : Vec4 K
  c1 : Vec4 K
  c2 : Vec4 K
  c3 : Vec4 K

section Algebra

variable {K : Type} [LinearOrderedField K]

instance : Add (Vec3 K) := ⟨fun a b => ⟨a.x + b.x, a.y + b.y, a.z + b.z⟩⟩
instance : Sub (Vec3 K) := ⟨fun a b => ⟨a.x - b.x, a.y - b.y, a.z - b.z⟩⟩
instance : Neg (Vec3 K) := ⟨fun a => ⟨-a.x, -a.y, -a.z⟩⟩
/-- The product `v * s` of a vector and a scalar. -/
instance : HMul (Vec3 K) K (Vec3 K) := ⟨fun a s => ⟨a.x * s, a.y * s, a.z * s⟩⟩
/-- The product `s * v` of a scalar and a vector. -/
instance : HMul K (Vec3 K) (Vec3 K) := ⟨fun s a => ⟨s * a.x, s * a.y, s * a.z⟩⟩

instance : Add (Vec4 K) := ⟨fun a b => ⟨a.x + b.x, a.y + b.y, a.z + b.z, a.w + b.w⟩⟩
/-- The product `v * s` of a vector and a scalar. -/
instance : HMul (Vec4 K) K (Vec4 K) := ⟨fun a s => ⟨a.x * s, a.y * s, a.z * s, a.w * s⟩⟩

/-- The Hamilton product `p * q` of `glm::quat`. -/
instance : Mul (Quat K) := ⟨fun p q =>
  { w := p.w * q.w - p.x * q.x - p.y * q.y - p.z * q.z
    x := p.w * q.x + p.x * q.w + p.y * q.z - p.z * q.y
    y := p.w * q.y + p.y * q.w + p.z * q.x - p.x * q.z
    z := p.w * q.z + p.z * q.w + p.x * q.y - p.y * q.x }⟩

/-- The product `m * v` of `glm::mat4` and `glm::vec4`. -/
instance : HMul (Mat4 K) (Vec4 K) (Vec4 K) :=
  ⟨fun m v => m.c0 * v.x + m.c1 * v.y + m.c2 * v.z + m.c3 * v.w⟩

/-- The constructor `glm::vec4(v, w)`. -/
def Vec4.ofVec3 (v : Vec3 K) (w : K) : Vec4 K := ⟨v.x, v.y, v.z, w⟩

/-- The conversion `glm::vec3(v)` that drops the fourth component. -/
def Vec4.xyz (v : Vec4 K) : Vec3 K := ⟨v.x, v.y, v.z⟩

/-- The identity matrix `glm::mat4(1.0f)`. -/
def Mat4.identity : Mat4 K := ⟨⟨1, 0, 0, 0⟩, ⟨0, 1, 0, 0⟩, ⟨0, 0, 1, 0⟩, ⟨0, 0, 0, 1⟩⟩

end Algebra

/-! ## GLM routines -/

namespace glm

section Plain

variable {K : Type} [LinearOrderedField K]

/-- GLM `dot` on `vec3`. -/
def dot (a b : Vec3 K) : K := a.x * b.x + a.y * b.y + a.z * b.z

/-- GLM `cross`. -/
def cross (a b : Vec3 K) : Vec3 K :=
  ⟨a.y * b.z - b.y * a.z, a.z * b.x - b.z * a.x, a.x * b.y - b.x * a.y⟩

/-- GLM `dot` on `quat`. -/
def qdot (p q : Quat K) : K := p.x * q.x + p.y * q.y + p.z * q.z + p.w * q.w

/-- GLM `quat * vec3`: rotates `v` by `q`. -/
def rotateVec (q : Quat K) (v : Vec3 K) : Vec3 K :=
  let quatVector : Vec3 K := ⟨q.x, q.y, q.z⟩
  let uv := cross quatVector v
  let uuv := cross quatVector uv
  v + ((uv * q.w) + uuv) * (2 : K)

/-- GLM `mat3_cast`: the rotation matrix of a quaternion. -/
def mat3_cast (q : Quat K) : Mat3 K :=
  let qxx := q.x * q.x
  let qyy := q.y * q.y
  let qzz := q.z * q.z
  let qxz := q.x * q.z
  let qxy := q.x * q.y
  let qyz := q.y * q.z
  let qwx := q.w * q.x
  let qwy := q.w * q.y
  let qwz := q.w * q.z
  { c0 := ⟨1 - 2 * (qyy + qzz), 2 * (qxy + qwz), 2 * (qxz - qwy)⟩
    c1 := ⟨2 * (qxy - qwz), 1 - 2 * (qxx + qzz), 2 * (qyz + qwx)⟩
    c2 := ⟨2 * (qxz + qwy), 2 * (qyz - qwx), 1 - 2 * (qxx + qyy)⟩ }

/-- GLM `toMat4`, that is `mat4_cast`: `mat3_cast` extended by the unit row and column. -/
def toMat4 (q : Quat K) : Mat4 K :=
  let m := mat3_cast q
  ⟨Vec4.ofVec3 m.c0 0, Vec4.ofVec3 m.c1 0, Vec4.ofVec3 m.c2 0, ⟨0, 0, 0, 1⟩⟩

/-- GLM `clamp`: `min (max x lo) hi`. -/
def clamp (x lo hi : K) : K := min (max x lo) hi

end Plain

end glm

/-- An orthonormal right-handed matrix, by columns: unit columns `c0` and `c1`, orthogonal
to each other, and `c2` their cross product. -/
structure IsRotation {K : Type} [LinearOrderedField K] (m : Mat3 K) : Prop where
  unit0 : glm.dot m.c0 m.c0 = 1
  unit1 : glm.dot m.c1 m.c1 = 1
  orth01 : glm.dot m.c0 m.c1 = 0
  cross01 : glm.cross m.c0 m.c1 = m.c2

namespace glm

section Transcendental

variable {K : Type} [LinearOrderedField K] [CMath K]

/-- GLM `radians`. -/
def radians (deg : K) : K := deg * (CMath.pi / 180)

/-- GLM `degrees`. -/
def degrees (rad : K) : K := rad * (180 / CMath.pi)

/-- GLM `length` on `vec3`. -/
def length (v : Vec3 K) : K := CMath.sqrt (dot v v)

/-- GLM `normalize` on `vec3`: `v * inversesqrt(dot(v, v))`. -/
def normalize (v : Vec3 K) : Vec3 K := v * (1 / CMath.sqrt (dot v v))

/-- GLM `length` on `quat`. -/
def qlength (q : Quat K) : K := CMath.sqrt (qdot q q)

/-- GLM `normalize` on `quat`; a quaternion of length zero gives the identity. -/
def qnormalize (q : Quat K) : Quat K :=
  let len := qlength q
  if len ≤ 0 then ⟨1, 0, 0, 0⟩
  else
    let oneOverLen := 1 / len
    ⟨q.w * oneOverLen, q.x * oneOverLen, q.y * oneOverLen, q.z * oneOverLen⟩

/-- GLM `angleAxis`, the angle in radians. -/
def angleAxis (angle : K) (v : Vec3 K) : Quat K :=
  let s := CMath.sin (angle * (1 / 2))
  ⟨CMath.cos (angle * (1 / 2)), v.x * s, v.y * s, v.z * s⟩

/-- GLM `quat_cast` on `mat3`: picks the largest of the four squared components,
takes its square root and divides the others out. -/
def quat_cast (m : Mat3 K) : Quat K :=
  let fourXSquaredMinus1 := m.c0.x - m.c1.y - m.c2.z
  let fourYSquaredMinus1 := m.c1.y - m.c0.x - m.c2.z
  let fourZSquaredMinus1 := m.c2.z - m.c0.x - m.c1.y
  let fourWSquaredMinus1 := m.c0.x + m.c1.y + m.c2.z
  let s0 : Nat × K := (0, fourWSquaredMinus1)
  let s1 : Nat × K := if fourXSquaredMinus1 > s0.2 then (1, fourXSquaredMinus1) else s0
  let s2 : Nat × K := if fourYSquaredMinus1 > s1.2 then (2, fourYSquaredMinus1) else s1
  let s3 : Nat × K := if fourZSquaredMinus1 > s2.2 then (3, fourZSquaredMinus1) else s2
  let biggestVal := CMath.sqrt (s3.2 + 1) * (1 / 2)
  let mult := (1 / 4) / biggestVal
  match s3.1 with
  | 0 => ⟨biggestVal, (m.c1.z - m.c2.y) * mult, (m.c2.x - m.c0.z) * mult,
          (m.c0.y - m.c1.x) * mult⟩
  | 1 => ⟨(m.c1.z - m.c2.y) * mult, biggestVal, (m.c0.y + m.c1.x) * mult,
          (m.c2.x + m.c0.z) * mult⟩
  | 2 => ⟨(m.c2.x - m.c0.z) * mult, (m.c0.y + m.c1.x) * mult, biggestVal,
          (m.c1.z + m.c2.y) * mult⟩
  | _ => ⟨(m.c0.y - m.c1.x) * mult, (m.c2.x + m.c0.z) * mult, (m.c1.z + m.c2.y) * mult,
          biggestVal⟩

/-- GLM `pitch` of a quaternion: `atan2(2(yz + wx), w² - x² - y² + z²)`. Recent GLM
releases return `2 atan2(x, w)` instead when both arguments vanish up to the float
epsilon; that guard is left out. -/
def pitch (q : Quat K) : K :=
  CMath.atan2 (2 * (q.y * q.z + q.w * q.x))
    (q.w * q.w - q.x * q.x - q.y * q.y + q.z * q.z)

/-- GLM `yaw` of a quaternion: `asin(clamp(-2(xz - wy), -1, 1))`. -/
def yaw (q : Quat K) : K :=
  CMath.asin (clamp (-2 * (q.x * q.z - q.w * q.y)) (-1) 1)

/-- GLM `roll` of a quaternion: `atan2(2(xy + wz), w² + x² - y² - z²)`. -/
def roll (q : Quat K) : K :=
  CMath.atan2 (2 * (q.x * q.y + q.w * q.z))
    (q.w * q.w + q.x * q.x - q.y * q.y - q.z * q.z)

/-- GLM `eulerAngles`: the vector `(pitch, yaw, roll)`. -/
def eulerAngles (q : Quat K) : Vec3 K := ⟨pitch q, yaw q, roll q⟩

/-- GLM `rotate(m, angle, v)`: `m` times the rotation by `angle` about `normalize(v)`. -/
def rotate (m : Mat4 K) (angle : K) (v : Vec3 K) : Mat4 K :=
  let c := CMath.cos angle
  let s := CMath.sin angle
  let axis := normalize v
  let temp : Vec3 K := (1 - c) * axis
  let r00 := c + temp.x * axis.x
  let r01 := temp.x * axis.y + s * axis.z
  let r02 := temp.x * axis.z - s * axis.y
  let r10 := temp.y * axis.x - s * axis.z
  let r11 := c + temp.y * axis.y
  let r12 := temp.y * axis.z + s * axis.x
  let r20 := temp.z * axis.x + s * axis.y
  let r21 := temp.z * axis.y - s * axis.x
  let r22 := c + temp.z * axis.z
  { c0 := m.c0 * r00 + m.c1 * r01 + m.c2 * r02
    c1 := m.c0 * r10 + m.c1 * r11 + m.c2 * r12
    c2 := m.c0 * r20 + m.c1 * r21 + m.c2 * r22
    c3 := m.c3 }

end Transcendental

end glm

/-! ## The camera -/

/-- The enum `Camera_Movement`. -/
inductive Camera_Movement where
  | FORWARD
  | BACKWARD
  | LEFT
  | RIGHT
  deriving DecidableEq, Repr

/-- The enum `Camera_Mode`. -/
inductive Camera_Mode where
  | EULER
  | QUATERNION
  deriving DecidableEq, Repr

open Camera_Movement Camera_Mode

/-- The data members of `class Camera`. -/
@[ext]
structure Camera (K : Type) where
  Position : Vec3 K
  Front : Vec3 K
  Up : Vec3 K
  Right : Vec3 K
  WorldUp : Vec3 K
  Yaw : K
  Pitch : K
  Roll : K
  Orientation : Quat K
  MovementSpeed : K
  MouseSensitivity : K
  Fov : K
  Mode : Camera_Mode

namespace Camera

section Plain

variable {K : Type} [LinearOrderedField K]

/-- The state a default-constructed camera `Camera()` is in (position `(0, 0, 3)`, yaw
`-90`, pitch `0`, looking down `-Z`), with the mode given and the `Orientation` member,
which the constructor leaves unset, taken to be the identity quaternion. -/
def sample (mode : Camera_Mode) : Camera K :=
  { Position := ⟨0, 0, 3⟩
    Front := ⟨0, 0, -1⟩
    Up := ⟨0, 1, 0⟩
    Right := ⟨1, 0, 0⟩
    WorldUp := ⟨0, 1, 0⟩
    Yaw := -90
    Pitch := 0
    Roll := 0
    Orientation := ⟨1, 0, 0, 0⟩
    MovementSpeed := 1
    MouseSensitivity := 0.05
    Fov := 45
    Mode := mode }

/-- The method `Camera::GetMode`. -/
def GetMode (c : Camera K) : Camera_Mode := c.Mode

/-- The method `Camera::ProcessKeyboard`. -/
def ProcessKeyboard (c : Camera K) (direction : Camera_Movement) (deltaTime : K) :
    Camera K :=
  let velocity := c.MovementSpeed * deltaTime
  let c := if direction = FORWARD then { c with Position := c.Position + c.Front * velocity } else c
  let c := if direction = BACKWARD then { c with Position := c.Position - c.Front * velocity } else c
  let c := if direction = LEFT then { c with Position := c.Position - c.Right * velocity } else c
  let c := if direction = RIGHT then { c with Position := c.Position + c.Right * velocity } else c
  c

/-- The method `Camera::ProcessMouseScroll`. -/
def ProcessMouseScroll (c : Camera K) (yoffset : K) : Camera K :=
  let c := { c with Fov := c.Fov - yoffset }
  let c := if c.Fov < 1 then { c with Fov := 1 } else c
  let c := if c.Fov > 45 then { c with Fov := 45 } else c
  c

end Plain

section Transcendental

variable {K : Type} [LinearOrderedField K] [CMath K]

/-- The local vector `front` that `updateCameraVectors` builds from `Yaw` and `Pitch` in
EULER mode, before it is normalised. -/
def eulerFront (c : Camera K) : Vec3 K :=
  ⟨CMath.cos (glm.radians c.Yaw) * CMath.cos (glm.radians c.Pitch),
   CMath.sin (glm.radians c.Pitch),
   CMath.sin (glm.radians c.Yaw) * CMath.cos (glm.radians c.Pitch)⟩

/-- The private method `Camera::updateCameraVectors`. The test `abs(Roll) > 0.001f` is
read as the absolute value of the scalar `Roll`. -/
def updateCameraVectors (c : Camera K) : Camera K :=
  if c.Mode = EULER then
    let front : Vec3 K :=
      ⟨CMath.cos (glm.radians c.Yaw) * CMath.cos (glm.radians c.Pitch),
       CMath.sin (glm.radians c.Pitch),
       CMath.sin (glm.radians c.Yaw) * CMath.cos (glm.radians c.Pitch)⟩
    let c := { c with Front := glm.normalize front }
    let c := { c with Right := glm.normalize (glm.cross c.Front c.WorldUp) }
    let tempUp := glm.normalize (glm.cross c.Right c.Front)
    if |c.Roll| > 0.001 then
      let rollMatrix := glm.rotate Mat4.identity (glm.radians c.Roll) c.Front
      let c := { c with Right := (rollMatrix * Vec4.ofVec3 c.Right 0).xyz }
      { c with Up := (rollMatrix * Vec4.ofVec3 tempUp 0).xyz }
    else
      { c with Up := tempUp }
  else
    let rotationMatrix := glm.toMat4 c.Orientation
    let c := { c with Right := glm.normalize rotationMatrix.c0.xyz }
    let c := { c with Up := glm.normalize rotationMatrix.c1.xyz }
    { c with Front := -glm.normalize rotationMatrix.c2.xyz }

/-- The private method `Camera::eulerToQuaternion`. -/
def eulerToQuaternion (c : Camera K) : Camera K :=
  let qYaw := glm.angleAxis (glm.radians c.Yaw) (⟨0, 1, 0⟩ : Vec3 K)
  let localX := glm.rotateVec qYaw (⟨1, 0, 0⟩ : Vec3 K)
  let qPitch := glm.angleAxis (glm.radians c.Pitch) localX
  let c := { c with Orientation := qPitch * qYaw }
  { c with Orientation := glm.qnormalize c.Orientation }

/-- The private method `Camera::quaternionToEuler`. -/
def quaternionToEuler (c : Camera K) : Camera K :=
  let euler := glm.eulerAngles c.Orientation
  let c := { c with Pitch := glm.degrees euler.x }
  let c := { c with Yaw := glm.degrees euler.y }
  if c.Yaw > 180 then { c with Yaw := c.Yaw - 360 }
  else if c.Yaw < -180 then { c with Yaw := c.Yaw + 360 }
  else c

/-- The method `Camera::SetMode`. -/
def SetMode (c : Camera K) (mode : Camera_Mode) : Camera K :=
  if c.Mode ≠ mode then
    let c := { c with Mode := mode }
    let c := if mode = QUATERNION then c.eulerToQuaternion else c.quaternionToEuler
    c.updateCameraVectors
  else c

/-- The method `Camera::LookAt`. -/
def LookAt (c : Camera K) (target : Vec3 K) : Camera K :=
  let direction := glm.normalize (target - c.Position)
  let c := { c with Pitch := glm.degrees (CMath.asin direction.y) }
  let c := { c with Yaw := glm.degrees (CMath.atan2 direction.z direction.x) }
  let c := if c.Pitch > 89 then { c with Pitch := 89 } else c
  let c := if c.Pitch < -89 then { c with Pitch := -89 } else c
  let c :=
    if c.Mode = QUATERNION then
      let right := glm.normalize (glm.cross direction c.WorldUp)
      let up := glm.cross right direction
      let rotationMatrix : Mat3 K := ⟨right, up, -direction⟩
      let c := { c with Orientation := glm.quat_cast rotationMatrix }
      { c with Orientation := glm.qnormalize c.Orientation }
    else c
  c.updateCameraVectors

/-- The method `Camera::SetEulerAngles`. -/
def SetEulerAngles (c : Camera K) (yaw pitch : K) (roll : K) (constrainPitch : Bool) :
    Camera K :=
  let c := { c with Yaw := yaw }
  let c := { c with Pitch := pitch }
  let c := { c with Roll := roll }
  let c :=
    if constrainPitch then
      let c := if c.Pitch > 89 then { c with Pitch := 89 } else c
      if c.Pitch < -89 then { c with Pitch := -89 } else c
    else c
  c.updateCameraVectors

/-- The method `Camera::SetQuaternionEulerAngles`. -/
def SetQuaternionEulerAngles (c : Camera K) (yaw pitch roll : K) : Camera K :=
  let c := { c with Yaw := yaw }
  let c := { c with Pitch := pitch }
  let qYaw := glm.angleAxis (glm.radians yaw) (⟨0, 1, 0⟩ : Vec3 K)
  let qPitch := glm.angleAxis (glm.radians pitch) (⟨1, 0, 0⟩ : Vec3 K)
  let qRoll := glm.angleAxis (glm.radians roll) (⟨0, 0, 1⟩ : Vec3 K)
  let c := { c with Orientation := qYaw * qPitch * qRoll }
  let c := { c with Orientation := glm.qnormalize c.Orientation }
  c.updateCameraVectors

/-- The method `Camera::SetQuaternionAxisAngle`. -/
def SetQuaternionAxisAngle (c : Camera K) (axis : Vec3 K) (angle : K) : Camera K :=
  let axis := glm.normalize axis
  let c := { c with Orientation := glm.angleAxis (glm.radians angle) axis }
  let c := { c with Orientation := glm.qnormalize c.Orientation }
  c.updateCameraVectors

/-- The method `Camera::ApplyIncrementalRotation`. -/
def ApplyIncrementalRotation (c : Camera K) (axis : Vec3 K) (angleDelta : K) : Camera K :=
  let axis := glm.normalize axis
  let deltaQuat := glm.angleAxis (glm.radians angleDelta) axis
  let c := { c with Orientation := deltaQuat * c.Orientation }
  let c := { c with Orientation := glm.qnormalize c.Orientation }
  c.updateCameraVectors

/-- The method `Camera::ProcessMouseMovement`. -/
def ProcessMouseMovement (c : Camera K) (xoffset yoffset : K) (constrainPitch : Bool) :
    Camera K :=
  let xoffset := xoffset * c.MouseSensitivity
  let yoffset := yoffset * c.MouseSensitivity
  let c :=
    if c.Mode = EULER then
      let c := { c with Yaw := c.Yaw + xoffset }
      let c := { c with Pitch := c.Pitch + yoffset }
      if constrainPitch then
        let c := if c.Pitch > 89 then { c with Pitch := 89 } else c
        if c.Pitch < -89 then { c with Pitch := -89 } else c
      else c
    else
      let qPitch := glm.angleAxis (glm.radians yoffset) c.Right
      let qYaw := glm.angleAxis (glm.radians (-xoffset)) (⟨0, 1, 0⟩ : Vec3 K)
      let c := { c with Orientation := qYaw * c.Orientation * qPitch }
      { c with Orientation := glm.qnormalize c.Orientation }
  c.updateCameraVectors

end Transcendental

end Camera

/-! ## Camera: defaults, construction, view matrix -/

section Defaults

variable {K : Type} [LinearOrderedField K]

/-- The constant `YAW`. -/
def YAW : K := -90

/-- The constant `PITCH`. -/
def PITCH : K := 0

/-- The constant `SPEED`. -/
def SPEED : K := 1

/-- The constant `SENSITIVITY`. -/
def SENSITIVITY : K := 0.05

/-- The constant `FOV`. -/
def FOV : K := 45

end Defaults

namespace glm

section ViewMatrix

variable {K : Type} [LinearOrderedField K] [CMath K]

/-- GLM `lookAt` (right-handed, the default): rows `s`, `u`, `-f` and the translation that
takes `eye` to the origin. -/
def lookAt (eye center up : Vec3 K) : Mat4 K :=
  let f := normalize (center - eye)
  let s := normalize (cross f up)
  let u := cross s f
  { c0 := ⟨s.x, u.x, -f.x, 0⟩
    c1 := ⟨s.y, u.y, -f.y, 0⟩
    c2 := ⟨s.z, u.z, -f.z, 0⟩
    c3 := ⟨-dot s eye, -dot u eye, dot f eye, 1⟩ }

end ViewMatrix

end glm

namespace Camera

section Construction

variable {K : Type} [LinearOrderedField K] [CMath K]

/-- The constructor `Camera(position, up, yaw, pitch, mode)`. The members `Up`, `Right` and
`Orientation` have no initialiser: they start as they are in `storage`, the object before
construction. `updateCameraVectors` then writes `Up` and `Right`; `Orientation` stays. -/
def new (storage : Camera K) (position up : Vec3 K) (yaw pitch : K) (mode : Camera_Mode) :
    Camera K :=
  let c : Camera K :=
    { storage with
      Front := ⟨0, 0, -1⟩
      MovementSpeed := SPEED
      MouseSensitivity := SENSITIVITY
      Fov := FOV
      Mode := mode
      Roll := 0 }
  let c := { c with Position := position }
  let c := { c with WorldUp := up }
  let c := { c with Yaw := yaw }
  let c := { c with Pitch := pitch }
  c.updateCameraVectors

/-- The constructor `Camera(posX, posY, posZ, upX, upY, upZ, yaw, pitch, mode)`. -/
def newScalars (storage : Camera K) (posX posY posZ upX upY upZ yaw pitch : K)
    (mode : Camera_Mode) : Camera K :=
  let c : Camera K :=
    { storage with
      Front := ⟨0, 0, -1⟩
      MovementSpeed := SPEED
      MouseSensitivity := SENSITIVITY
      Fov := FOV
      Mode := mode
      Roll := 0 }
  let c := { c with Position := ⟨posX, posY, posZ⟩ }
  let c := { c with WorldUp := ⟨upX, upY, upZ⟩ }
  let c := { c with Yaw := yaw }
  let c := { c with Pitch := pitch }
  c.updateCameraVectors

/-- The method `Camera::GetViewMatrix`. It returns the matrix and assigns no member, so the
camera comes back as it was. -/
def GetViewMatrix (c : Camera K) : Mat4 K × Camera K :=
  (glm.lookAt c.Position (c.Position + c.Front) c.Up, c)

end Construction

end Camera

/-! ## Shader and texture loading (`Utils.h` of CP2, CP4, CP5, CP6; `main.cpp` of CP1)

The OpenGL driver, the file system and the image decoder are parameters. The state that
is passed along holds the driver state and what was written to `std::cerr` and
`std::cout`. -/

/-- The file system as `std::ifstream` sees it: the content of the file at a path, `none`
when the file cannot be opened. -/
abbrev FileSystem := String → Option String

/-- The OpenGL calls of the loaders, as functions on a driver state `σ`. Object names
(`unsigned int`) are natural numbers. -/
structure GLDriver (σ : Type) where
  glCreateShader : Nat → σ → Nat × σ
  glShaderSource : Nat → String → σ → σ
  glCompileShader : Nat → σ → σ
  glGetShaderiv : Nat → Nat → σ → Int
  glGetShaderInfoLog : Nat → σ → String
  glCreateProgram : σ → Nat × σ
  glAttachShader : Nat → Nat → σ → σ
  glLinkProgram : Nat → σ → σ
  glGetProgramiv : Nat → Nat → σ → Int
  glGetProgramInfoLog : Nat → σ → String
  glDeleteShader : Nat → σ → σ
  glGenTextures : σ → Nat × σ
  glBindTexture : Nat → Nat → σ → σ
  glTexImage2D : Nat → Int → Nat → Int → Int → Int → Nat → Nat → List Nat → σ → σ
  glGenerateMipmap : Nat → σ → σ
  glTexParameteri : Nat → Nat → Nat → σ → σ

/-- What `stbi_load` hands back for a decoded image. -/
structure StbImage where
  width : Int
  height : Int
  nrChannels : Int
  data : List Nat

/-- The image decoder `stbi_load` (with the vertical flip set): `none` is the null pointer. -/
abbrev StbLoader := String → Option StbImage

/-- The state the loaders run in. -/
structure World (σ : Type) where
  gl : σ
  cerr : List String
  cout : List String

/-- One line written to `std::cerr`. -/
def World.err {σ : Type} (w : World σ) (line : String) : World σ :=
  { w with cerr := w.cerr ++ [line] }

/-- One line written to `std::cout`. -/
def World.out {σ : Type} (w : World σ) (line : String) : World σ :=
  { w with cout := w.cout ++ [line] }

/-- A call that only changes the driver state. -/
def World.call {σ : Type} (w : World σ) (f : σ → σ) : World σ :=
  { w with gl := f w.gl }

/-- A driver for examples: its state counts the names handed out, every new shader,
program or texture gets the next number (from 1 on), and every compile or link status it
reports is 0 (failed), with an empty info log. -/
def GLDriver.counting : GLDriver Nat where
  glCreateShader := fun _ n => (n + 1, n + 1)
  glShaderSource := fun _ _ n => n
  glCompileShader := fun _ n => n
  glGetShaderiv := fun _ _ _ => 0
  glGetShaderInfoLog := fun _ _ => ""
  glCreateProgram := fun n => (n + 1, n + 1)
  glAttachShader := fun _ _ n => n
  glLinkProgram := fun _ n => n
  glGetProgramiv := fun _ _ _ => 0
  glGetProgramInfoLog := fun _ _ => ""
  glDeleteShader := fun _ n => n
  glGenTextures := fun n => (n + 1, n + 1)
  glBindTexture := fun _ _ n => n
  glTexImage2D := fun _ _ _ _ _ _ _ _ _ n => n
  glGenerateMipmap := fun _ n => n
  glTexParameteri := fun _ _ _ n => n

/-- The empty start state of the example driver. -/
def World.start : World Nat := ⟨0, [], []⟩

/-- OpenGL enumerant `GL_VERTEX_SHADER`. -/
def GL_VERTEX_SHADER : Nat := 0x8B31
/-- OpenGL enumerant `GL_FRAGMENT_SHADER`. -/
def GL_FRAGMENT_SHADER : Nat := 0x8B30
/-- OpenGL enumerant `GL_COMPILE_STATUS`. -/
def GL_COMPILE_STATUS : Nat := 0x8B81
/-- OpenGL enumerant `GL_LINK_STATUS`. -/
def GL_LINK_STATUS : Nat := 0x8B82
/-- OpenGL enumerant `GL_TEXTURE_2D`. -/
def GL_TEXTURE_2D : Nat := 0x0DE1
/-- OpenGL enumerant `GL_RED`. -/
def GL_RED : Nat := 0x1903
/-- OpenGL enumerant `GL_RGB`. -/
def GL_RGB : Nat := 0x1907
/-- OpenGL enumerant `GL_RGBA`. -/
def GL_RGBA : Nat := 0x1908
/-- OpenGL enumerant `GL_UNSIGNED_BYTE`. -/
def GL_UNSIGNED_BYTE : Nat := 0x1401
/-- OpenGL enumerant `GL_TEXTURE_WRAP_S`. -/
def GL_TEXTURE_WRAP_S : Nat := 0x2802
/-- OpenGL enumerant `GL_TEXTURE_WRAP_T`. -/
def GL_TEXTURE_WRAP_T : Nat := 0x2803
/-- OpenGL enumerant `GL_TEXTURE_MIN_FILTER`. -/
def GL_TEXTURE_MIN_FILTER : Nat := 0x2801
/-- OpenGL enumerant `GL_TEXTURE_MAG_FILTER`. -/
def GL_TEXTURE_MAG_FILTER : Nat := 0x2800
/-- OpenGL enumerant `GL_REPEAT`. -/
def GL_REPEAT : Nat := 0x2901
/-- OpenGL enumerant `GL_LINEAR_MIPMAP_LINEAR`. -/
def GL_LINEAR_MIPMAP_LINEAR : Nat := 0x2703
/-- OpenGL enumerant `GL_LINEAR`. -/
def GL_LINEAR : Nat := 0x2601

namespace Utils

variable {σ : Type}

/-- The function `Utils::readFile`, the same text in the `Utils.h` of CP2, CP4, CP5, CP6. -/
def readFile (fs : FileSystem) (filePath : String) (w : World σ) : String × World σ :=
  match fs filePath with
  | none => ("", w.err ("文件打开失败: " ++ filePath))
  | some content => (content, w)

/-- The function `Utils::compileShader`, the same text in the `Utils.h` of CP2, CP4, CP5,
CP6: it returns the shader name whether or not the compilation succeeded. -/
def compileShader (gl : GLDriver σ) (type : Nat) (source : String) (w : World σ) :
    Nat × World σ :=
  let (shader, g) := gl.glCreateShader type w.gl
  let w := { w with gl := g }
  let w := w.call (gl.glShaderSource shader source)
  let w := w.call (gl.glCompileShader shader)
  let success := gl.glGetShaderiv shader GL_COMPILE_STATUS w.gl
  let w :=
    if success = 0 then
      w.err ("着色器编译失败:\n" ++ gl.glGetShaderInfoLog shader w.gl)
    else w
  (shader, w)

end Utils

namespace CP2

variable {σ : Type}

/-- The function `Utils::createShaderProgram` of CP2. -/
def createShaderProgram (gl : GLDriver σ) (fs : FileSystem) (vertexPath fragmentPath : String)
    (w : World σ) : Nat × World σ :=
  let (vertexCode, w) := Utils.readFile fs vertexPath w
  let (fragmentCode, w) := Utils.readFile fs fragmentPath w
  let (vertexShader, w) := Utils.compileShader gl GL_VERTEX_SHADER vertexCode w
  let (fragmentShader, w) := Utils.compileShader gl GL_FRAGMENT_SHADER fragmentCode w
  let (program, g) := gl.glCreateProgram w.gl
  let w := { w with gl := g }
  let w := w.call (gl.glAttachShader program vertexShader)
  let w := w.call (gl.glAttachShader program fragmentShader)
  let w := w.call (gl.glLinkProgram program)
  let success := gl.glGetProgramiv program GL_LINK_STATUS w.gl
  let w :=
    if success = 0 then
      w.err ("着色器程序链接失败:\n" ++ gl.glGetProgramInfoLog program w.gl)
    else w
  let w := w.call (gl.glDeleteShader vertexShader)
  let w := w.call (gl.glDeleteShader fragmentShader)
  (program, w)

end CP2

namespace CP4

variable {σ : Type}

/-- The function `Utils::createShaderProgram` of CP4. -/
def createShaderProgram (gl : GLDriver σ) (fs : FileSystem) (vertexPath fragmentPath : String)
    (w : World σ) : Nat × World σ :=
  let (vertexCode, w) := Utils.readFile fs vertexPath w
  let (fragmentCode, w) := Utils.readFile fs fragmentPath w
  let (vertexShader, w) := Utils.compileShader gl GL_VERTEX_SHADER vertexCode w
  let (fragmentShader, w) := Utils.compileShader gl GL_FRAGMENT_SHADER fragmentCode w
  let (program, g) := gl.glCreateProgram w.gl
  let w := { w with gl := g }
  let w := w.call (gl.glAttachShader program vertexShader)
  let w := w.call (gl.glAttachShader program fragmentShader)
  let w := w.call (gl.glLinkProgram program)
  let success := gl.glGetProgramiv program GL_LINK_STATUS w.gl
  let w :=
    if success = 0 then
      w.err ("着色器程序链接失败:\n" ++ gl.glGetProgramInfoLog program w.gl)
    else w
  let w := w.call (gl.glDeleteShader vertexShader)
  let w := w.call (gl.glDeleteShader fragmentShader)
  (program, w)

end CP4

namespace CP5

variable {σ : Type}

/-- The function `Utils::createShaderProgram` of CP5. -/
def createShaderProgram (gl : GLDriver σ) (fs : FileSystem) (vertexPath fragmentPath : String)
    (w : World σ) : Nat × World σ :=
  let (vertexCode, w) := Utils.readFile fs vertexPath w
  let (fragmentCode, w) := Utils.readFile fs fragmentPath w
  if vertexCode.isEmpty || fragmentCode.isEmpty then
    (0, w.err "Failed to read shader files!")
  else
    let (vertexShader, w) := Utils.compileShader gl GL_VERTEX_SHADER vertexCode w
    let (fragmentShader, w) := Utils.compileShader gl GL_FRAGMENT_SHADER fragmentCode w
    let (program, g) := gl.glCreateProgram w.gl
    let w := { w with gl := g }
    let w := w.call (gl.glAttachShader program vertexShader)
    let w := w.call (gl.glAttachShader program fragmentShader)
    let w := w.call (gl.glLinkProgram program)
    let success := gl.glGetProgramiv program GL_LINK_STATUS w.gl
    let w :=
      if success = 0 then
        w.err ("着色器程序链接失败:\n" ++ gl.glGetProgramInfoLog program w.gl)
      else w
    let w := w.call (gl.glDeleteShader vertexShader)
    let w := w.call (gl.glDeleteShader fragmentShader)
    (program, w)

end CP5

namespace CP6

variable {σ : Type}

/-- The function `Utils::createShaderProgram` of CP6. -/
def createShaderProgram (gl : GLDriver σ) (fs : FileSystem) (vertexPath fragmentPath : String)
    (w : World σ) : Nat × World σ :=
  let (vertexCode, w) := Utils.readFile fs vertexPath w
  let (fragmentCode, w) := Utils.readFile fs fragmentPath w
  if vertexCode.isEmpty || fragmentCode.isEmpty then
    (0, w.err "着色器文件读取失败!")
  else
    let (vertexShader, w) := Utils.compileShader gl GL_VERTEX_SHADER vertexCode w
    let (fragmentShader, w) := Utils.compileShader gl GL_FRAGMENT_SHADER fragmentCode w
    let (program, g) := gl.glCreateProgram w.gl
    let w := { w with gl := g }
    let w := w.call (gl.glAttachShader program vertexShader)
    let w := w.call (gl.glAttachShader program fragmentShader)
    let w := w.call (gl.glLinkProgram program)
    let success := gl.glGetProgramiv program GL_LINK_STATUS w.gl
    let w :=
      if success = 0 then
        w.err ("着色器程序链接失败:\n" ++ gl.glGetProgramInfoLog program w.gl)
      else w
    let w := w.call (gl.glDeleteShader vertexShader)
    let w := w.call (gl.glDeleteShader fragmentShader)
    (program, w)

/-- The function `Utils::loadTexture` of CP6. The name comes from `glGenTextures` before
the image is decoded, and is returned on both branches. -/
def loadTexture (gl : GLDriver σ) (stbi_load : StbLoader) (path : String) (w : World σ) :
    Nat × World σ :=
  let (textureID, g) := gl.glGenTextures w.gl
  let w := { w with gl := g }
  match stbi_load path with
  | some img =>
    let format :=
      if img.nrChannels = 1 then GL_RED
      else if img.nrChannels = 3 then GL_RGB
      else if img.nrChannels = 4 then GL_RGBA
      else GL_RGB
    let w := w.call (gl.glBindTexture GL_TEXTURE_2D textureID)
    let w := w.call (gl.glTexImage2D GL_TEXTURE_2D 0 format img.width img.height 0 format
      GL_UNSIGNED_BYTE img.data)
    let w := w.call (gl.glGenerateMipmap GL_TEXTURE_2D)
    let w := w.call (gl.glTexParameteri GL_TEXTURE_2D GL_TEXTURE_WRAP_S GL_REPEAT)
    let w := w.call (gl.glTexParameteri GL_TEXTURE_2D GL_TEXTURE_WRAP_T GL_REPEAT)
    let w := w.call (gl.glTexParameteri GL_TEXTURE_2D GL_TEXTURE_MIN_FILTER
      GL_LINEAR_MIPMAP_LINEAR)
    let w := w.call (gl.glTexParameteri GL_TEXTURE_2D GL_TEXTURE_MAG_FILTER GL_LINEAR)
    let w := w.out ("纹理加载成功: " ++ path ++ " (" ++ toString img.width ++ "x"
      ++ toString img.height ++ ", " ++ toString img.nrChannels ++ " channels)")
    (textureID, w)
  | none =>
    let w := w.err ("纹理加载失败: " ++ path)
    (textureID, w)

end CP6

namespace CP1

variable {σ : Type}

/-- The function `loadShaderSource` of CP1: the path as given, then under the directory
`exeDir` that `getExecutableDir` returns; the empty string when neither opens. -/
def loadShaderSource (fs : FileSystem) (exeDir : String) (filepath : String) (w : World σ) :
    String × World σ :=
  match fs filepath with
  | some content => (content, w.out ("着色器加载成功: " ++ filepath))
  | none =>
    let fullPath := exeDir ++ "/" ++ filepath
    match fs fullPath with
    | some content => (content, w.out ("着色器加载成功: " ++ filepath))
    | none =>
      let w := w.err ("错误：着色器文件读取失败: " ++ filepath)
      let w := w.err ("  当前目录: " ++ exeDir)
      let w := w.err ("  尝试路径: " ++ fullPath)
      ("", w)

/-- The function `compileShader` of CP1: 0 when the compilation failed. -/
def compileShader (gl : GLDriver σ) (type : Nat) (source : String) (w : World σ) :
    Nat × World σ :=
  let (shader, g) := gl.glCreateShader type w.gl
  let w := { w with gl := g }
  let w := w.call (gl.glShaderSource shader source)
  let w := w.call (gl.glCompileShader shader)
  let success := gl.glGetShaderiv shader GL_COMPILE_STATUS w.gl
  if success = 0 then
    let shaderType := if type = GL_VERTEX_SHADER then "顶点着色器" else "片段着色器"
    (0, w.err ("错误：" ++ shaderType ++ "编译失败\n" ++ gl.glGetShaderInfoLog shader w.gl))
  else
    (shader, w)

/-- The function `createShaderProgram` of CP1. -/
def createShaderProgram (gl : GLDriver σ) (fs : FileSystem) (exeDir : String)
    (vertexPath fragmentPath : String) (w : World σ) : Nat × World σ :=
  let (vertexCode, w) := loadShaderSource fs exeDir vertexPath w
  let (fragmentCode, w) := loadShaderSource fs exeDir fragmentPath w
  if vertexCode.isEmpty || fragmentCode.isEmpty then
    (0, w)
  else
    let (vertexShader, w) := compileShader gl GL_VERTEX_SHADER vertexCode w
    let (fragmentShader, w) := compileShader gl GL_FRAGMENT_SHADER fragmentCode w
    if vertexShader = 0 || fragmentShader = 0 then
      let w := if vertexShader ≠ 0 then w.call (gl.glDeleteShader vertexShader) else w
      let w := if fragmentShader ≠ 0 then w.call (gl.glDeleteShader fragmentShader) else w
      (0, w)
    else
      let (shaderProgram, g) := gl.glCreateProgram w.gl
      let w := { w with gl := g }
      let w := w.call (gl.glAttachShader shaderProgram vertexShader)
      let w := w.call (gl.glAttachShader shaderProgram fragmentShader)
      let w := w.call (gl.glLinkProgram shaderProgram)
      let success := gl.glGetProgramiv shaderProgram GL_LINK_STATUS w.gl
      if success = 0 then
        let w := w.err ("错误：着色器程序链接失败\n" ++ gl.glGetProgramInfoLog shaderProgram w.gl)
        let w := w.call (gl.glDeleteShader vertexShader)
        let w := w.call (gl.glDeleteShader fragmentShader)
        (0, w)
      else
        let w := w.call (gl.glDeleteShader vertexShader)
        let w := w.call (gl.glDeleteShader fragmentShader)
        (shaderProgram, w)

end CP1

/-! ## Reading text (`std::istringstream`, `std::getline`, `std::stoi`) -/

/-- The type `glm::vec2`. -/
@[ext]
structure Vec2 (K : Type) where
  x : K
  y : K

/-- The C function `isspace` in the "C" locale: the space and the controls from tab to
carriage return. -/
def isspace (c : Char) : Bool := c.toNat == 32 || (9 ≤ c.toNat && c.toNat ≤ 13)

/-- The C function `isdigit`. -/
def isdigit (c : Char) : Bool := 48 ≤ c.toNat && c.toNat ≤ 57

/-- State of a `std::istringstream`: the characters not yet read and the state bits
`eofbit` and `failbit`. -/
structure IStringStream where
  rest : List Char
  eofbit : Bool
  failbit : Bool

namespace IStringStream

/-- The constructor `std::istringstream iss(s)`. -/
def ofString (s : String) : IStringStream := ⟨s.data, false, false⟩

/-- The member `good()`: no state bit is set. -/
def good (iss : IStringStream) : Bool := !iss.eofbit && !iss.failbit

/-- The extraction `iss >> word` into a `std::string`: skips white space and reads up to
the next white space or the end. `old` is what `word` held before; it stays when the
stream is not good or holds nothing but white space, and `failbit` is set then. -/
def readString (iss : IStringStream) (old : String) : String × IStringStream :=
  if iss.good then
    match iss.rest.dropWhile isspace with
    | [] => (old, ⟨[], true, true⟩)
    | c :: cs =>
      let word := (c :: cs).takeWhile (fun d => !isspace d)
      let rest := (c :: cs).dropWhile (fun d => !isspace d)
      (String.mk word, ⟨rest, rest.isEmpty, false⟩)
  else (old, { iss with failbit := true })

/-- The call `std::getline(iss, token, delim)`: whether the returned stream tests true
(`failbit` is not set), the token, and the stream. Characters are read up to `delim`, which
is taken out of the stream and not stored, or up to the end, which sets `eofbit`; reading
nothing at all sets `failbit`. On a stream that is not good the token stays `old`. -/
def getline (iss : IStringStream) (old : String) (delim : Char) :
    Bool × String × IStringStream :=
  if iss.good then
    let token := iss.rest.takeWhile (fun d => d != delim)
    match iss.rest.dropWhile (fun d => d != delim) with
    | [] => (!token.isEmpty, String.mk token, ⟨[], true, token.isEmpty⟩)
    | _ :: rest => (true, String.mk token, ⟨rest, false, false⟩)
  else (false, old, { iss with failbit := true })

end IStringStream

/-- The lines `while (std::getline(file, line))` reads from a file with the given
characters: the pieces between newline characters, and a last piece without newline when
it is not empty. `acc` is the line read so far. -/
def getlines : List Char → List Char → List String
  | [], acc => if acc.isEmpty then [] else [String.mk acc]
  | c :: cs, acc =>
    if c = Char.ofNat 10 then String.mk acc :: getlines cs [] else getlines cs (acc ++ [c])

/-- The number a run of decimal digits denotes. -/
def decimalValue (digits : List Char) : Nat :=
  digits.foldl (fun n c => 10 * n + (c.toNat - 48)) 0

/-- The constant `INT_MAX` of a 32-bit `int`. -/
def INT_MAX : Int := 2147483647

/-- The constant `INT_MIN` of a 32-bit `int`. -/
def INT_MIN : Int := -2147483648

/-- The function `std::stoi(s)` in base 10: skips leading white space, takes an optional
sign and the longest run of digits, and ignores what follows. The result is `none` when
`std::stoi` throws: `std::invalid_argument` without a digit, `std::out_of_range` for a
value that is not an `int`. -/
def stoi (s : String) : Option Int :=
  let cs := s.data.dropWhile isspace
  let signed : Bool × List Char :=
    match cs with
    | c :: rest => if c = '-' then (true, rest) else if c = '+' then (false, rest)
        else (false, c :: rest)
    | [] => (false, [])
  let digits := signed.2.takeWhile isdigit
  if digits.isEmpty then none
  else
    let n : Int := decimalValue digits
    let v : Int := if signed.1 then -n else n
    if v < INT_MIN ∨ INT_MAX < v then none else some v

/-- The conversion of an `int` to `unsigned int`: the value modulo `2^32`. -/
def toUnsigned (i : Int) : Nat := (i % 4294967296).toNat

/-- A numeric extraction `iss >> x` needs the parser of the stream's locale (`num_get`):
from the characters at hand, white space skipped, it gives the value read and the
characters left, or nothing when no number starts there. The loaders take it as a
parameter. -/
abbrev NumGet (K : Type) := List Char → Option (K × List Char)

/-- The extraction `iss >> x` into a `float`. `old` is what `x` held before and stays when
the stream was not good; a failed parse stores 0 and sets `failbit`. -/
def IStringStream.readFloat {K : Type} [Zero K] (num_get : NumGet K) (iss : IStringStream)
    (old : K) : K × IStringStream :=
  if iss.good then
    match iss.rest.dropWhile isspace with
    | [] => (old, ⟨[], true, true⟩)
    | c :: cs =>
      match num_get (c :: cs) with
      | some (v, rest) => (v, ⟨rest, rest.isEmpty, false⟩)
      | none => (0, ⟨c :: cs, false, true⟩)
  else (old, { iss with failbit := true })

/-- What C++ leaves open and the loaders can meet: the content of a `glm::vec3`,
`glm::vec2` or `float` that was declared without a value, and what `v[i]` reads when `i` is
past the end of a vector (of `glm::vec3`, of indices). The loaders take these as given from
outside; a write past the end is dropped. -/
structure Unspecified (K : Type) where
  vec3 : Vec3 K
  vec2 : Vec2 K
  float : K
  pastEnd : Nat → Vec3 K
  pastEndIndex : Nat → Nat

/-- The read `v[i]` of a `std::vector`; `pastEnd i` is what it gives past the end. -/
def vectorAt {α : Type} (pastEnd : Nat → α) (v : List α) (i : Nat) : α :=
  (v.get? i).getD (pastEnd i)

/-! ## The OBJ loader (`OBJLoader.h` of CP6) -/

/-- The struct `Vertex`. -/
structure Vertex (K : Type) where
  Position : Vec3 K
  Normal : Vec3 K
  TexCoords : Vec2 K

/-- The members `vertices` and `indices` of the class `OBJLoader`. The buffer names `VAO`,
`VBO`, `EBO` and the upload `setupMesh`, which reads the two vectors and writes neither,
are left out, and so is the console output. -/
structure OBJLoader (K : Type) where
  vertices : List (Vertex K)
  indices : List Nat

namespace OBJLoader

/-- The method `OBJLoader::parseVertex`: the three index vectors after the call, or `none`
when `std::stoi` throws. -/
def parseVertex (vertex : String) (vertex_indices uv_indices normal_indices : List Nat) :
    Option (List Nat × List Nat × List Nat) :=
  let iss := IStringStream.ofString vertex
  let token := ""
  let (got, token, iss) := iss.getline token '/'
  (if got then (stoi token).map (fun n => vertex_indices ++ [toUnsigned (n - 1)])
    else some vertex_indices).bind fun vertex_indices =>
  let (got, token, iss) := iss.getline token '/'
  (if got then
      if !token.isEmpty then (stoi token).map (fun n => uv_indices ++ [toUnsigned (n - 1)])
      else some uv_indices
    else some uv_indices).bind fun uv_indices =>
  let (got, token, _) := iss.getline token (Char.ofNat 10)
  (if got then
      if !token.isEmpty then
        (stoi token).map (fun n => normal_indices ++ [toUnsigned (n - 1)])
      else some normal_indices
    else some normal_indices).bind fun normal_indices =>
  some (vertex_indices, uv_indices, normal_indices)

section Normals

variable {K : Type} [LinearOrderedField K] [CMath K]

/-- The method `OBJLoader::generateNormals`. The loop `for (i = 0; i < indices.size();
i += 3)` runs for `i = 3 t` with `t` below `(indices.size() + 2) / 3`. The method checks no
index; what this definition gives when an index is past the end of its vector stands for
nothing in C++, and `loadOBJ` does not call it then. -/
def generateNormals (u : Unspecified K) (vertices : List (Vec3 K)) (indices : List Nat) :
    List (Vec3 K) :=
  let normals := List.replicate vertices.length (⟨0, 0, 0⟩ : Vec3 K)
  let normals := (List.range ((indices.length + 2) / 3)).foldl
    (fun (normals : List (Vec3 K)) t =>
      let i := 3 * t
      let i0 := vectorAt u.pastEndIndex indices i
      let i1 := vectorAt u.pastEndIndex indices (i + 1)
      let i2 := vectorAt u.pastEndIndex indices (i + 2)
      let v0 := vectorAt u.pastEnd vertices i0
      let v1 := vectorAt u.pastEnd vertices i1
      let v2 := vectorAt u.pastEnd vertices i2
      let edge1 := v1 - v0
      let edge2 := v2 - v0
      let normal := glm.normalize (glm.cross edge1 edge2)
      let normals := normals.set i0 (vectorAt u.pastEnd normals i0 + normal)
      let normals := normals.set i1 (vectorAt u.pastEnd normals i1 + normal)
      let normals := normals.set i2 (vectorAt u.pastEnd normals i2 + normal)
      normals)
    normals
  normals.map glm.normalize

end Normals

section Build

variable {K : Type} [LinearOrderedField K]

/-- The method `OBJLoader::buildVertexData`: the members `vertices` and `indices` after the
call. The loop counter `i`, a `size_t`, is stored into `indices` as `unsigned int`. The
position and the normal are read without a test of the index; `loadOBJ` does not call the
method when such a read would be past the end. -/
def buildVertexData (u : Unspecified K) (temp_vertices : List (Vec3 K))
    (temp_uvs : List (Vec2 K)) (temp_normals : List (Vec3 K))
    (vertex_indices uv_indices normal_indices : List Nat) (hasOriginalNormals : Bool) :
    OBJLoader K :=
  (List.range vertex_indices.length).foldl
    (fun (self : OBJLoader K) i =>
      let Position := vectorAt u.pastEnd temp_vertices (vectorAt u.pastEndIndex vertex_indices i)
      let TexCoords : Vec2 K :=
        if i < uv_indices.length ∧ vectorAt u.pastEndIndex uv_indices i < temp_uvs.length then
          vectorAt (fun _ => u.vec2) temp_uvs (vectorAt u.pastEndIndex uv_indices i)
        else ⟨0, 0⟩
      let Normal :=
        if hasOriginalNormals = true ∧ i < normal_indices.length then
          vectorAt u.pastEnd temp_normals (vectorAt u.pastEndIndex normal_indices i)
        else vectorAt u.pastEnd temp_normals (vectorAt u.pastEndIndex vertex_indices i)
      { vertices := self.vertices ++ [⟨Position, Normal, TexCoords⟩]
        indices := self.indices ++ [i % 4294967296] })
    { vertices := [], indices := [] }

end Build

section Load

variable {K : Type} [LinearOrderedField K] [CMath K]

/-- The local vectors of `loadOBJ`. -/
structure Temp (K : Type) where
  temp_vertices : List (Vec3 K)
  temp_uvs : List (Vec2 K)
  temp_normals : List (Vec3 K)
  vertex_indices : List Nat
  uv_indices : List Nat
  normal_indices : List Nat

/-- The body of the `while` loop of `loadOBJ` for one line: the local vectors after it, or
`none` when `std::stoi` throws. -/
def loadOBJ_line (num_get : NumGet K) (u : Unspecified K) (t : Temp K) (line : String) :
    Option (Temp K) :=
  let iss := IStringStream.ofString line
  let (pfx, iss) := iss.readString ""
  if pfx = "v" then
    let (x, iss) := iss.readFloat num_get u.vec3.x
    let (y, iss) := iss.readFloat num_get u.vec3.y
    let (z, _) := iss.readFloat num_get u.vec3.z
    some { t with temp_vertices := t.temp_vertices ++ [⟨x, y, z⟩] }
  else if pfx = "vt" then
    let (x, iss) := iss.readFloat num_get u.vec2.x
    let (y, _) := iss.readFloat num_get u.vec2.y
    some { t with temp_uvs := t.temp_uvs ++ [⟨x, y⟩] }
  else if pfx = "vn" then
    let (x, iss) := iss.readFloat num_get u.vec3.x
    let (y, iss) := iss.readFloat num_get u.vec3.y
    let (z, _) := iss.readFloat num_get u.vec3.z
    some { t with temp_normals := t.temp_normals ++ [⟨x, y, z⟩] }
  else if pfx = "f" then
    let (vertex1, iss) := iss.readString ""
    let (vertex2, iss) := iss.readString ""
    let (vertex3, _) := iss.readString ""
    (parseVertex vertex1 t.vertex_indices t.uv_indices t.normal_indices).bind fun r1 =>
    (parseVertex vertex2 r1.1 r1.2.1 r1.2.2).bind fun r2 =>
    (parseVertex vertex3 r2.1 r2.2.1 r2.2.2).bind fun r3 =>
    some { t with vertex_indices := r3.1, uv_indices := r3.2.1, normal_indices := r3.2.2 }
  else some t

/-- Whether every access of `generateNormals` stays inside its vector: the index list is
read in whole triples, and every index names an entry of `vertices`, hence of `normals`,
which has the same size. Where this fails C++ defines no behaviour for the call. -/
def generateNormals_defined (vertices : List (Vec3 K)) (indices : List Nat) : Bool :=
  indices.length % 3 == 0 && indices.all fun j => j < vertices.length

/-- Whether every unguarded access of `buildVertexData` stays inside its vector: in each
round the position index names an entry of `temp_vertices`, and the index the normal is
read at names an entry of `temp_normals`. Where this fails C++ defines no behaviour for
the call. -/
def buildVertexData_defined (temp_vertices temp_normals : List (Vec3 K))
    (vertex_indices normal_indices : List Nat) (hasOriginalNormals : Bool) : Bool :=
  (List.range vertex_indices.length).all fun i =>
    vertex_indices.getD i 0 < temp_vertices.length &&
      (if hasOriginalNormals = true ∧ i < normal_indices.length then
          normal_indices.getD i 0 < temp_normals.length
        else vertex_indices.getD i 0 < temp_normals.length)

/-- The method `OBJLoader::loadOBJ` on the loader `self`: the value returned and the loader
after the call. The result is `none` when the call does not return: when `std::stoi` throws
on a face line, and when `generateNormals` or `buildVertexData` would index a vector past
its end, where C++ defines no behaviour (in practice the loader crashes). -/
def loadOBJ (fs : FileSystem) (num_get : NumGet K) (u : Unspecified K) (self : OBJLoader K)
    (path : String) : Option (Bool × OBJLoader K) :=
  match fs path with
  | none => some (false, self)
  | some content =>
    ((getlines content.data []).foldlM (loadOBJ_line num_get u)
      { temp_vertices := [], temp_uvs := [], temp_normals := [], vertex_indices := [],
        uv_indices := [], normal_indices := [] }).bind fun t =>
    let hasNormals :=
      !t.temp_normals.isEmpty && t.normal_indices.length == t.vertex_indices.length
    if !hasNormals && !generateNormals_defined t.temp_vertices t.vertex_indices then none
    else
      let t :=
        if !hasNormals then
          { t with
            temp_normals := generateNormals u t.temp_vertices t.vertex_indices
            normal_indices := t.vertex_indices }
        else t
      if !buildVertexData_defined t.temp_vertices t.temp_normals t.vertex_indices
          t.normal_indices hasNormals then none
      else
        some (true, buildVertexData u t.temp_vertices t.temp_uvs t.temp_normals
          t.vertex_indices t.uv_indices t.normal_indices hasNormals)

end Load

end OBJLoader

/-! ## Smooth normals in the words of the specification

These two definitions do not come from the source: they say what the description of
`generateNormals` says, to be compared with the method. -/

section SpecNormals

variable {K : Type} [LinearOrderedField K] [CMath K]

/-- The face normal of triangle number `t` of the index list `I` over the vertex list `V`:
`normalize((V[i1] - V[i0]) × (V[i2] - V[i0]))` for the triangle `(i0, i1, i2)`. -/
def spec_faceNormal (V : List (Vec3 K)) (I : List Nat) (t : Nat) : Vec3 K :=
  let v0 := V.getD (I.getD (3 * t) 0) ⟨0, 0, 0⟩
  let v1 := V.getD (I.getD (3 * t + 1) 0) ⟨0, 0, 0⟩
  let v2 := V.getD (I.getD (3 * t + 2) 0) ⟨0, 0, 0⟩
  glm.normalize (glm.cross (v1 - v0) (v2 - v0))

/-- What triangle number `t` adds at vertex `k`: its face normal once for every corner of
the triangle that is `k`. -/
def spec_contribution (V : List (Vec3 K)) (I : List Nat) (k t : Nat) : Vec3 K :=
  (if I.getD (3 * t) 0 = k then spec_faceNormal V I t else ⟨0, 0, 0⟩)
    + (if I.getD (3 * t + 1) 0 = k then spec_faceNormal V I t else ⟨0, 0, 0⟩)
    + (if I.getD (3 * t + 2) 0 = k then spec_faceNormal V I t else ⟨0, 0, 0⟩)

/-- The smooth normal at vertex `k`: the normalisation of the sum, over the triangles of
`I`, of what each adds at `k`. -/
def spec_smoothNormal (V : List (Vec3 K)) (I : List Nat) (k : Nat) : Vec3 K :=
  glm.normalize
    (((List.range (I.length / 3)).map (spec_contribution V I k)).foldl (· + ·) ⟨0, 0, 0⟩)

end SpecNormals

/-! ## Lines of an OBJ file, for the statements about `loadOBJ`

These definitions name what the statements about `loadOBJ` speak of; the words of a line
are read the way the loader reads them. -/

/-- The first word of a line: what `iss >> prefix` reads. -/
def firstWord (line : String) : String :=
  ((IStringStream.ofString line).readString "").1

/-- The three words after the first one: what `iss >> vertex1 >> vertex2 >> vertex3` reads
on a face line; a word that is not there is empty. -/
def faceWords (line : String) : String × String × String :=
  let iss := ((IStringStream.ofString line).readString "").2
  let r1 := iss.readString ""
  let r2 := r1.2.readString ""
  let r3 := r2.2.readString ""
  (r1.1, r2.1, r3.1)

/-- A well-formed vertex token: `a/b/c`, `a//c`, `a/b` or `a` for positive numbers in the
range of `int`, written in decimal. -/
def WellFormedVertex (token : String) : Prop :=
  ∃ a b c : Nat, (0 < a ∧ a ≤ 2147483647) ∧ (0 < b ∧ b ≤ 2147483647) ∧
    (0 < c ∧ c ≤ 2147483647) ∧
    (token = toString a ++ "/" ++ toString b ++ "/" ++ toString c ∨
      token = toString a ++ "//" ++ toString c ∨
      token = toString a ++ "/" ++ toString b ∨
      token = toString a)

/-- The face lines of a file: the lines whose first word is `f`. -/
def faceLines (content : String) : List String :=
  (getlines content.data []).filter fun line => firstWord line = "f"

/-- The position lines of a file: the lines whose first word is `v`. -/
def positionLines (content : String) : List String :=
  (getlines content.data []).filter fun line => firstWord line = "v"

/-- The normal lines of a file: the lines whose first word is `vn`. -/
def normalLines (content : String) : List String :=
  (getlines content.data []).filter fun line => firstWord line = "vn"

/-- A well-formed vertex token whose indices name what is there: its position index is at
most `nv`, the number of positions, and its normal index, if it has one, at most `nn`, the
number of normals. The texture index is free: `buildVertexData` tests it. -/
def WellFormedVertexWithin (nv nn : Nat) (token : String) : Prop :=
  ∃ a b c : Nat, (0 < a ∧ a ≤ 2147483647) ∧ (0 < b ∧ b ≤ 2147483647) ∧
    (0 < c ∧ c ≤ 2147483647) ∧ a ≤ nv ∧
    ((token = toString a ++ "/" ++ toString b ++ "/" ++ toString c ∧ c ≤ nn) ∨
      (token = toString a ++ "//" ++ toString c ∧ c ≤ nn) ∨
      token = toString a ++ "/" ++ toString b ∨
      token = toString a)

/-! ## Materials (`loadMTL` in `Utils.h` of CP6) -/

/-- The struct `Utils::PBRMaterial`. -/
structure PBRMaterial (K : Type) where
  albedo : Vec3 K
  metallic : K
  roughness : K
  ao : K
  albedoMap : Nat
  metallicMap : Nat
  roughnessMap : Nat
  normalMap : Nat
  aoMap : Nat
  albedoPath : String
  metallicPath : String
  roughnessPath : String
  normalPath : String
  aoPath : String

/-- The value `PBRMaterial()`: every member at its default initialiser. -/
def PBRMaterial.init {K : Type} [LinearOrderedField K] : PBRMaterial K :=
  { albedo := ⟨0.8, 0.8, 0.8⟩
    metallic := 0
    roughness := 0.5
    ao := 1
    albedoMap := 0
    metallicMap := 0
    roughnessMap := 0
    normalMap := 0
    aoMap := 0
    albedoPath := ""
    metallicPath := ""
    roughnessPath := ""
    normalPath := ""
    aoPath := "" }

/-- The assignment `m[key] = value` on a `std::map<std::string, V>`, kept as the list of
its entries in increasing key order: a new key goes to its place, a key that is there gets
the new value. -/
def mapAssign {V : Type} : List (String × V) → String → V → List (String × V)
  | [], key, value => [(key, value)]
  | (k, v) :: rest, key, value =>
    if key < k then (key, value) :: (k, v) :: rest
    else if key = k then (key, value) :: rest
    else (k, v) :: mapAssign rest key value

/-- The member `s.find(pat)` of `std::string`: the place of the first occurrence, `none`
for `npos`. -/
def strFind : List Char → List Char → Option Nat
  | [], pat => if pat.isEmpty then some 0 else none
  | c :: cs, pat => if pat.isPrefixOf (c :: cs) then some 0 else (strFind cs pat).map (· + 1)

/-- The words `while (stream >> temp)` reads one after the other. `acc` is the word read
so far. -/
def streamWords : List Char → List Char → List String
  | [], acc => if acc.isEmpty then [] else [String.mk acc]
  | c :: cs, acc =>
    if isspace c then
      if acc.isEmpty then streamWords cs [] else String.mk acc :: streamWords cs []
    else streamWords cs (acc ++ [c])

namespace CP6

section Materials

variable {σ : Type} {K : Type} [LinearOrderedField K]

/-- The local variables of `loadMTL` that its loop changes. -/
structure MtlLoop (K : Type) where
  materials : List (String × PBRMaterial K)
  currentMaterial : String
  material : PBRMaterial K

/-- The body of the `while` loop of `Utils::loadMTL` for one line. -/
def loadMTL_line (num_get : NumGet K) (u : Unspecified K) (baseDir : String) (s : MtlLoop K)
    (line : String) : MtlLoop K :=
  let iss := IStringStream.ofString line
  let (pfx, iss) := iss.readString ""
  if pfx = "newmtl" then
    let materials :=
      if !s.currentMaterial.isEmpty then mapAssign s.materials s.currentMaterial s.material
      else s.materials
    let (currentMaterial, _) := iss.readString s.currentMaterial
    { materials := materials, currentMaterial := currentMaterial, material := PBRMaterial.init }
  else if pfx = "Kd" then
    let (r, iss) := iss.readFloat num_get s.material.albedo.x
    let (g, iss) := iss.readFloat num_get s.material.albedo.y
    let (b, _) := iss.readFloat num_get s.material.albedo.z
    { s with material := { s.material with albedo := ⟨r, g, b⟩ } }
  else if pfx = "map_Kd" then
    let (albedoPath, _) := iss.readString s.material.albedoPath
    let albedoPath := if !baseDir.isEmpty then baseDir ++ "/" ++ albedoPath else albedoPath
    { s with material := { s.material with albedoPath := albedoPath } }
  else if pfx = "map_Pm" then
    let (metallicPath, _) := iss.readString s.material.metallicPath
    let metallicPath :=
      if !baseDir.isEmpty then baseDir ++ "/" ++ metallicPath else metallicPath
    { s with material := { s.material with metallicPath := metallicPath } }
  else if pfx = "map_Pr" then
    let (roughnessPath, _) := iss.readString s.material.roughnessPath
    let roughnessPath :=
      if !baseDir.isEmpty then baseDir ++ "/" ++ roughnessPath else roughnessPath
    { s with material := { s.material with roughnessPath := roughnessPath } }
  else if pfx = "map_Bump" ∨ pfx = "bump" then
    let remaining :=
      match strFind line.data pfx.data with
      | some p => line.data.drop (p + pfx.length)
      | none => line.data.drop (pfx.length - 1)
    let found := (streamWords remaining []).find? fun temp =>
      (strFind temp.data ".png".data).isSome || (strFind temp.data ".jpg".data).isSome
        || (strFind temp.data ".jpeg".data).isSome || (strFind temp.data ".tga".data).isSome
        || (strFind temp.data ".bmp".data).isSome
    let normalPath :=
      match found with
      | some temp => temp
      | none => s.material.normalPath
    let normalPath :=
      if !baseDir.isEmpty && !normalPath.isEmpty then baseDir ++ "/" ++ normalPath
      else normalPath
    { s with material := { s.material with normalPath := normalPath } }
  else if pfx = "map_Ka" then
    let (aoPath, _) := iss.readString s.material.aoPath
    let aoPath := if !baseDir.isEmpty then baseDir ++ "/" ++ aoPath else aoPath
    { s with material := { s.material with aoPath := aoPath } }
  else if pfx = "Ns" then
    let (ns, _) := iss.readFloat num_get u.float
    let roughness := 1 - ns / 1000
    let roughness := glm.clamp roughness 0 1
    { s with material := { s.material with roughness := roughness } }
  else s

end Materials

end CP6

/-! ## MTL text in the words of the specification

These definitions do not come from the source: they say what a `newmtl` block is, to be
compared with `loadMTL`. The words of a line are read the way the loader reads them. -/

section SpecMaterials

variable {K : Type} [LinearOrderedField K]

/-- The exponent an `Ns` line carries: what `iss >> ns` reads after the first word. -/
def spec_nsRead (num_get : NumGet K) (u : Unspecified K) (line : String) : K :=
  (((IStringStream.ofString line).readString "").2.readFloat num_get u.float).1

end SpecMaterials

/-! ## Auxiliary definitions for the statements about `loadMTL` -/

section MaterialsAux

variable {K : Type} [LinearOrderedField K]

end MaterialsAux

/-! ## Component lemmas -/

section Projections

variable {K : Type}

@[simp] theorem vec4_ofVec3_x (v : Vec3 K) (w : K) : (Vec4.ofVec3 v w).x = v.x := rfl
@[simp] theorem vec4_ofVec3_y (v : Vec3 K) (w : K) : (Vec4.ofVec3 v w).y = v.y := rfl
@[simp] theorem vec4_ofVec3_z (v : Vec3 K) (w : K) : (Vec4.ofVec3 v w).z = v.z := rfl
@[simp] theorem vec4_ofVec3_w (v : Vec3 K) (w : K) : (Vec4.ofVec3 v w).w = w := rfl
@[simp] theorem vec4_xyz_x (v : Vec4 K) : v.xyz.x = v.x := rfl
@[simp] theorem vec4_xyz_y (v : Vec4 K) : v.xyz.y = v.y := rfl
@[simp] theorem vec4_xyz_z (v : Vec4 K) : v.xyz.z = v.z := rfl
@[simp] theorem vec4_xyz_ofVec3 (v : Vec3 K) (w : K) : (Vec4.ofVec3 v w).xyz = v := rfl

end Projections

section Components

variable {K : Type} [LinearOrderedField K]

@[simp] theorem vec3_add_x (a b : Vec3 K) : (a + b).x = a.x + b.x := rfl
@[simp] theorem vec3_add_y (a b : Vec3 K) : (a + b).y = a.y + b.y := rfl
@[simp] theorem vec3_add_z (a b : Vec3 K) : (a + b).z = a.z + b.z := rfl
@[simp] theorem vec3_sub_x (a b : Vec3 K) : (a - b).x = a.x - b.x := rfl
@[simp] theorem vec3_sub_y (a b : Vec3 K) : (a - b).y = a.y - b.y := rfl
@[simp] theorem vec3_sub_z (a b : Vec3 K) : (a - b).z = a.z - b.z := rfl
@[simp] theorem vec3_neg_x (a : Vec3 K) : (-a).x = -a.x := rfl
@[simp] theorem vec3_neg_y (a : Vec3 K) : (-a).y = -a.y := rfl
@[simp] theorem vec3_neg_z (a : Vec3 K) : (-a).z = -a.z := rfl
@[simp] theorem vec3_mul_x (a : Vec3 K) (s : K) : (a * s).x = a.x * s := rfl
@[simp] theorem vec3_mul_y (a : Vec3 K) (s : K) : (a * s).y = a.y * s := rfl
@[simp] theorem vec3_mul_z (a : Vec3 K) (s : K) : (a * s).z = a.z * s := rfl
@[simp] theorem vec3_smul_x (s : K) (a : Vec3 K) : (s * a).x = s * a.x := rfl
@[simp] theorem vec3_smul_y (s : K) (a : Vec3 K) : (s * a).y = s * a.y := rfl
@[simp] theorem vec3_smul_z (s : K) (a : Vec3 K) : (s * a).z = s * a.z := rfl

@[simp] theorem vec4_add_x (a b : Vec4 K) : (a + b).x = a.x + b.x := rfl
@[simp] theorem vec4_add_y (a b : Vec4 K) : (a + b).y = a.y + b.y := rfl
@[simp] theorem vec4_add_z (a b : Vec4 K) : (a + b).z = a.z + b.z := rfl
@[simp] theorem vec4_add_w (a b : Vec4 K) : (a + b).w = a.w + b.w := rfl
@[simp] theorem vec4_mul_x (a : Vec4 K) (s : K) : (a * s).x = a.x * s := rfl
@[simp] theorem vec4_mul_y (a : Vec4 K) (s : K) : (a * s).y = a.y * s := rfl
@[simp] theorem vec4_mul_z (a : Vec4 K) (s : K) : (a * s).z = a.z * s := rfl
@[simp] theorem vec4_mul_w (a : Vec4 K) (s : K) : (a * s).w = a.w * s := rfl
@[simp] theorem quat_mul_w (p q : Quat K) :
    (p * q).w = p.w * q.w - p.x * q.x - p.y * q.y - p.z * q.z := rfl
@[simp] theorem quat_mul_x (p q : Quat K) :
    (p * q).x = p.w * q.x + p.x * q.w + p.y * q.z - p.z * q.y := rfl
@[simp] theorem quat_mul_y (p q : Quat K) :
    (p * q).y = p.w * q.y + p.y * q.w + p.z * q.x - p.x * q.z := rfl
@[simp] theorem quat_mul_z (p q : Quat K) :
    (p * q).z = p.w * q.z + p.z * q.w + p.x * q.y - p.y * q.x := rfl

@[simp] theorem mat4_mulVec_x (m : Mat4 K) (v : Vec4 K) :
    (m * v).x = m.c0.x * v.x + m.c1.x * v.y + m.c2.x * v.z + m.c3.x * v.w := rfl
@[simp] theorem mat4_mulVec_y (m : Mat4 K) (v : Vec4 K) :
    (m * v).y = m.c0.y * v.x + m.c1.y * v.y + m.c2.y * v.z + m.c3.y * v.w := rfl
@[simp] theorem mat4_mulVec_z (m : Mat4 K) (v : Vec4 K) :
    (m * v).z = m.c0.z * v.x + m.c1.z * v.y + m.c2.z * v.z + m.c3.z * v.w := rfl

end Components

/-! ## The C math functions over the reals -/

@[simp] theorem cmath_sqrt (x : ℝ) : CMath.sqrt x = Real.sqrt x := rfl
@[simp] theorem cmath_sin (x : ℝ) : CMath.sin x = Real.sin x := rfl
@[simp] theorem cmath_cos (x : ℝ) : CMath.cos x = Real.cos x := rfl
@[simp] theorem cmath_asin (x : ℝ) : CMath.asin x = Real.arcsin x := rfl
@[simp] theorem cmath_atan2 (y x : ℝ) : CMath.atan2 y x = Complex.arg ⟨x, y⟩ := rfl
@[simp] theorem cmath_pi : (CMath.pi : ℝ) = Real.pi := rfl

/-! ## Field of view -/

/-- C8: `ProcessMouseScroll` sets `Fov` to `min (max (Fov - d) 1) 45` and changes no
other field; the new `Fov` lies in `[1, 45]`; from `Fov = 45` a scroll of `1000` gives
`1`, and from `Fov = 1` a scroll of `-1000` gives `45`. -/
theorem C8_ProcessMouseScroll_clamp (c : Camera ℝ) (d : ℝ) :
    c.ProcessMouseScroll d = { c with Fov := min (max (c.Fov - d) 1) 45 } ∧
    1 ≤ (c.ProcessMouseScroll d).Fov ∧ (c.ProcessMouseScroll d).Fov ≤ 45 ∧
    (Camera.ProcessMouseScroll { c with Fov := 45 } 1000).Fov = 1 ∧
    (Camera.ProcessMouseScroll { c with Fov := 1 } (-1000)).Fov = 45 := by
  have key : c.ProcessMouseScroll d = { c with Fov := min (max (c.Fov - d) 1) 45 } := by
    unfold Camera.ProcessMouseScroll
    by_cases h1 : c.Fov - d < 1
    · have h2 : ¬ ((1 : ℝ) > 45) := by norm_num
      simp [h1, h2, max_eq_right (le_of_lt h1)]
    · by_cases h2 : c.Fov - d > 45
      · have h3 : (1 : ℝ) ≤ c.Fov - d := not_lt.mp h1
        simp [h1, h2, max_eq_left h3, min_eq_right (le_of_lt h2)]
      · have h3 : (1 : ℝ) ≤ c.Fov - d := not_lt.mp h1
        have h4 : c.Fov - d ≤ 45 := not_lt.mp h2
        simp [h1, h2, max_eq_left h3, min_eq_left h4]
  refine ⟨key, ?_, ?_, ?_, ?_⟩
  · rw [key]
    exact le_min (le_max_right _ _) (by norm_num)
  · rw [key]
    exact min_le_right _ _
  · unfold Camera.ProcessMouseScroll
    norm_num
  · unfold Camera.ProcessMouseScroll
    norm_num

/-! ## Vector algebra -/

section VectorAlgebra

variable {K : Type} [LinearOrderedField K]

theorem dot_comm (a b : Vec3 K) : glm.dot a b = glm.dot b a := by
  simp only [glm.dot]; ring

theorem dot_cross_left (a b : Vec3 K) : glm.dot (glm.cross a b) a = 0 := by
  simp only [glm.dot, glm.cross]; ring

theorem dot_cross_right (a b : Vec3 K) : glm.dot (glm.cross a b) b = 0 := by
  simp only [glm.dot, glm.cross]; ring

theorem dot_cross_cross (a b : Vec3 K) :
    glm.dot (glm.cross a b) (glm.cross a b)
      = glm.dot a a * glm.dot b b - glm.dot a b * glm.dot a b := by
  simp only [glm.dot, glm.cross]; ring

theorem dot_mul_mul (a b : Vec3 K) (s t : K) :
    glm.dot (a * s) (b * t) = s * t * glm.dot a b := by
  simp only [glm.dot, vec3_mul_x, vec3_mul_y, vec3_mul_z]; ring

theorem dot_neg_neg (a b : Vec3 K) : glm.dot (-a) (-b) = glm.dot a b := by
  simp only [glm.dot, vec3_neg_x, vec3_neg_y, vec3_neg_z]; ring

theorem dot_neg_left (a b : Vec3 K) : glm.dot (-a) b = -glm.dot a b := by
  simp only [glm.dot, vec3_neg_x, vec3_neg_y, vec3_neg_z]; ring

theorem dot_neg_right (a b : Vec3 K) : glm.dot a (-b) = -glm.dot a b := by
  simp only [glm.dot, vec3_neg_x, vec3_neg_y, vec3_neg_z]; ring

theorem vec3_neg_neg (a : Vec3 K) : - -a = a := by
  ext <;> simp only [vec3_neg_x, vec3_neg_y, vec3_neg_z, neg_neg]

theorem cross_mul_left (a b : Vec3 K) (s : K) :
    glm.cross (a * s) b = glm.cross a b * s := by
  ext <;> simp only [glm.cross, vec3_mul_x, vec3_mul_y, vec3_mul_z] <;> ring

/-- A vector that is zero has zero dot product with itself, and conversely. -/
theorem dot_self_eq_zero_iff (a : Vec3 K) : glm.dot a a = 0 ↔ a = ⟨0, 0, 0⟩ := by
  constructor
  · intro h
    simp only [glm.dot] at h
    have hx : a.x = 0 := by nlinarith [mul_self_nonneg a.x, mul_self_nonneg a.y, mul_self_nonneg a.z]
    have hy : a.y = 0 := by nlinarith [mul_self_nonneg a.x, mul_self_nonneg a.y, mul_self_nonneg a.z]
    have hz : a.z = 0 := by nlinarith [mul_self_nonneg a.x, mul_self_nonneg a.y, mul_self_nonneg a.z]
    ext <;> assumption
  · intro h
    subst h
    simp [glm.dot]

theorem dot_self_nonneg (a : Vec3 K) : 0 ≤ glm.dot a a := by
  simp only [glm.dot]
  nlinarith [mul_self_nonneg a.x, mul_self_nonneg a.y, mul_self_nonneg a.z]

theorem qdot_mul (p q : Quat K) :
    glm.qdot (p * q) (p * q) = glm.qdot p p * glm.qdot q q := by
  simp only [glm.qdot, quat_mul_w, quat_mul_x, quat_mul_y, quat_mul_z]; ring

theorem qdot_self_nonneg (q : Quat K) : 0 ≤ glm.qdot q q := by
  simp only [glm.qdot]
  nlinarith [mul_self_nonneg q.x, mul_self_nonneg q.y, mul_self_nonneg q.z, mul_self_nonneg q.w]

theorem quat_mul_assoc (p q r : Quat K) : p * q * r = p * (q * r) := by
  ext <;> simp only [quat_mul_w, quat_mul_x, quat_mul_y, quat_mul_z] <;> ring

end VectorAlgebra

/-! ## Lengths and normalisation over the reals -/

theorem length_eq_one_iff (v : Vec3 ℝ) : glm.length v = 1 ↔ glm.dot v v = 1 := by
  simp only [glm.length, cmath_sqrt]
  constructor
  · intro h
    have h0 : 0 ≤ glm.dot v v := dot_self_nonneg v
    have := Real.sq_sqrt h0
    rw [h] at this
    linarith
  · intro h
    rw [h, Real.sqrt_one]

theorem qlength_eq_one_iff (q : Quat ℝ) : glm.qlength q = 1 ↔ glm.qdot q q = 1 := by
  simp only [glm.qlength, cmath_sqrt]
  constructor
  · intro h
    have h0 : 0 ≤ glm.qdot q q := qdot_self_nonneg q
    have := Real.sq_sqrt h0
    rw [h] at this
    linarith
  · intro h
    rw [h, Real.sqrt_one]

/-- Normalising a unit vector returns it. -/
theorem normalize_of_unit (v : Vec3 ℝ) (h : glm.dot v v = 1) : glm.normalize v = v := by
  ext <;> simp [glm.normalize, h]

/-- A non-zero vector is normalised to a unit vector. -/
theorem dot_normalize_self (v : Vec3 ℝ) (h : glm.dot v v ≠ 0) :
    glm.dot (glm.normalize v) (glm.normalize v) = 1 := by
  have h0 : 0 < glm.dot v v := lt_of_le_of_ne (dot_self_nonneg v) (Ne.symm h)
  have hs : Real.sqrt (glm.dot v v) ≠ 0 := (Real.sqrt_pos.mpr h0).ne'
  have hsq : Real.sqrt (glm.dot v v) * Real.sqrt (glm.dot v v) = glm.dot v v :=
    Real.mul_self_sqrt h0.le
  simp only [glm.normalize, cmath_sqrt, dot_mul_mul]
  field_simp

theorem dot_normalize_left (v w : Vec3 ℝ) :
    glm.dot (glm.normalize v) w = glm.dot v w * (1 / Real.sqrt (glm.dot v v)) := by
  simp only [glm.normalize, cmath_sqrt, glm.dot, vec3_mul_x, vec3_mul_y, vec3_mul_z]; ring

/-- The quaternion `normalize` always returns a unit quaternion. -/
theorem qdot_qnormalize (q : Quat ℝ) : glm.qdot (glm.qnormalize q) (glm.qnormalize q) = 1 := by
  unfold glm.qnormalize
  by_cases h : glm.qlength q ≤ 0
  · simp [h, glm.qdot]
  · have hpos : 0 < glm.qlength q := not_le.mp h
    have hsq : glm.qlength q * glm.qlength q = glm.qdot q q := by
      simp only [glm.qlength, cmath_sqrt]
      exact Real.mul_self_sqrt (qdot_self_nonneg q)
    simp only [h, if_false, glm.qdot]
    simp only [glm.qdot] at hsq
    field_simp
    linarith

/-- Normalising a unit quaternion returns it. -/
theorem qnormalize_of_unit (q : Quat ℝ) (h : glm.qdot q q = 1) : glm.qnormalize q = q := by
  have hl : glm.qlength q = 1 := (qlength_eq_one_iff q).mpr h
  have h10 : ¬ ((1 : ℝ) ≤ 0) := by norm_num
  unfold glm.qnormalize
  ext <;> simp [hl, h10]

/-! ## Orthonormal frames -/

section Frames

variable {K : Type} [LinearOrderedField K]

/-- Turning the pair `(R, T)` of an orthonormal right-handed frame `(R, T, -F)` by an
angle with cosine `c` and sine `s` about `F` gives such a frame again. -/
theorem frame_turn (F R T : Vec3 K) (c s : K) (hcs : c * c + s * s = 1)
    (hRR : glm.dot R R = 1) (hTT : glm.dot T T = 1)
    (hFR : glm.dot F R = 0) (hRT : glm.dot R T = 0) (hTF : glm.dot T F = 0)
    (hX : glm.cross R T = -F) :
    glm.dot (R * c - T * s) (R * c - T * s) = 1 ∧
    glm.dot (T * c + R * s) (T * c + R * s) = 1 ∧
    glm.dot F (R * c - T * s) = 0 ∧
    glm.dot (R * c - T * s) (T * c + R * s) = 0 ∧
    glm.dot (T * c + R * s) F = 0 ∧
    glm.cross (R * c - T * s) (T * c + R * s) = -F := by
  have hx := congrArg Vec3.x hX
  have hy := congrArg Vec3.y hX
  have hz := congrArg Vec3.z hX
  simp only [glm.dot, glm.cross, vec3_neg_x, vec3_neg_y, vec3_neg_z] at *
  refine ⟨?_, ?_, ?_, ?_, ?_, ?_⟩
  · simp only [vec3_sub_x, vec3_sub_y, vec3_sub_z, vec3_mul_x, vec3_mul_y, vec3_mul_z]
    linear_combination c * c * hRR - 2 * c * s * hRT + s * s * hTT + hcs
  · simp only [vec3_add_x, vec3_add_y, vec3_add_z, vec3_mul_x, vec3_mul_y, vec3_mul_z]
    linear_combination c * c * hTT + 2 * c * s * hRT + s * s * hRR + hcs
  · simp only [vec3_sub_x, vec3_sub_y, vec3_sub_z, vec3_mul_x, vec3_mul_y, vec3_mul_z]
    linear_combination c * hFR - s * hTF
  · simp only [vec3_sub_x, vec3_sub_y, vec3_sub_z, vec3_add_x, vec3_add_y, vec3_add_z,
      vec3_mul_x, vec3_mul_y, vec3_mul_z]
    linear_combination (c * c - s * s) * hRT + c * s * hRR - c * s * hTT
  · simp only [vec3_add_x, vec3_add_y, vec3_add_z, vec3_mul_x, vec3_mul_y, vec3_mul_z]
    linear_combination c * hTF + s * hFR
  · ext
    · simp only [vec3_sub_x, vec3_sub_y, vec3_sub_z, vec3_add_x, vec3_add_y, vec3_add_z,
        vec3_mul_x, vec3_mul_y, vec3_mul_z, vec3_neg_x]
      linear_combination (c * c + s * s) * hx - F.x * hcs
    · simp only [vec3_sub_x, vec3_sub_y, vec3_sub_z, vec3_add_x, vec3_add_y, vec3_add_z,
        vec3_mul_x, vec3_mul_y, vec3_mul_z, vec3_neg_y]
      linear_combination (c * c + s * s) * hy - F.y * hcs
    · simp only [vec3_sub_x, vec3_sub_y, vec3_sub_z, vec3_add_x, vec3_add_y, vec3_add_z,
        vec3_mul_x, vec3_mul_y, vec3_mul_z, vec3_neg_z]
      linear_combination (c * c + s * s) * hz - F.z * hcs

/-- The columns of `mat3_cast q` for a unit quaternion `q` are orthonormal and the
third is the cross product of the first two. -/
theorem mat3_cast_frame (q : Quat K) (h : glm.qdot q q = 1) :
    glm.dot (glm.mat3_cast q).c0 (glm.mat3_cast q).c0 = 1 ∧
    glm.dot (glm.mat3_cast q).c1 (glm.mat3_cast q).c1 = 1 ∧
    glm.dot (glm.mat3_cast q).c2 (glm.mat3_cast q).c2 = 1 ∧
    glm.dot (glm.mat3_cast q).c0 (glm.mat3_cast q).c1 = 0 ∧
    glm.dot (glm.mat3_cast q).c1 (glm.mat3_cast q).c2 = 0 ∧
    glm.dot (glm.mat3_cast q).c2 (glm.mat3_cast q).c0 = 0 ∧
    glm.cross (glm.mat3_cast q).c0 (glm.mat3_cast q).c1 = (glm.mat3_cast q).c2 := by
  simp only [glm.qdot] at h
  simp only [glm.dot, glm.cross, glm.mat3_cast]
  refine ⟨?_, ?_, ?_, ?_, ?_, ?_, ?_⟩
  · linear_combination 4 * (q.y * q.y + q.z * q.z) * h
  · linear_combination 4 * (q.x * q.x + q.z * q.z) * h
  · linear_combination 4 * (q.x * q.x + q.y * q.y) * h
  · linear_combination (-4 * q.x * q.y) * h
  · linear_combination (-4 * q.y * q.z) * h
  · linear_combination (-4 * q.x * q.z) * h
  · ext
    · simp only []
      linear_combination (4 * q.x * q.z) * h
    · simp only []
      linear_combination (4 * q.y * q.z) * h
    · simp only []
      linear_combination (4 * q.z * q.z) * h

end Frames

/-! ## The vectors `updateCameraVectors` derives -/

/-- What `rotate(mat4(1), θ, a) * vec4(v, 0)` is for a unit axis `a` (Rodrigues). -/
theorem rotate_apply (θ : ℝ) (a v : Vec3 ℝ) (ha : glm.dot a a = 1) :
    (glm.rotate Mat4.identity θ a * Vec4.ofVec3 v 0).xyz
      = v * Real.cos θ + a * ((1 - Real.cos θ) * glm.dot a v)
          + glm.cross a v * Real.sin θ := by
  ext
  · simp only [glm.rotate, normalize_of_unit a ha, Mat4.identity, glm.dot, glm.cross,
      cmath_cos, cmath_sin, vec4_xyz_x, mat4_mulVec_x, vec4_add_x, vec4_mul_x,
      vec4_ofVec3_x, vec4_ofVec3_y, vec4_ofVec3_z, vec4_ofVec3_w, vec3_smul_x, vec3_smul_y,
      vec3_smul_z, vec3_add_x, vec3_mul_x]
    ring
  · simp only [glm.rotate, normalize_of_unit a ha, Mat4.identity, glm.dot, glm.cross,
      cmath_cos, cmath_sin, vec4_xyz_y, mat4_mulVec_y, vec4_add_y, vec4_mul_y,
      vec4_ofVec3_x, vec4_ofVec3_y, vec4_ofVec3_z, vec4_ofVec3_w, vec3_smul_x, vec3_smul_y,
      vec3_smul_z, vec3_add_y, vec3_mul_y]
    ring
  · simp only [glm.rotate, normalize_of_unit a ha, Mat4.identity, glm.dot, glm.cross,
      cmath_cos, cmath_sin, vec4_xyz_z, mat4_mulVec_z, vec4_add_z, vec4_mul_z,
      vec4_ofVec3_x, vec4_ofVec3_y, vec4_ofVec3_z, vec4_ofVec3_w, vec3_smul_x, vec3_smul_y,
      vec3_smul_z, vec3_add_z, vec3_mul_z]
    ring

/-- The Euler `front` vector has length one. -/
theorem dot_eulerFront (c : Camera ℝ) : glm.dot c.eulerFront c.eulerFront = 1 := by
  simp only [Camera.eulerFront, glm.dot, cmath_cos, cmath_sin]
  linear_combination
    Real.cos (glm.radians c.Pitch) * Real.cos (glm.radians c.Pitch)
        * Real.sin_sq_add_cos_sq (glm.radians c.Yaw)
      + Real.sin_sq_add_cos_sq (glm.radians c.Pitch)

/-- The frame `(R, T)` built from a unit `F` and a reference `W` not parallel to it:
`R = normalize (F × W)`, `T = normalize (R × F)`. -/
theorem base_frame (F W : Vec3 ℝ) (hFF : glm.dot F F = 1)
    (hW : glm.cross F W ≠ ⟨0, 0, 0⟩) :
    glm.normalize (glm.cross (glm.normalize (glm.cross F W)) F)
        = glm.cross (glm.normalize (glm.cross F W)) F ∧
    glm.dot (glm.normalize (glm.cross F W)) (glm.normalize (glm.cross F W)) = 1 ∧
    glm.dot (glm.cross (glm.normalize (glm.cross F W)) F)
        (glm.cross (glm.normalize (glm.cross F W)) F) = 1 ∧
    glm.dot F (glm.normalize (glm.cross F W)) = 0 ∧
    glm.dot (glm.normalize (glm.cross F W))
        (glm.cross (glm.normalize (glm.cross F W)) F) = 0 ∧
    glm.dot (glm.cross (glm.normalize (glm.cross F W)) F) F = 0 ∧
    glm.cross (glm.normalize (glm.cross F W))
        (glm.cross (glm.normalize (glm.cross F W)) F) = -F := by
  have hr : glm.dot (glm.cross F W) (glm.cross F W) ≠ 0 :=
    fun h0 => hW ((dot_self_eq_zero_iff _).mp h0)
  have hRR := dot_normalize_self _ hr
  have hRF : glm.dot (glm.normalize (glm.cross F W)) F = 0 := by
    rw [dot_normalize_left, dot_cross_left, zero_mul]
  generalize glm.normalize (glm.cross F W) = R at hRR hRF ⊢
  have hTT : glm.dot (glm.cross R F) (glm.cross R F) = 1 := by
    rw [dot_cross_cross, hRR, hFF, hRF]; norm_num
  refine ⟨normalize_of_unit _ hTT, hRR, hTT, by rw [dot_comm, hRF], ?_, dot_cross_right R F, ?_⟩
  · simp only [glm.dot, glm.cross]; ring
  · simp only [glm.dot] at hRR hRF
    ext
    · simp only [glm.cross, vec3_neg_x]
      linear_combination R.x * hRF - F.x * hRR
    · simp only [glm.cross, vec3_neg_y]
      linear_combination R.y * hRF - F.y * hRR
    · simp only [glm.cross, vec3_neg_z]
      linear_combination R.z * hRF - F.z * hRR

/-- In EULER mode `updateCameraVectors` sets the three vectors from `eulerFront`. -/
theorem updateCameraVectors_euler (c : Camera ℝ) (hm : c.Mode = EULER) :
    c.updateCameraVectors =
      if |c.Roll| > 0.001 then
        { c with
          Front := glm.normalize c.eulerFront
          Right := (glm.rotate Mat4.identity (glm.radians c.Roll) (glm.normalize c.eulerFront)
            * Vec4.ofVec3 (glm.normalize (glm.cross (glm.normalize c.eulerFront) c.WorldUp)) 0).xyz
          Up := (glm.rotate Mat4.identity (glm.radians c.Roll) (glm.normalize c.eulerFront)
            * Vec4.ofVec3 (glm.normalize (glm.cross
                (glm.normalize (glm.cross (glm.normalize c.eulerFront) c.WorldUp))
                (glm.normalize c.eulerFront))) 0).xyz }
      else
        { c with
          Front := glm.normalize c.eulerFront
          Right := glm.normalize (glm.cross (glm.normalize c.eulerFront) c.WorldUp)
          Up := glm.normalize (glm.cross
                (glm.normalize (glm.cross (glm.normalize c.eulerFront) c.WorldUp))
                (glm.normalize c.eulerFront)) } := by
  unfold Camera.updateCameraVectors
  rw [if_pos hm]
  rfl

/-- In QUATERNION mode `updateCameraVectors` reads the three vectors off the columns of
the rotation matrix of `Orientation`. -/
theorem updateCameraVectors_quaternion (c : Camera ℝ) (hm : c.Mode = QUATERNION) :
    c.updateCameraVectors =
      { c with
        Right := glm.normalize (glm.mat3_cast c.Orientation).c0
        Up := glm.normalize (glm.mat3_cast c.Orientation).c1
        Front := -glm.normalize (glm.mat3_cast c.Orientation).c2 } := by
  have hne : ¬ (c.Mode = EULER) := by rw [hm]; decide
  unfold Camera.updateCameraVectors
  rw [if_neg hne]
  rfl

/-- After `updateCameraVectors`, in EULER mode with the Euler front not parallel to
`WorldUp` and in QUATERNION mode with a unit `Orientation`, the vectors `Front`,
`Right`, `Up` are orthonormal and `Right × Up = -Front`. -/
theorem updateCameraVectors_frame (c : Camera ℝ)
    (h : (c.Mode = EULER ∧ glm.cross c.eulerFront c.WorldUp ≠ ⟨0, 0, 0⟩) ∨
         (c.Mode = QUATERNION ∧ glm.qlength c.Orientation = 1)) :
    glm.dot c.updateCameraVectors.Front c.updateCameraVectors.Front = 1 ∧
    glm.dot c.updateCameraVectors.Right c.updateCameraVectors.Right = 1 ∧
    glm.dot c.updateCameraVectors.Up c.updateCameraVectors.Up = 1 ∧
    glm.dot c.updateCameraVectors.Front c.updateCameraVectors.Right = 0 ∧
    glm.dot c.updateCameraVectors.Right c.updateCameraVectors.Up = 0 ∧
    glm.dot c.updateCameraVectors.Up c.updateCameraVectors.Front = 0 ∧
    glm.cross c.updateCameraVectors.Right c.updateCameraVectors.Up
      = -c.updateCameraVectors.Front := by
  rcases h with ⟨hm, hW⟩ | ⟨hm, hq⟩
  · have hFF := dot_eulerFront c
    have hnF := normalize_of_unit _ hFF
    obtain ⟨hT, hRR, hTT, hFR, hRT, hTF, hX⟩ := base_frame _ _ hFF hW
    rw [updateCameraVectors_euler c hm, hnF, hT]
    generalize c.eulerFront = F at hFF hRR hTT hFR hRT hTF hX ⊢
    generalize glm.normalize (glm.cross F c.WorldUp) = R at hRR hTT hFR hRT hTF hX ⊢
    split_ifs with hroll
    · have hcs : Real.cos (glm.radians c.Roll) * Real.cos (glm.radians c.Roll)
          + Real.sin (glm.radians c.Roll) * Real.sin (glm.radians c.Roll) = 1 := by
        have := Real.sin_sq_add_cos_sq (glm.radians c.Roll)
        nlinarith [this]
      have hR : (glm.rotate Mat4.identity (glm.radians c.Roll) F * Vec4.ofVec3 R 0).xyz
          = R * Real.cos (glm.radians c.Roll)
              - glm.cross R F * Real.sin (glm.radians c.Roll) := by
        rw [rotate_apply _ _ _ hFF]
        simp only [glm.dot] at hFR
        ext
        · simp only [glm.dot, glm.cross, vec3_add_x, vec3_sub_x, vec3_mul_x]
          linear_combination ((1 - Real.cos (glm.radians c.Roll)) * F.x) * hFR
        · simp only [glm.dot, glm.cross, vec3_add_y, vec3_sub_y, vec3_mul_y]
          linear_combination ((1 - Real.cos (glm.radians c.Roll)) * F.y) * hFR
        · simp only [glm.dot, glm.cross, vec3_add_z, vec3_sub_z, vec3_mul_z]
          linear_combination ((1 - Real.cos (glm.radians c.Roll)) * F.z) * hFR
      have hU : (glm.rotate Mat4.identity (glm.radians c.Roll) F
            * Vec4.ofVec3 (glm.cross R F) 0).xyz
          = glm.cross R F * Real.cos (glm.radians c.Roll)
              + R * Real.sin (glm.radians c.Roll) := by
        rw [rotate_apply _ _ _ hFF]
        simp only [glm.dot] at hFR hFF
        ext
        · simp only [glm.dot, glm.cross, vec3_add_x, vec3_mul_x]
          linear_combination (Real.sin (glm.radians c.Roll) * R.x) * hFF
            - (Real.sin (glm.radians c.Roll) * F.x) * hFR
        · simp only [glm.dot, glm.cross, vec3_add_y, vec3_mul_y]
          linear_combination (Real.sin (glm.radians c.Roll) * R.y) * hFF
            - (Real.sin (glm.radians c.Roll) * F.y) * hFR
        · simp only [glm.dot, glm.cross, vec3_add_z, vec3_mul_z]
          linear_combination (Real.sin (glm.radians c.Roll) * R.z) * hFF
            - (Real.sin (glm.radians c.Roll) * F.z) * hFR
      simp only [hR, hU]
      obtain ⟨h1, h2, h3, h4, h5, h6⟩ :=
        frame_turn F R (glm.cross R F) _ _ hcs hRR hTT hFR hRT hTF hX
      exact ⟨hFF, h1, h2, h3, h4, h5, h6⟩
    · exact ⟨hFF, hRR, hTT, hFR, hRT, hTF, hX⟩
  · have hu : glm.qdot c.Orientation c.Orientation = 1 := (qlength_eq_one_iff _).mp hq
    obtain ⟨h0, h1, h2, h01, h12, h20, hX⟩ := mat3_cast_frame c.Orientation hu
    rw [updateCameraVectors_quaternion c hm, normalize_of_unit _ h0, normalize_of_unit _ h1,
      normalize_of_unit _ h2]
    refine ⟨?_, h0, h1, ?_, h01, ?_, ?_⟩
    · show glm.dot (-(glm.mat3_cast c.Orientation).c2) (-(glm.mat3_cast c.Orientation).c2) = 1
      rw [dot_neg_neg, h2]
    · show glm.dot (-(glm.mat3_cast c.Orientation).c2) (glm.mat3_cast c.Orientation).c0 = 0
      rw [dot_neg_left, h20, neg_zero]
    · show glm.dot (glm.mat3_cast c.Orientation).c1 (-(glm.mat3_cast c.Orientation).c2) = 0
      rw [dot_neg_right, h12, neg_zero]
    · show glm.cross (glm.mat3_cast c.Orientation).c0 (glm.mat3_cast c.Orientation).c1
          = - -(glm.mat3_cast c.Orientation).c2
      rw [hX, vec3_neg_neg]

/-! ## Angles -/

theorem radians_degrees (x : ℝ) : glm.radians (glm.degrees x) = x := by
  simp only [glm.radians, glm.degrees, cmath_pi]
  field_simp

theorem degrees_radians (x : ℝ) : glm.degrees (glm.radians x) = x := by
  simp only [glm.radians, glm.degrees, cmath_pi]
  field_simp

theorem radians_zero : glm.radians (0 : ℝ) = 0 := by
  simp only [glm.radians, zero_mul]

theorem radians_ninety : glm.radians (90 : ℝ) = Real.pi / 2 := by
  simp only [glm.radians, cmath_pi]; ring

theorem radians_neg_ninety : glm.radians (-90 : ℝ) = -(Real.pi / 2) := by
  simp only [glm.radians, cmath_pi]; ring

theorem radians_add (a b : ℝ) : glm.radians (a + b) = glm.radians a + glm.radians b := by
  simp only [glm.radians]; ring

/-! ## Orthonormality and handedness of the derived vectors -/

/-- C3: after `updateCameraVectors`, in EULER mode for all `Yaw`, `Pitch`, `Roll` with the
Euler front not parallel to a non-zero `WorldUp` (their cross product is not zero), and
in QUATERNION mode for a unit `Orientation`, the vectors `Front`, `Right` and `Up` have
length 1 and are pairwise orthogonal. -/
theorem C3_orthonormal_after_update (c : Camera ℝ)
    (h : (c.Mode = EULER ∧ glm.cross c.eulerFront c.WorldUp ≠ ⟨0, 0, 0⟩) ∨
         (c.Mode = QUATERNION ∧ glm.qlength c.Orientation = 1)) :
    glm.length c.updateCameraVectors.Front = 1 ∧
    glm.length c.updateCameraVectors.Right = 1 ∧
    glm.length c.updateCameraVectors.Up = 1 ∧
    glm.dot c.updateCameraVectors.Front c.updateCameraVectors.Right = 0 ∧
    glm.dot c.updateCameraVectors.Right c.updateCameraVectors.Up = 0 ∧
    glm.dot c.updateCameraVectors.Up c.updateCameraVectors.Front = 0 := by
  obtain ⟨h1, h2, h3, h4, h5, h6, _⟩ := updateCameraVectors_frame c h
  exact ⟨(length_eq_one_iff _).mpr h1, (length_eq_one_iff _).mpr h2,
    (length_eq_one_iff _).mpr h3, h4, h5, h6⟩

/-- C3 at the sample camera in QUATERNION mode with the orientation `(0, 1, 0, 0)`, a half
turn about the X axis. -/
theorem C3_orthonormal_after_update_witness :
    glm.length (Camera.updateCameraVectors
      { (Camera.sample QUATERNION : Camera ℝ) with Orientation := ⟨0, 1, 0, 0⟩ }).Front = 1 :=
  (C3_orthonormal_after_update
    { (Camera.sample QUATERNION : Camera ℝ) with Orientation := ⟨0, 1, 0, 0⟩ }
    (Or.inr ⟨rfl, by simp [glm.qlength, glm.qdot]⟩)).1

/-- C4: after `updateCameraVectors`, in EULER mode for all `Yaw`, `Pitch`, `Roll` with the
Euler front not parallel to a non-zero `WorldUp`, and in QUATERNION mode for a unit
`Orientation`, the derived vectors satisfy `Right × Up = -Front`: the frame
`(Right, Up, -Front)` is right-handed, with the same convention in both modes. -/
theorem C4_right_cross_up (c : Camera ℝ)
    (h : (c.Mode = EULER ∧ glm.cross c.eulerFront c.WorldUp ≠ ⟨0, 0, 0⟩) ∨
         (c.Mode = QUATERNION ∧ glm.qlength c.Orientation = 1)) :
    glm.cross c.updateCameraVectors.Right c.updateCameraVectors.Up
      = -c.updateCameraVectors.Front :=
  (updateCameraVectors_frame c h).2.2.2.2.2.2

/-- C4 at the sample camera in EULER mode (yaw `-90`, pitch `0`) with a roll of 30. -/
theorem C4_right_cross_up_witness :
    glm.cross
        (Camera.updateCameraVectors { (Camera.sample EULER : Camera ℝ) with Roll := 30 }).Right
        (Camera.updateCameraVectors { (Camera.sample EULER : Camera ℝ) with Roll := 30 }).Up
      = -(Camera.updateCameraVectors
          { (Camera.sample EULER : Camera ℝ) with Roll := 30 }).Front :=
  C4_right_cross_up { (Camera.sample EULER : Camera ℝ) with Roll := 30 }
    (Or.inl ⟨rfl, by
      intro h0
      have hx := congrArg Vec3.x h0
      simp [Camera.eulerFront, Camera.sample, glm.cross, radians_neg_ninety,
        radians_zero] at hx⟩)

/-! ## Fields `updateCameraVectors` leaves alone -/

theorem updateCameraVectors_Orientation (c : Camera ℝ) :
    c.updateCameraVectors.Orientation = c.Orientation := by
  cases hm : c.Mode
  · rw [updateCameraVectors_euler c hm]; split_ifs <;> rfl
  · rw [updateCameraVectors_quaternion c hm]

theorem updateCameraVectors_Mode (c : Camera ℝ) :
    c.updateCameraVectors.Mode = c.Mode := by
  cases hm : c.Mode
  · rw [updateCameraVectors_euler c hm]; split_ifs <;> exact hm
  · rw [updateCameraVectors_quaternion c hm]; exact hm

theorem updateCameraVectors_Yaw (c : Camera ℝ) :
    c.updateCameraVectors.Yaw = c.Yaw := by
  cases hm : c.Mode
  · rw [updateCameraVectors_euler c hm]; split_ifs <;> rfl
  · rw [updateCameraVectors_quaternion c hm]

theorem updateCameraVectors_Pitch (c : Camera ℝ) :
    c.updateCameraVectors.Pitch = c.Pitch := by
  cases hm : c.Mode
  · rw [updateCameraVectors_euler c hm]; split_ifs <;> rfl
  · rw [updateCameraVectors_quaternion c hm]

theorem updateCameraVectors_Roll (c : Camera ℝ) :
    c.updateCameraVectors.Roll = c.Roll := by
  cases hm : c.Mode
  · rw [updateCameraVectors_euler c hm]; split_ifs <;> rfl
  · rw [updateCameraVectors_quaternion c hm]

/-! ## The unit-quaternion invariant -/

theorem qlength_qnormalize (q : Quat ℝ) : glm.qlength (glm.qnormalize q) = 1 :=
  (qlength_eq_one_iff _).mpr (qdot_qnormalize q)

/-- The orientation `SetMode QUATERNION` stores when it leaves EULER mode. -/
theorem SetMode_quaternion_Orientation (c : Camera ℝ) (hm : c.Mode = EULER) :
    (c.SetMode QUATERNION).Orientation
      = glm.qnormalize
          (glm.angleAxis (glm.radians c.Pitch)
              (glm.rotateVec (glm.angleAxis (glm.radians c.Yaw) ⟨0, 1, 0⟩) ⟨1, 0, 0⟩)
            * glm.angleAxis (glm.radians c.Yaw) ⟨0, 1, 0⟩) := by
  have hne : c.Mode ≠ QUATERNION := by rw [hm]; decide
  unfold Camera.SetMode
  rw [if_pos hne]
  simp only [if_true, updateCameraVectors_Orientation]
  rfl

/-- The orientation `LookAt` stores in QUATERNION mode. -/
theorem LookAt_quaternion_Orientation (c : Camera ℝ) (target : Vec3 ℝ)
    (hm : c.Mode = QUATERNION) :
    (c.LookAt target).Orientation
      = glm.qnormalize (glm.quat_cast
          ⟨glm.normalize (glm.cross (glm.normalize (target - c.Position)) c.WorldUp),
           glm.cross (glm.normalize (glm.cross (glm.normalize (target - c.Position)) c.WorldUp))
             (glm.normalize (target - c.Position)),
           -glm.normalize (target - c.Position)⟩) := by
  unfold Camera.LookAt
  simp only [updateCameraVectors_Orientation]
  split_ifs <;> rfl

/-- The orientation `ApplyIncrementalRotation` stores. -/
theorem ApplyIncrementalRotation_Orientation (c : Camera ℝ) (axis : Vec3 ℝ) (angleDelta : ℝ) :
    (c.ApplyIncrementalRotation axis angleDelta).Orientation
      = glm.qnormalize
          (glm.angleAxis (glm.radians angleDelta) (glm.normalize axis) * c.Orientation) := by
  unfold Camera.ApplyIncrementalRotation
  simp only [updateCameraVectors_Orientation]

/-- The orientation `ProcessMouseMovement` stores in QUATERNION mode. -/
theorem ProcessMouseMovement_quaternion_Orientation (c : Camera ℝ) (xoffset yoffset : ℝ)
    (constrainPitch : Bool) (hm : c.Mode = QUATERNION) :
    (c.ProcessMouseMovement xoffset yoffset constrainPitch).Orientation
      = glm.qnormalize
          (glm.angleAxis (glm.radians (-(xoffset * c.MouseSensitivity))) ⟨0, 1, 0⟩
            * c.Orientation
            * glm.angleAxis (glm.radians (yoffset * c.MouseSensitivity)) c.Right) := by
  have hne : ¬ (c.Mode = EULER) := by rw [hm]; decide
  unfold Camera.ProcessMouseMovement
  simp only [updateCameraVectors_Orientation, if_neg hne]

/-- C5: every operation that writes `Orientation` leaves it with norm exactly 1, whatever
the previous `Orientation` (and whatever the arguments): `SetMode QUATERNION` from EULER
mode, `LookAt` in QUATERNION mode, `SetQuaternionEulerAngles`, `SetQuaternionAxisAngle`,
`ApplyIncrementalRotation`, and `ProcessMouseMovement` in QUATERNION mode. -/
theorem C5_orientation_unit (c : Camera ℝ) (target axis : Vec3 ℝ)
    (yaw pitch roll angle dx dy : ℝ) (constrainPitch : Bool) :
    (c.Mode = EULER → glm.qlength (c.SetMode QUATERNION).Orientation = 1) ∧
    (c.Mode = QUATERNION → glm.qlength (c.LookAt target).Orientation = 1) ∧
    glm.qlength (c.SetQuaternionEulerAngles yaw pitch roll).Orientation = 1 ∧
    glm.qlength (c.SetQuaternionAxisAngle axis angle).Orientation = 1 ∧
    glm.qlength (c.ApplyIncrementalRotation axis angle).Orientation = 1 ∧
    (c.Mode = QUATERNION →
      glm.qlength (c.ProcessMouseMovement dx dy constrainPitch).Orientation = 1) := by
  refine ⟨?_, ?_, ?_, ?_, ?_, ?_⟩
  · intro hm
    rw [SetMode_quaternion_Orientation c hm]
    exact qlength_qnormalize _
  · intro hm
    rw [LookAt_quaternion_Orientation c target hm]
    exact qlength_qnormalize _
  · unfold Camera.SetQuaternionEulerAngles
    simp only [updateCameraVectors_Orientation]
    exact qlength_qnormalize _
  · unfold Camera.SetQuaternionAxisAngle
    simp only [updateCameraVectors_Orientation]
    exact qlength_qnormalize _
  · rw [ApplyIncrementalRotation_Orientation]
    exact qlength_qnormalize _
  · intro hm
    rw [ProcessMouseMovement_quaternion_Orientation c dx dy constrainPitch hm]
    exact qlength_qnormalize _

/-- C5 at the sample camera: switching it from EULER to QUATERNION mode stores a unit
orientation. -/
theorem C5_orientation_unit_witness :
    glm.qlength ((Camera.sample EULER : Camera ℝ).SetMode QUATERNION).Orientation = 1 :=
  (C5_orientation_unit (Camera.sample EULER) ⟨0, 0, 0⟩ ⟨0, 1, 0⟩ 0 0 0 0 0 0 true).1 rfl

/-! ## Composition of incremental rotations -/

theorem qdot_self_eq_zero_iff (q : Quat ℝ) : glm.qdot q q = 0 ↔ q = ⟨0, 0, 0, 0⟩ := by
  constructor
  · intro h
    simp only [glm.qdot] at h
    have hx : q.x = 0 := by
      nlinarith [mul_self_nonneg q.x, mul_self_nonneg q.y, mul_self_nonneg q.z,
        mul_self_nonneg q.w]
    have hy : q.y = 0 := by
      nlinarith [mul_self_nonneg q.x, mul_self_nonneg q.y, mul_self_nonneg q.z,
        mul_self_nonneg q.w]
    have hz : q.z = 0 := by
      nlinarith [mul_self_nonneg q.x, mul_self_nonneg q.y, mul_self_nonneg q.z,
        mul_self_nonneg q.w]
    have hw : q.w = 0 := by
      nlinarith [mul_self_nonneg q.x, mul_self_nonneg q.y, mul_self_nonneg q.z,
        mul_self_nonneg q.w]
    ext <;> assumption
  · intro h
    subst h
    simp [glm.qdot]

/-- The quaternion `angleAxis` of a unit axis is a unit quaternion. -/
theorem qdot_angleAxis (θ : ℝ) (n : Vec3 ℝ) (hn : glm.dot n n = 1) :
    glm.qdot (glm.angleAxis θ n) (glm.angleAxis θ n) = 1 := by
  simp only [glm.dot] at hn
  simp only [glm.qdot, glm.angleAxis, cmath_sin, cmath_cos]
  linear_combination
    Real.sin (θ * (1 / 2)) * Real.sin (θ * (1 / 2)) * hn
      + Real.sin_sq_add_cos_sq (θ * (1 / 2))

/-- Rotations about one unit axis compose by adding their angles. -/
theorem angleAxis_mul_angleAxis (a b : ℝ) (n : Vec3 ℝ) (hn : glm.dot n n = 1) :
    glm.angleAxis b n * glm.angleAxis a n = glm.angleAxis (a + b) n := by
  simp only [glm.dot] at hn
  have e : (a + b) * (1 / 2) = a * (1 / 2) + b * (1 / 2) := by ring
  ext
  · simp only [quat_mul_w, glm.angleAxis, cmath_sin, cmath_cos, e, Real.cos_add]
    linear_combination
      (-(Real.sin (a * (1 / 2)) * Real.sin (b * (1 / 2)))) * hn
  · simp only [quat_mul_x, glm.angleAxis, cmath_sin, cmath_cos, e, Real.sin_add]
    ring
  · simp only [quat_mul_y, glm.angleAxis, cmath_sin, cmath_cos, e, Real.sin_add]
    ring
  · simp only [quat_mul_z, glm.angleAxis, cmath_sin, cmath_cos, e, Real.sin_add]
    ring

/-- Left multiplication by a unit quaternion commutes with `normalize` on a non-zero
quaternion. -/
theorem qnormalize_mul_of_unit (d q : Quat ℝ) (hd : glm.qdot d d = 1)
    (hq : glm.qdot q q ≠ 0) :
    glm.qnormalize (d * q) = d * glm.qnormalize q := by
  have hlen : glm.qlength (d * q) = glm.qlength q := by
    simp only [glm.qlength, qdot_mul, hd, one_mul]
  have hpos : ¬ (glm.qlength q ≤ 0) := by
    simp only [glm.qlength, cmath_sqrt, not_le]
    exact Real.sqrt_pos.mpr (lt_of_le_of_ne (qdot_self_nonneg q) (Ne.symm hq))
  unfold glm.qnormalize
  rw [hlen]
  simp only [if_neg hpos]
  ext
  · simp only [quat_mul_w]; ring
  · simp only [quat_mul_x]; ring
  · simp only [quat_mul_y]; ring
  · simp only [quat_mul_z]; ring

/-- The vectors `updateCameraVectors` writes do not depend on the ones stored before. -/
theorem updateCameraVectors_with (c : Camera ℝ) (F U R : Vec3 ℝ) :
    Camera.updateCameraVectors { c with Front := F, Up := U, Right := R }
      = c.updateCameraVectors :=
  rfl

/-- The camera `updateCameraVectors` returns is the given one with three fields set. -/
theorem updateCameraVectors_eq (c : Camera ℝ) :
    c.updateCameraVectors =
      { c with
        Front := c.updateCameraVectors.Front
        Up := c.updateCameraVectors.Up
        Right := c.updateCameraVectors.Right } := by
  cases hm : c.Mode
  · rw [updateCameraVectors_euler c hm]
    split_ifs
    · simp only [hm]
    · simp only [hm]
  · rw [updateCameraVectors_quaternion c hm]
    simp only [hm]

/-- The method `ApplyIncrementalRotation` as one update of `Orientation`. -/
theorem ApplyIncrementalRotation_eq (c : Camera ℝ) (axis : Vec3 ℝ) (angleDelta : ℝ) :
    c.ApplyIncrementalRotation axis angleDelta =
      Camera.updateCameraVectors
        { c with
          Orientation := glm.qnormalize
            (glm.angleAxis (glm.radians angleDelta) (glm.normalize axis) * c.Orientation) } :=
  rfl

/-- Two incremental rotations about one non-zero axis equal the single rotation by the
sum of the angles, as camera states. -/
theorem ApplyIncrementalRotation_twice (c : Camera ℝ) (axis : Vec3 ℝ) (a b : ℝ)
    (hq : c.Orientation ≠ ⟨0, 0, 0, 0⟩) (hax : axis ≠ ⟨0, 0, 0⟩) :
    (c.ApplyIncrementalRotation axis a).ApplyIncrementalRotation axis b
      = c.ApplyIncrementalRotation axis (a + b) := by
  have hn : glm.dot (glm.normalize axis) (glm.normalize axis) = 1 :=
    dot_normalize_self axis (fun h0 => hax ((dot_self_eq_zero_iff axis).mp h0))
  have hq0 : glm.qdot c.Orientation c.Orientation ≠ 0 :=
    fun h0 => hq ((qdot_self_eq_zero_iff _).mp h0)
  have key : glm.qnormalize (glm.angleAxis (glm.radians b) (glm.normalize axis)
        * glm.qnormalize (glm.angleAxis (glm.radians a) (glm.normalize axis) * c.Orientation))
      = glm.qnormalize (glm.angleAxis (glm.radians (a + b)) (glm.normalize axis)
          * c.Orientation) := by
    rw [qnormalize_mul_of_unit _ _ (qdot_angleAxis _ _ hn) hq0,
      qnormalize_mul_of_unit _ _ (qdot_angleAxis _ _ hn) hq0, radians_add,
      ← angleAxis_mul_angleAxis _ _ _ hn, quat_mul_assoc]
    refine qnormalize_of_unit _ ?_
    rw [qdot_mul, qdot_mul, qdot_angleAxis _ _ hn, qdot_angleAxis _ _ hn, qdot_qnormalize]
    norm_num
  obtain ⟨F, U, R, h1⟩ : ∃ F U R : Vec3 ℝ, c.ApplyIncrementalRotation axis a =
      { c with
        Orientation := glm.qnormalize
          (glm.angleAxis (glm.radians a) (glm.normalize axis) * c.Orientation)
        Front := F, Up := U, Right := R } :=
    ⟨_, _, _, updateCameraVectors_eq _⟩
  rw [h1]
  show Camera.updateCameraVectors
      { c with
        Orientation := glm.qnormalize (glm.angleAxis (glm.radians b) (glm.normalize axis)
          * glm.qnormalize (glm.angleAxis (glm.radians a) (glm.normalize axis) * c.Orientation))
        Front := F, Up := U, Right := R } = _
  rw [key]
  rfl

/-- C9: for a non-zero `Orientation` and a non-zero axis, `ApplyIncrementalRotation axis a`
followed by `ApplyIncrementalRotation axis b` gives the same camera state (the same
`Orientation`, and with it the same `Front`, `Right` and `Up`) as one
`ApplyIncrementalRotation axis (a + b)`; in particular twice 5 degrees is 10 degrees. -/
theorem C9_incremental_rotations_add (c : Camera ℝ) (axis : Vec3 ℝ) (a b : ℝ)
    (hq : c.Orientation ≠ ⟨0, 0, 0, 0⟩) (hax : axis ≠ ⟨0, 0, 0⟩) :
    (c.ApplyIncrementalRotation axis a).ApplyIncrementalRotation axis b
        = c.ApplyIncrementalRotation axis (a + b) ∧
    (c.ApplyIncrementalRotation axis 5).ApplyIncrementalRotation axis 5
        = c.ApplyIncrementalRotation axis 10 := by
  refine ⟨ApplyIncrementalRotation_twice c axis a b hq hax, ?_⟩
  have h := ApplyIncrementalRotation_twice c axis 5 5 hq hax
  have e : (5 : ℝ) + 5 = 10 := by norm_num
  rw [e] at h
  exact h

/-- C9 at the sample camera in QUATERNION mode, about the world Y axis. -/
theorem C9_incremental_rotations_add_witness :
    (((Camera.sample QUATERNION : Camera ℝ).ApplyIncrementalRotation ⟨0, 1, 0⟩ 5
        ).ApplyIncrementalRotation ⟨0, 1, 0⟩ 5).Front
      = ((Camera.sample QUATERNION : Camera ℝ).ApplyIncrementalRotation ⟨0, 1, 0⟩ 10).Front :=
  congrArg Camera.Front
    (C9_incremental_rotations_add (Camera.sample QUATERNION) ⟨0, 1, 0⟩ 5 5
      (by intro h; have := congrArg Quat.w h; simp [Camera.sample] at this)
      (by intro h; have := congrArg Vec3.y h; simp at this)).2

/-! ## Euler mode: the front vector -/

theorem updateCameraVectors_MouseSensitivity (c : Camera ℝ) :
    c.updateCameraVectors.MouseSensitivity = c.MouseSensitivity := by
  rw [updateCameraVectors_eq]

theorem updateCameraVectors_Position (c : Camera ℝ) :
    c.updateCameraVectors.Position = c.Position := by
  rw [updateCameraVectors_eq]

theorem updateCameraVectors_WorldUp (c : Camera ℝ) :
    c.updateCameraVectors.WorldUp = c.WorldUp := by
  rw [updateCameraVectors_eq]

/-- In EULER mode the recomputed `Front` is the Euler front vector. -/
theorem updateCameraVectors_Front_euler (c : Camera ℝ) (hm : c.Mode = EULER) :
    c.updateCameraVectors.Front = c.eulerFront := by
  rw [updateCameraVectors_euler c hm]
  split_ifs
  · exact normalize_of_unit _ (dot_eulerFront c)
  · exact normalize_of_unit _ (dot_eulerFront c)

/-- The method `SetEulerAngles` without the pitch constraint, as one update. -/
theorem SetEulerAngles_unconstrained (c : Camera ℝ) (yaw pitch roll : ℝ) :
    c.SetEulerAngles yaw pitch roll false
      = Camera.updateCameraVectors { c with Yaw := yaw, Pitch := pitch, Roll := roll } := by
  unfold Camera.SetEulerAngles
  simp only [Bool.false_eq_true, if_false]

/-- The method `ProcessMouseMovement` in EULER mode without the pitch constraint, as one
update. -/
theorem ProcessMouseMovement_euler_unconstrained (c : Camera ℝ) (xoffset yoffset : ℝ)
    (hm : c.Mode = EULER) :
    c.ProcessMouseMovement xoffset yoffset false
      = Camera.updateCameraVectors
          { c with
            Yaw := c.Yaw + xoffset * c.MouseSensitivity
            Pitch := c.Pitch + yoffset * c.MouseSensitivity } := by
  unfold Camera.ProcessMouseMovement
  simp only [hm, if_true, Bool.false_eq_true, if_false]

/-- The Euler front vector at a pitch of 90 degrees is `(0, 1, 0)`, whatever the yaw. -/
theorem eulerFront_pitch_ninety (c : Camera ℝ) (hp : c.Pitch = 90) :
    c.eulerFront = ⟨0, 1, 0⟩ := by
  simp only [Camera.eulerFront, hp, radians_ninety, cmath_cos, cmath_sin,
    Real.cos_pi_div_two, Real.sin_pi_div_two, mul_zero]

/-- C10: for a camera in EULER mode whose pitch was set to 90 degrees by `SetEulerAngles`
without the pitch constraint (any yaw and roll), `Front` is `(0, 1, 0)`, and
`ProcessMouseMovement dx 0` without the pitch constraint adds `dx * MouseSensitivity` to
`Yaw`, keeps `Pitch`, and leaves `Front` unchanged, equal to `(0, 1, 0)`. -/
theorem C10_gimbal_lock (c : Camera ℝ) (yaw roll dx : ℝ) (hm : c.Mode = EULER) :
    (c.SetEulerAngles yaw 90 roll false).Mode = EULER ∧
    (c.SetEulerAngles yaw 90 roll false).Pitch = 90 ∧
    (c.SetEulerAngles yaw 90 roll false).Yaw = yaw ∧
    (c.SetEulerAngles yaw 90 roll false).Front = ⟨0, 1, 0⟩ ∧
    ((c.SetEulerAngles yaw 90 roll false).ProcessMouseMovement dx 0 false).Yaw
        = yaw + dx * c.MouseSensitivity ∧
    ((c.SetEulerAngles yaw 90 roll false).ProcessMouseMovement dx 0 false).Pitch = 90 ∧
    ((c.SetEulerAngles yaw 90 roll false).ProcessMouseMovement dx 0 false).Front
        = (c.SetEulerAngles yaw 90 roll false).Front ∧
    ((c.SetEulerAngles yaw 90 roll false).ProcessMouseMovement dx 0 false).Front
        = ⟨0, 1, 0⟩ := by
  have hM : (c.SetEulerAngles yaw 90 roll false).Mode = EULER := by
    rw [SetEulerAngles_unconstrained, updateCameraVectors_Mode]; exact hm
  have hP : (c.SetEulerAngles yaw 90 roll false).Pitch = 90 := by
    rw [SetEulerAngles_unconstrained, updateCameraVectors_Pitch]
  have hY : (c.SetEulerAngles yaw 90 roll false).Yaw = yaw := by
    rw [SetEulerAngles_unconstrained, updateCameraVectors_Yaw]
  have hS : (c.SetEulerAngles yaw 90 roll false).MouseSensitivity = c.MouseSensitivity := by
    rw [SetEulerAngles_unconstrained, updateCameraVectors_MouseSensitivity]
  have hF : (c.SetEulerAngles yaw 90 roll false).Front = ⟨0, 1, 0⟩ := by
    have hm1 : ({ c with Yaw := yaw, Pitch := 90, Roll := roll } : Camera ℝ).Mode = EULER := hm
    rw [SetEulerAngles_unconstrained, updateCameraVectors_Front_euler _ hm1]
    exact eulerFront_pitch_ninety _ rfl
  have hF2 : ((c.SetEulerAngles yaw 90 roll false).ProcessMouseMovement dx 0 false).Front
      = ⟨0, 1, 0⟩ := by
    have hm2 : ({ c.SetEulerAngles yaw 90 roll false with
        Yaw := (c.SetEulerAngles yaw 90 roll false).Yaw
          + dx * (c.SetEulerAngles yaw 90 roll false).MouseSensitivity
        Pitch := (c.SetEulerAngles yaw 90 roll false).Pitch
          + 0 * (c.SetEulerAngles yaw 90 roll false).MouseSensitivity } : Camera ℝ).Mode
          = EULER := hM
    rw [ProcessMouseMovement_euler_unconstrained _ _ _ hM,
      updateCameraVectors_Front_euler _ hm2]
    refine eulerFront_pitch_ninety _ ?_
    show (c.SetEulerAngles yaw 90 roll false).Pitch
      + 0 * (c.SetEulerAngles yaw 90 roll false).MouseSensitivity = 90
    rw [hP, zero_mul, add_zero]
  refine ⟨hM, hP, hY, hF, ?_, ?_, ?_, hF2⟩
  · rw [ProcessMouseMovement_euler_unconstrained _ _ _ hM, updateCameraVectors_Yaw]
    show (c.SetEulerAngles yaw 90 roll false).Yaw
      + dx * (c.SetEulerAngles yaw 90 roll false).MouseSensitivity = _
    rw [hY, hS]
  · rw [ProcessMouseMovement_euler_unconstrained _ _ _ hM, updateCameraVectors_Pitch]
    show (c.SetEulerAngles yaw 90 roll false).Pitch
      + 0 * (c.SetEulerAngles yaw 90 roll false).MouseSensitivity = 90
    rw [hP, zero_mul, add_zero]
  · rw [hF2, hF]

/-- C10 at the sample camera: after setting yaw 30, pitch 90, a mouse move of 200 leaves
`Front` at `(0, 1, 0)`. -/
theorem C10_gimbal_lock_witness :
    ((((Camera.sample EULER : Camera ℝ).SetEulerAngles 30 90 0 false).ProcessMouseMovement
        200 0 false).Front) = ⟨0, 1, 0⟩ :=
  (C10_gimbal_lock (Camera.sample EULER) 30 0 200 rfl).2.2.2.2.2.2.2

/-! ## `LookAt` straight down the negative Z axis -/

theorem vec3_add_sub_cancel (p v : Vec3 ℝ) : p + v - p = v := by
  ext <;> simp

/-- The Euler angles `LookAt` stores. -/
theorem LookAt_Pitch (c : Camera ℝ) (target : Vec3 ℝ) :
    (c.LookAt target).Pitch
      = if glm.degrees (Real.arcsin (glm.normalize (target - c.Position)).y) > 89 then 89
        else if glm.degrees (Real.arcsin (glm.normalize (target - c.Position)).y) < -89
          then -89
        else glm.degrees (Real.arcsin (glm.normalize (target - c.Position)).y) := by
  unfold Camera.LookAt
  simp only [updateCameraVectors_Pitch, cmath_asin]
  by_cases h1 : glm.degrees (Real.arcsin (glm.normalize (target - c.Position)).y) > 89
  · have h2 : ¬ ((89 : ℝ) < -89) := by norm_num
    simp only [h1, if_true, h2, if_false]
    split_ifs <;> rfl
  · by_cases h2 : glm.degrees (Real.arcsin (glm.normalize (target - c.Position)).y) < -89
    · simp only [h1, if_false, h2, if_true]
      split_ifs <;> rfl
    · simp only [h1, if_false, h2]
      split_ifs <;> rfl

theorem LookAt_Yaw (c : Camera ℝ) (target : Vec3 ℝ) :
    (c.LookAt target).Yaw
      = glm.degrees (Complex.arg ⟨(glm.normalize (target - c.Position)).x,
          (glm.normalize (target - c.Position)).z⟩) := by
  unfold Camera.LookAt
  simp only [updateCameraVectors_Yaw, cmath_atan2]
  split_ifs <;> rfl

/-- After `LookAt (Position + (0, 0, -1))` the stored yaw is `-90` and the pitch `0`. -/
theorem LookAt_minus_Z_angles (c : Camera ℝ) :
    (c.LookAt (c.Position + ⟨0, 0, -1⟩)).Yaw = -90 ∧
    (c.LookAt (c.Position + ⟨0, 0, -1⟩)).Pitch = 0 := by
  have hd : glm.normalize (c.Position + ⟨0, 0, -1⟩ - c.Position) = ⟨0, 0, -1⟩ := by
    rw [vec3_add_sub_cancel]
    exact normalize_of_unit _ (by simp [glm.dot])
  have harg : Complex.arg ⟨0, -1⟩ = -(Real.pi / 2) := by
    have e : (⟨0, -1⟩ : ℂ) = -Complex.I := by
      apply Complex.ext <;> simp
    rw [e, Complex.arg_neg_I]
  constructor
  · rw [LookAt_Yaw, hd]
    show glm.degrees (Complex.arg ⟨0, -1⟩) = -90
    rw [harg]
    simp only [glm.degrees, cmath_pi]
    field_simp
    ring
  · rw [LookAt_Pitch, hd]
    have h0 : glm.degrees (Real.arcsin (0 : ℝ)) = 0 := by
      simp [glm.degrees]
    show (if glm.degrees (Real.arcsin (0 : ℝ)) > 89 then (89 : ℝ)
        else if glm.degrees (Real.arcsin (0 : ℝ)) < -89 then -89
        else glm.degrees (Real.arcsin (0 : ℝ))) = 0
    rw [h0]
    norm_num

/-- C7 (amended): for every camera and every `Position`, after
`LookAt (Position + (0, 0, -1))` the stored `Yaw` is `-90` degrees and the stored `Pitch`
is `0` degrees. -/
theorem C7_LookAt_minus_Z_yaw_pitch (c : Camera ℝ) :
    (c.LookAt (c.Position + ⟨0, 0, -1⟩)).Yaw = -90 ∧
    (c.LookAt (c.Position + ⟨0, 0, -1⟩)).Pitch = 0 :=
  LookAt_minus_Z_angles c

/-- C7 as stated fails: for the sample camera, after `LookAt (Position + (0, 0, -1))` the
stored `Yaw` is neither `180` nor `-180`. -/
theorem C7_yaw_not_180 :
    ¬ (((Camera.sample EULER : Camera ℝ).LookAt
          ((Camera.sample EULER : Camera ℝ).Position + ⟨0, 0, -1⟩)).Yaw = 180 ∨
       ((Camera.sample EULER : Camera ℝ).LookAt
          ((Camera.sample EULER : Camera ℝ).Position + ⟨0, 0, -1⟩)).Yaw = -180) := by
  rw [(LookAt_minus_Z_angles (Camera.sample EULER)).1]
  norm_num

/-! ## Rotation matrices and `quat_cast` -/

section RotationMatrices

variable {K : Type} [LinearOrderedField K]

/-- The quadratic relations between the entries of a rotation matrix: the remaining
column relations, the cofactor relations (each column is the cross product of the other
two), and the orthonormality of the rows. -/
theorem IsRotation.relations {m : Mat3 K} (h : IsRotation m) :
    (m.c2.x * m.c2.x + m.c2.y * m.c2.y + m.c2.z * m.c2.z = 1 ∧
     m.c0.x * m.c2.x + m.c0.y * m.c2.y + m.c0.z * m.c2.z = 0 ∧
     m.c1.x * m.c2.x + m.c1.y * m.c2.y + m.c1.z * m.c2.z = 0) ∧
    (m.c0.x = m.c1.y * m.c2.z - m.c2.y * m.c1.z ∧
     m.c0.y = m.c1.z * m.c2.x - m.c2.z * m.c1.x ∧
     m.c0.z = m.c1.x * m.c2.y - m.c2.x * m.c1.y) ∧
    (m.c1.x = m.c2.y * m.c0.z - m.c0.y * m.c2.z ∧
     m.c1.y = m.c2.z * m.c0.x - m.c0.z * m.c2.x ∧
     m.c1.z = m.c2.x * m.c0.y - m.c0.x * m.c2.y) ∧
    (m.c2.x = m.c0.y * m.c1.z - m.c1.y * m.c0.z ∧
     m.c2.y = m.c0.z * m.c1.x - m.c1.z * m.c0.x ∧
     m.c2.z = m.c0.x * m.c1.y - m.c1.x * m.c0.y) ∧
    (m.c0.x * m.c0.x + m.c1.x * m.c1.x + m.c2.x * m.c2.x = 1 ∧
     m.c0.y * m.c0.y + m.c1.y * m.c1.y + m.c2.y * m.c2.y = 1 ∧
     m.c0.z * m.c0.z + m.c1.z * m.c1.z + m.c2.z * m.c2.z = 1) ∧
    (m.c0.x * m.c0.y + m.c1.x * m.c1.y + m.c2.x * m.c2.y = 0 ∧
     m.c0.y * m.c0.z + m.c1.y * m.c1.z + m.c2.y * m.c2.z = 0 ∧
     m.c0.z * m.c0.x + m.c1.z * m.c1.x + m.c2.z * m.c2.x = 0) := by
  obtain ⟨haa, hbb, hab, hX⟩ := h
  have hx : m.c2.x = m.c0.y * m.c1.z - m.c1.y * m.c0.z := (congrArg Vec3.x hX).symm
  have hy : m.c2.y = m.c0.z * m.c1.x - m.c1.z * m.c0.x := (congrArg Vec3.y hX).symm
  have hz : m.c2.z = m.c0.x * m.c1.y - m.c1.x * m.c0.y := (congrArg Vec3.z hX).symm
  simp only [glm.dot] at haa hbb hab
  have hee : m.c2.x * m.c2.x + m.c2.y * m.c2.y + m.c2.z * m.c2.z = 1 := by
    linear_combination
      (m.c2.x + (m.c0.y * m.c1.z - m.c1.y * m.c0.z)) * hx
        + (m.c2.y + (m.c0.z * m.c1.x - m.c1.z * m.c0.x)) * hy
        + (m.c2.z + (m.c0.x * m.c1.y - m.c1.x * m.c0.y)) * hz
        + (m.c1.x * m.c1.x + m.c1.y * m.c1.y + m.c1.z * m.c1.z) * haa + hbb
        - (m.c0.x * m.c1.x + m.c0.y * m.c1.y + m.c0.z * m.c1.z) * hab
  have hae : m.c0.x * m.c2.x + m.c0.y * m.c2.y + m.c0.z * m.c2.z = 0 := by
    linear_combination m.c0.x * hx + m.c0.y * hy + m.c0.z * hz
  have hbe : m.c1.x * m.c2.x + m.c1.y * m.c2.y + m.c1.z * m.c2.z = 0 := by
    linear_combination m.c1.x * hx + m.c1.y * hy + m.c1.z * hz
  have ca1 : m.c0.x = m.c1.y * m.c2.z - m.c2.y * m.c1.z := by
    linear_combination (-m.c1.y) * hz + m.c1.z * hy - m.c0.x * hbb + m.c1.x * hab
  have ca2 : m.c0.y = m.c1.z * m.c2.x - m.c2.z * m.c1.x := by
    linear_combination (-m.c1.z) * hx + m.c1.x * hz - m.c0.y * hbb + m.c1.y * hab
  have ca3 : m.c0.z = m.c1.x * m.c2.y - m.c2.x * m.c1.y := by
    linear_combination (-m.c1.x) * hy + m.c1.y * hx - m.c0.z * hbb + m.c1.z * hab
  have cb1 : m.c1.x = m.c2.y * m.c0.z - m.c0.y * m.c2.z := by
    linear_combination (-m.c0.z) * hy + m.c0.y * hz - m.c1.x * haa + m.c0.x * hab
  have cb2 : m.c1.y = m.c2.z * m.c0.x - m.c0.z * m.c2.x := by
    linear_combination (-m.c0.x) * hz + m.c0.z * hx - m.c1.y * haa + m.c0.y * hab
  have cb3 : m.c1.z = m.c2.x * m.c0.y - m.c0.x * m.c2.y := by
    linear_combination (-m.c0.y) * hx + m.c0.x * hy - m.c1.z * haa + m.c0.z * hab
  refine ⟨⟨hee, hae, hbe⟩, ⟨ca1, ca2, ca3⟩, ⟨cb1, cb2, cb3⟩, ⟨hx, hy, hz⟩, ⟨?_, ?_, ?_⟩,
    ⟨?_, ?_, ?_⟩⟩
  · linear_combination m.c0.x * ca1 + m.c1.x * cb1 + m.c2.x * hx
      - (m.c2.x * hx + m.c2.y * hy + m.c2.z * hz) + hee
  · linear_combination m.c0.y * ca2 + m.c1.y * cb2 + m.c2.y * hy
      - (m.c2.x * hx + m.c2.y * hy + m.c2.z * hz) + hee
  · linear_combination m.c0.z * ca3 + m.c1.z * cb3 + m.c2.z * hz
      - (m.c2.x * hx + m.c2.y * hy + m.c2.z * hz) + hee
  · linear_combination m.c0.y * ca1 + m.c1.y * cb1 + m.c2.y * hx
  · linear_combination m.c0.z * ca2 + m.c1.z * cb2 + m.c2.z * hy
  · linear_combination m.c0.x * ca3 + m.c1.x * cb3 + m.c2.x * hz

/-- The 2 × 2 minors of the symmetric matrix `4 q qᵀ` read off a rotation matrix vanish:
with `L pq` the entry for the product `4 p q`, `L pq * L pr = L pp * L qr`. They are listed
by pivot `p = w, x, y, z`, six for each. -/
theorem IsRotation.minors {m : Mat3 K} (h : IsRotation m) :
    ((m.c1.z - m.c2.y) * (m.c1.z - m.c2.y) = (1 + m.c0.x + m.c1.y + m.c2.z) * (1 + m.c0.x - m.c1.y - m.c2.z) ∧
     (m.c1.z - m.c2.y) * (m.c2.x - m.c0.z) = (1 + m.c0.x + m.c1.y + m.c2.z) * (m.c0.y + m.c1.x) ∧
     (m.c1.z - m.c2.y) * (m.c0.y - m.c1.x) = (1 + m.c0.x + m.c1.y + m.c2.z) * (m.c2.x + m.c0.z) ∧
     (m.c2.x - m.c0.z) * (m.c2.x - m.c0.z) = (1 + m.c0.x + m.c1.y + m.c2.z) * (1 - m.c0.x + m.c1.y - m.c2.z) ∧
     (m.c2.x - m.c0.z) * (m.c0.y - m.c1.x) = (1 + m.c0.x + m.c1.y + m.c2.z) * (m.c1.z + m.c2.y) ∧
     (m.c0.y - m.c1.x) * (m.c0.y - m.c1.x) = (1 + m.c0.x + m.c1.y + m.c2.z) * (1 - m.c0.x - m.c1.y + m.c2.z)) ∧
    ((m.c1.z - m.c2.y) * (m.c1.z - m.c2.y) = (1 + m.c0.x - m.c1.y - m.c2.z) * (1 + m.c0.x + m.c1.y + m.c2.z) ∧
     (m.c1.z - m.c2.y) * (m.c0.y + m.c1.x) = (1 + m.c0.x - m.c1.y - m.c2.z) * (m.c2.x - m.c0.z) ∧
     (m.c1.z - m.c2.y) * (m.c2.x + m.c0.z) = (1 + m.c0.x - m.c1.y - m.c2.z) * (m.c0.y - m.c1.x) ∧
     (m.c0.y + m.c1.x) * (m.c0.y + m.c1.x) = (1 + m.c0.x - m.c1.y - m.c2.z) * (1 - m.c0.x + m.c1.y - m.c2.z) ∧
     (m.c0.y + m.c1.x) * (m.c2.x + m.c0.z) = (1 + m.c0.x - m.c1.y - m.c2.z) * (m.c1.z + m.c2.y) ∧
     (m.c2.x + m.c0.z) * (m.c2.x + m.c0.z) = (1 + m.c0.x - m.c1.y - m.c2.z) * (1 - m.c0.x - m.c1.y + m.c2.z)) ∧
    ((m.c2.x - m.c0.z) * (m.c2.x - m.c0.z) = (1 - m.c0.x + m.c1.y - m.c2.z) * (1 + m.c0.x + m.c1.y + m.c2.z) ∧
     (m.c2.x - m.c0.z) * (m.c0.y + m.c1.x) = (1 - m.c0.x + m.c1.y - m.c2.z) * (m.c1.z - m.c2.y) ∧
     (m.c2.x - m.c0.z) * (m.c1.z + m.c2.y) = (1 - m.c0.x + m.c1.y - m.c2.z) * (m.c0.y - m.c1.x) ∧
     (m.c0.y + m.c1.x) * (m.c0.y + m.c1.x) = (1 - m.c0.x + m.c1.y - m.c2.z) * (1 + m.c0.x - m.c1.y - m.c2.z) ∧
     (m.c0.y + m.c1.x) * (m.c1.z + m.c2.y) = (1 - m.c0.x + m.c1.y - m.c2.z) * (m.c2.x + m.c0.z) ∧
     (m.c1.z + m.c2.y) * (m.c1.z + m.c2.y) = (1 - m.c0.x + m.c1.y - m.c2.z) * (1 - m.c0.x - m.c1.y + m.c2.z)) ∧
    ((m.c0.y - m.c1.x) * (m.c0.y - m.c1.x) = (1 - m.c0.x - m.c1.y + m.c2.z) * (1 + m.c0.x + m.c1.y + m.c2.z) ∧
     (m.c0.y - m.c1.x) * (m.c2.x + m.c0.z) = (1 - m.c0.x - m.c1.y + m.c2.z) * (m.c1.z - m.c2.y) ∧
     (m.c0.y - m.c1.x) * (m.c1.z + m.c2.y) = (1 - m.c0.x - m.c1.y + m.c2.z) * (m.c2.x - m.c0.z) ∧
     (m.c2.x + m.c0.z) * (m.c2.x + m.c0.z) = (1 - m.c0.x - m.c1.y + m.c2.z) * (1 + m.c0.x - m.c1.y - m.c2.z) ∧
     (m.c2.x + m.c0.z) * (m.c1.z + m.c2.y) = (1 - m.c0.x - m.c1.y + m.c2.z) * (m.c0.y + m.c1.x) ∧
     (m.c1.z + m.c2.y) * (m.c1.z + m.c2.y) = (1 - m.c0.x - m.c1.y + m.c2.z) * (1 - m.c0.x + m.c1.y - m.c2.z)) := by
  obtain ⟨⟨r1, r2, r3⟩, ⟨r4, r5, r6⟩, ⟨r7, r8, r9⟩, ⟨r10, r11, r12⟩, ⟨r13, r14, r15⟩,
    ⟨r16, r17, r18⟩⟩ := h.relations
  obtain ⟨r19, r20, r21, _⟩ := h
  simp only [glm.dot] at r19 r20 r21
  refine ⟨⟨?_, ?_, ?_, ?_, ?_, ?_⟩, ⟨?_, ?_, ?_, ?_, ?_, ?_⟩, ⟨?_, ?_, ?_, ?_, ?_, ?_⟩,
    ⟨?_, ?_, ?_, ?_, ?_, ?_⟩⟩ <;>
  linarith

end RotationMatrices

section QuatOfMatrix

variable {K : Type} [LinearOrderedField K]

/-- From a non-zero pivot `p` with `4 p p`, `4 p q`, `4 p r` known, and the vanishing
minor, the product `4 q r`. -/
theorem pivot_product (p q r Lpp Lpq Lpr Lqr : K) (hp : p ≠ 0) (hpp : 4 * p * p = Lpp)
    (hpq : 4 * p * q = Lpq) (hpr : 4 * p * r = Lpr) (hI : Lpq * Lpr = Lpp * Lqr) :
    4 * q * r = Lqr := by
  have h0 : 4 * p * p * (4 * q * r - Lqr) = 0 := by
    linear_combination (4 * p * r) * hpq + Lpq * hpr + hI - Lqr * hpp
  have h4 : (4 : K) * p * p ≠ 0 := by
    have := mul_self_pos.mpr hp
    nlinarith [this]
  have := (mul_eq_zero.mp h0).resolve_left h4
  linarith

/-- A quaternion whose ten products `4 p q` are the entries read off the matrix `m` is a
unit quaternion with rotation matrix `m`. -/
theorem quat_of_products (m : Mat3 K) (q : Quat K)
    (hww : 4 * q.w * q.w = 1 + m.c0.x + m.c1.y + m.c2.z)
    (hxx : 4 * q.x * q.x = 1 + m.c0.x - m.c1.y - m.c2.z)
    (hyy : 4 * q.y * q.y = 1 - m.c0.x + m.c1.y - m.c2.z)
    (hzz : 4 * q.z * q.z = 1 - m.c0.x - m.c1.y + m.c2.z)
    (hwx : 4 * q.w * q.x = m.c1.z - m.c2.y)
    (hwy : 4 * q.w * q.y = m.c2.x - m.c0.z)
    (hwz : 4 * q.w * q.z = m.c0.y - m.c1.x)
    (hxy : 4 * q.x * q.y = m.c0.y + m.c1.x)
    (hxz : 4 * q.x * q.z = m.c2.x + m.c0.z)
    (hyz : 4 * q.y * q.z = m.c1.z + m.c2.y) :
    glm.qdot q q = 1 ∧ glm.mat3_cast q = m := by
  constructor
  · simp only [glm.qdot]; linarith
  · ext <;> simp only [glm.mat3_cast] <;> linarith

/-- The quaternion `quat_cast` builds around the pivot `w`. -/
theorem quat_pivot_w {m : Mat3 K} (h : IsRotation m) (bv k : K) (hb0 : bv ≠ 0)
    (hb : 4 * bv * bv = 1 + m.c0.x + m.c1.y + m.c2.z) (hk : 4 * bv * k = 1) :
    glm.qdot ⟨bv, (m.c1.z - m.c2.y) * k, (m.c2.x - m.c0.z) * k, (m.c0.y - m.c1.x) * k⟩
        ⟨bv, (m.c1.z - m.c2.y) * k, (m.c2.x - m.c0.z) * k, (m.c0.y - m.c1.x) * k⟩ = 1 ∧
    glm.mat3_cast
        ⟨bv, (m.c1.z - m.c2.y) * k, (m.c2.x - m.c0.z) * k, (m.c0.y - m.c1.x) * k⟩ = m := by
  obtain ⟨⟨i1, i2, i3, i4, i5, i6⟩, _, _, _⟩ := h.minors
  have hwx : 4 * bv * ((m.c1.z - m.c2.y) * k) = m.c1.z - m.c2.y := by
    linear_combination (m.c1.z - m.c2.y) * hk
  have hwy : 4 * bv * ((m.c2.x - m.c0.z) * k) = m.c2.x - m.c0.z := by
    linear_combination (m.c2.x - m.c0.z) * hk
  have hwz : 4 * bv * ((m.c0.y - m.c1.x) * k) = m.c0.y - m.c1.x := by
    linear_combination (m.c0.y - m.c1.x) * hk
  exact quat_of_products m _ hb
    (pivot_product bv _ _ _ _ _ _ hb0 hb hwx hwx i1)
    (pivot_product bv _ _ _ _ _ _ hb0 hb hwy hwy i4)
    (pivot_product bv _ _ _ _ _ _ hb0 hb hwz hwz i6)
    hwx hwy hwz
    (pivot_product bv _ _ _ _ _ _ hb0 hb hwx hwy i2)
    (pivot_product bv _ _ _ _ _ _ hb0 hb hwx hwz i3)
    (pivot_product bv _ _ _ _ _ _ hb0 hb hwy hwz i5)

/-- The quaternion `quat_cast` builds around the pivot `x`. -/
theorem quat_pivot_x {m : Mat3 K} (h : IsRotation m) (bv k : K) (hb0 : bv ≠ 0)
    (hb : 4 * bv * bv = 1 + m.c0.x - m.c1.y - m.c2.z) (hk : 4 * bv * k = 1) :
    glm.qdot ⟨(m.c1.z - m.c2.y) * k, bv, (m.c0.y + m.c1.x) * k, (m.c2.x + m.c0.z) * k⟩
        ⟨(m.c1.z - m.c2.y) * k, bv, (m.c0.y + m.c1.x) * k, (m.c2.x + m.c0.z) * k⟩ = 1 ∧
    glm.mat3_cast
        ⟨(m.c1.z - m.c2.y) * k, bv, (m.c0.y + m.c1.x) * k, (m.c2.x + m.c0.z) * k⟩ = m := by
  obtain ⟨_, ⟨i1, i2, i3, i4, i5, i6⟩, _, _⟩ := h.minors
  have hw : 4 * bv * ((m.c1.z - m.c2.y) * k) = m.c1.z - m.c2.y := by
    linear_combination (m.c1.z - m.c2.y) * hk
  have hy : 4 * bv * ((m.c0.y + m.c1.x) * k) = m.c0.y + m.c1.x := by
    linear_combination (m.c0.y + m.c1.x) * hk
  have hz : 4 * bv * ((m.c2.x + m.c0.z) * k) = m.c2.x + m.c0.z := by
    linear_combination (m.c2.x + m.c0.z) * hk
  exact quat_of_products m _
    (pivot_product bv _ _ _ _ _ _ hb0 hb hw hw i1)
    hb
    (pivot_product bv _ _ _ _ _ _ hb0 hb hy hy i4)
    (pivot_product bv _ _ _ _ _ _ hb0 hb hz hz i6)
    (by linear_combination hw)
    (pivot_product bv _ _ _ _ _ _ hb0 hb hw hy i2)
    (pivot_product bv _ _ _ _ _ _ hb0 hb hw hz i3)
    hy hz
    (pivot_product bv _ _ _ _ _ _ hb0 hb hy hz i5)

/-- The quaternion `quat_cast` builds around the pivot `y`. -/
theorem quat_pivot_y {m : Mat3 K} (h : IsRotation m) (bv k : K) (hb0 : bv ≠ 0)
    (hb : 4 * bv * bv = 1 - m.c0.x + m.c1.y - m.c2.z) (hk : 4 * bv * k = 1) :
    glm.qdot ⟨(m.c2.x - m.c0.z) * k, (m.c0.y + m.c1.x) * k, bv, (m.c1.z + m.c2.y) * k⟩
        ⟨(m.c2.x - m.c0.z) * k, (m.c0.y + m.c1.x) * k, bv, (m.c1.z + m.c2.y) * k⟩ = 1 ∧
    glm.mat3_cast
        ⟨(m.c2.x - m.c0.z) * k, (m.c0.y + m.c1.x) * k, bv, (m.c1.z + m.c2.y) * k⟩ = m := by
  obtain ⟨_, _, ⟨i1, i2, i3, i4, i5, i6⟩, _⟩ := h.minors
  have hw : 4 * bv * ((m.c2.x - m.c0.z) * k) = m.c2.x - m.c0.z := by
    linear_combination (m.c2.x - m.c0.z) * hk
  have hx : 4 * bv * ((m.c0.y + m.c1.x) * k) = m.c0.y + m.c1.x := by
    linear_combination (m.c0.y + m.c1.x) * hk
  have hz : 4 * bv * ((m.c1.z + m.c2.y) * k) = m.c1.z + m.c2.y := by
    linear_combination (m.c1.z + m.c2.y) * hk
  exact quat_of_products m _
    (pivot_product bv _ _ _ _ _ _ hb0 hb hw hw i1)
    (pivot_product bv _ _ _ _ _ _ hb0 hb hx hx i4)
    hb
    (pivot_product bv _ _ _ _ _ _ hb0 hb hz hz i6)
    (pivot_product bv _ _ _ _ _ _ hb0 hb hw hx i2)
    (by linear_combination hw)
    (pivot_product bv _ _ _ _ _ _ hb0 hb hw hz i3)
    (by linear_combination hx)
    (pivot_product bv _ _ _ _ _ _ hb0 hb hx hz i5)
    hz

/-- The quaternion `quat_cast` builds around the pivot `z`. -/
theorem quat_pivot_z {m : Mat3 K} (h : IsRotation m) (bv k : K) (hb0 : bv ≠ 0)
    (hb : 4 * bv * bv = 1 - m.c0.x - m.c1.y + m.c2.z) (hk : 4 * bv * k = 1) :
    glm.qdot ⟨(m.c0.y - m.c1.x) * k, (m.c2.x + m.c0.z) * k, (m.c1.z + m.c2.y) * k, bv⟩
        ⟨(m.c0.y - m.c1.x) * k, (m.c2.x + m.c0.z) * k, (m.c1.z + m.c2.y) * k, bv⟩ = 1 ∧
    glm.mat3_cast
        ⟨(m.c0.y - m.c1.x) * k, (m.c2.x + m.c0.z) * k, (m.c1.z + m.c2.y) * k, bv⟩ = m := by
  obtain ⟨_, _, _, ⟨i1, i2, i3, i4, i5, i6⟩⟩ := h.minors
  have hw : 4 * bv * ((m.c0.y - m.c1.x) * k) = m.c0.y - m.c1.x := by
    linear_combination (m.c0.y - m.c1.x) * hk
  have hx : 4 * bv * ((m.c2.x + m.c0.z) * k) = m.c2.x + m.c0.z := by
    linear_combination (m.c2.x + m.c0.z) * hk
  have hy : 4 * bv * ((m.c1.z + m.c2.y) * k) = m.c1.z + m.c2.y := by
    linear_combination (m.c1.z + m.c2.y) * hk
  exact quat_of_products m _
    (pivot_product bv _ _ _ _ _ _ hb0 hb hw hw i1)
    (pivot_product bv _ _ _ _ _ _ hb0 hb hx hx i4)
    (pivot_product bv _ _ _ _ _ _ hb0 hb hy hy i6)
    hb
    (pivot_product bv _ _ _ _ _ _ hb0 hb hw hx i2)
    (pivot_product bv _ _ _ _ _ _ hb0 hb hw hy i3)
    (by linear_combination hw)
    (pivot_product bv _ _ _ _ _ _ hb0 hb hx hy i5)
    (by linear_combination hx)
    (by linear_combination hy)

end QuatOfMatrix

/-- What `quat_cast` needs of the square root: for `s > 0`, `b = sqrt s * (1/2)` is not
zero, `4 b b = s` and `4 b ((1/4) / b) = 1`. -/
theorem half_sqrt_facts (s : ℝ) (hs : 0 < s) :
    Real.sqrt s * (1 / 2) ≠ 0 ∧
    4 * (Real.sqrt s * (1 / 2)) * (Real.sqrt s * (1 / 2)) = s ∧
    4 * (Real.sqrt s * (1 / 2)) * ((1 / 4) / (Real.sqrt s * (1 / 2))) = 1 := by
  have hpos : 0 < Real.sqrt s := Real.sqrt_pos.mpr hs
  have hsq : Real.sqrt s * Real.sqrt s = s := Real.mul_self_sqrt hs.le
  refine ⟨by positivity, by linear_combination hsq, ?_⟩
  field_simp

/-- The quaternion `quat_cast` returns for a rotation matrix is a unit quaternion with
that rotation matrix. -/
theorem mat3_cast_quat_cast (m : Mat3 ℝ) (h : IsRotation m) :
    glm.qdot (glm.quat_cast m) (glm.quat_cast m) = 1 ∧
    glm.mat3_cast (glm.quat_cast m) = m := by
  unfold glm.quat_cast
  simp only [cmath_sqrt]
  by_cases h1 : m.c0.x - m.c1.y - m.c2.z > m.c0.x + m.c1.y + m.c2.z
  · simp only [h1, if_true]
    by_cases h2 : m.c1.y - m.c0.x - m.c2.z > m.c0.x - m.c1.y - m.c2.z
    · simp only [h2, if_true]
      by_cases h3 : m.c2.z - m.c0.x - m.c1.y > m.c1.y - m.c0.x - m.c2.z
      · simp only [h3, if_true]
        obtain ⟨f1, f2, f3⟩ := half_sqrt_facts (m.c2.z - m.c0.x - m.c1.y + 1) (by linarith)
        exact quat_pivot_z h _ _ f1 (by linarith) f3
      · simp only [h3, if_false]
        obtain ⟨f1, f2, f3⟩ := half_sqrt_facts (m.c1.y - m.c0.x - m.c2.z + 1) (by linarith)
        exact quat_pivot_y h _ _ f1 (by linarith) f3
    · simp only [h2, if_false]
      by_cases h3 : m.c2.z - m.c0.x - m.c1.y > m.c0.x - m.c1.y - m.c2.z
      · simp only [h3, if_true]
        obtain ⟨f1, f2, f3⟩ := half_sqrt_facts (m.c2.z - m.c0.x - m.c1.y + 1) (by linarith)
        exact quat_pivot_z h _ _ f1 (by linarith) f3
      · simp only [h3, if_false]
        obtain ⟨f1, f2, f3⟩ := half_sqrt_facts (m.c0.x - m.c1.y - m.c2.z + 1) (by linarith)
        exact quat_pivot_x h _ _ f1 (by linarith) f3
  · simp only [h1, if_false]
    by_cases h2 : m.c1.y - m.c0.x - m.c2.z > m.c0.x + m.c1.y + m.c2.z
    · simp only [h2, if_true]
      by_cases h3 : m.c2.z - m.c0.x - m.c1.y > m.c1.y - m.c0.x - m.c2.z
      · simp only [h3, if_true]
        obtain ⟨f1, f2, f3⟩ := half_sqrt_facts (m.c2.z - m.c0.x - m.c1.y + 1) (by linarith)
        exact quat_pivot_z h _ _ f1 (by linarith) f3
      · simp only [h3, if_false]
        obtain ⟨f1, f2, f3⟩ := half_sqrt_facts (m.c1.y - m.c0.x - m.c2.z + 1) (by linarith)
        exact quat_pivot_y h _ _ f1 (by linarith) f3
    · simp only [h2, if_false]
      by_cases h3 : m.c2.z - m.c0.x - m.c1.y > m.c0.x + m.c1.y + m.c2.z
      · simp only [h3, if_true]
        obtain ⟨f1, f2, f3⟩ := half_sqrt_facts (m.c2.z - m.c0.x - m.c1.y + 1) (by linarith)
        exact quat_pivot_z h _ _ f1 (by linarith) f3
      · simp only [h3, if_false]
        obtain ⟨f1, f2, f3⟩ := half_sqrt_facts (m.c0.x + m.c1.y + m.c2.z + 1) (by linarith)
        exact quat_pivot_w h _ _ f1 (by linarith) f3

/-! ## `LookAt` -/

/-- The method `LookAt` is `updateCameraVectors` on a camera with the angles, and in QUATERNION mode
the orientation, set from the direction to the target. -/
theorem LookAt_eq (c : Camera ℝ) (target : Vec3 ℝ) :
    ∃ c1 : Camera ℝ, c.LookAt target = c1.updateCameraVectors ∧ c1.Mode = c.Mode ∧
      c1.Yaw = glm.degrees (Complex.arg ⟨(glm.normalize (target - c.Position)).x,
          (glm.normalize (target - c.Position)).z⟩) ∧
      c1.Pitch = (c.LookAt target).Pitch ∧
      (c.Mode = QUATERNION → c1.Orientation = (c.LookAt target).Orientation) := by
  refine ⟨_, rfl, ?_, ?_, ?_, ?_⟩
  · simp only []
    split_ifs <;> rfl
  · simp only [cmath_atan2]
    split_ifs <;> rfl
  · unfold Camera.LookAt
    rw [updateCameraVectors_Pitch]
  · intro _
    unfold Camera.LookAt
    rw [updateCameraVectors_Orientation]

/-- In QUATERNION mode the recomputed `Front` is minus the normalised third column of the
rotation matrix of `Orientation`. -/
theorem updateCameraVectors_Front_quaternion (c : Camera ℝ) (hm : c.Mode = QUATERNION) :
    c.updateCameraVectors.Front = -glm.normalize (glm.mat3_cast c.Orientation).c2 := by
  rw [updateCameraVectors_quaternion c hm]

theorem dot_normalize_sub (p q : Vec3 ℝ) (h : p ≠ q) :
    glm.dot (glm.normalize (p - q)) (glm.normalize (p - q)) = 1 := by
  refine dot_normalize_self _ (fun h0 => h ?_)
  have hz := (dot_self_eq_zero_iff _).mp h0
  have hx := congrArg Vec3.x hz
  have hy := congrArg Vec3.y hz
  have hz := congrArg Vec3.z hz
  simp only [vec3_sub_x, vec3_sub_y, vec3_sub_z] at hx hy hz
  ext <;> linarith

/-- A unit direction `d` whose elevation `asin d.y` is within 89 degrees is recovered from
its Euler angles `asin d.y` and `atan2 d.z d.x`. -/
theorem euler_direction (d : Vec3 ℝ) (hd : glm.dot d d = 1)
    (hlo : -89 ≤ glm.degrees (Real.arcsin d.y)) (hhi : glm.degrees (Real.arcsin d.y) ≤ 89) :
    (⟨Real.cos (Complex.arg ⟨d.x, d.z⟩) * Real.cos (Real.arcsin d.y),
      Real.sin (Real.arcsin d.y),
      Real.sin (Complex.arg ⟨d.x, d.z⟩) * Real.cos (Real.arcsin d.y)⟩ : Vec3 ℝ) = d := by
  simp only [glm.dot] at hd
  have hpi : 0 < Real.pi := Real.pi_pos
  have hy1 : d.y < 1 := by
    by_contra hge
    have h1 : Real.arcsin d.y = Real.pi / 2 := Real.arcsin_eq_pi_div_two.mpr (not_lt.mp hge)
    rw [h1] at hhi
    simp only [glm.degrees, cmath_pi] at hhi
    have : Real.pi / 2 * (180 / Real.pi) = 90 := by field_simp; ring
    linarith
  have hy2 : -1 < d.y := by
    by_contra hle
    have h1 : Real.arcsin d.y = -(Real.pi / 2) :=
      Real.arcsin_eq_neg_pi_div_two.mpr (not_lt.mp hle)
    rw [h1] at hlo
    simp only [glm.degrees, cmath_pi] at hlo
    have : -(Real.pi / 2) * (180 / Real.pi) = -90 := by field_simp; ring
    linarith
  have hh : 0 < d.x * d.x + d.z * d.z := by nlinarith
  have hz : (⟨d.x, d.z⟩ : ℂ) ≠ 0 := by
    intro h0
    have hre := congrArg Complex.re h0
    have him := congrArg Complex.im h0
    simp only [Complex.zero_re, Complex.zero_im] at hre him
    rw [hre, him] at hh
    norm_num at hh
  have habs : Complex.abs ⟨d.x, d.z⟩ = Real.sqrt (d.x * d.x + d.z * d.z) := by
    rw [Complex.abs_apply, Complex.normSq_mk]
  have hcos : Real.cos (Real.arcsin d.y) = Real.sqrt (d.x * d.x + d.z * d.z) := by
    rw [Real.cos_arcsin]
    congr 1
    nlinarith
  have hs0 : Real.sqrt (d.x * d.x + d.z * d.z) ≠ 0 := (Real.sqrt_pos.mpr hh).ne'
  ext
  · simp only [Complex.cos_arg hz, habs, hcos]
    field_simp
  · simp only [Real.sin_arcsin hy2.le hy1.le]
  · simp only [Complex.sin_arg, habs, hcos]
    field_simp

/-- The camera frame matrix `LookAt` hands to `quat_cast` is a rotation matrix. -/
theorem lookAt_matrix_isRotation (d W : Vec3 ℝ) (hd : glm.dot d d = 1)
    (hW : glm.cross d W ≠ ⟨0, 0, 0⟩) :
    IsRotation (⟨glm.normalize (glm.cross d W),
      glm.cross (glm.normalize (glm.cross d W)) d, -d⟩ : Mat3 ℝ) := by
  obtain ⟨_, hRR, hTT, _, hRT, _, hX⟩ := base_frame d W hd hW
  exact ⟨hRR, hTT, hRT, hX⟩

/-- After `LookAt`, `Front` is the unit direction to the target: in EULER mode when the
elevation of the direction is within 89 degrees, in QUATERNION mode when the direction is
not parallel to `WorldUp`. -/
theorem LookAt_Front (c : Camera ℝ) (target : Vec3 ℝ) (ht : target ≠ c.Position)
    (h : (c.Mode = EULER ∧
            -89 ≤ glm.degrees (Real.arcsin (glm.normalize (target - c.Position)).y) ∧
            glm.degrees (Real.arcsin (glm.normalize (target - c.Position)).y) ≤ 89) ∨
         (c.Mode = QUATERNION ∧
            glm.cross (glm.normalize (target - c.Position)) c.WorldUp ≠ ⟨0, 0, 0⟩)) :
    (c.LookAt target).Front = glm.normalize (target - c.Position) := by
  have hd := dot_normalize_sub target c.Position ht
  obtain ⟨c1, hc1, hmode, hyaw, hpitch, hori⟩ := LookAt_eq c target
  rcases h with ⟨hm, hlo, hhi⟩ | ⟨hm, hW⟩
  · have hP : c1.Pitch = glm.degrees (Real.arcsin (glm.normalize (target - c.Position)).y) := by
      rw [hpitch, LookAt_Pitch, if_neg (not_lt.mpr hhi), if_neg (not_lt.mpr hlo)]
    rw [hc1, updateCameraVectors_Front_euler c1 (hmode.trans hm)]
    simp only [Camera.eulerFront, hyaw, hP, radians_degrees, cmath_cos, cmath_sin]
    exact euler_direction _ hd hlo hhi
  · have hrot := lookAt_matrix_isRotation _ _ hd hW
    obtain ⟨hu, hmat⟩ := mat3_cast_quat_cast _ hrot
    have hO : c1.Orientation = glm.quat_cast
        ⟨glm.normalize (glm.cross (glm.normalize (target - c.Position)) c.WorldUp),
         glm.cross (glm.normalize (glm.cross (glm.normalize (target - c.Position)) c.WorldUp))
           (glm.normalize (target - c.Position)),
         -glm.normalize (target - c.Position)⟩ := by
      rw [hori hm, LookAt_quaternion_Orientation c target hm, qnormalize_of_unit _ hu]
    rw [hc1, updateCameraVectors_Front_quaternion c1 (hmode.trans hm), hO, hmat]
    show -glm.normalize (-glm.normalize (target - c.Position)) = _
    rw [normalize_of_unit _ (by rw [dot_neg_neg]; exact hd), vec3_neg_neg]

/-- C6: for a camera with `WorldUp = (0, 1, 0)` and a target other than `Position` whose
unit direction `d` is not parallel to `WorldUp` (and, in EULER mode, has its elevation
`asin d.y` within `[-89, 89]` degrees), after `LookAt target` the `Front` vector is `d`,
in both modes; and `LookAt (Position + (0, 0, -1))` gives `Front = (0, 0, -1)`. -/
theorem C6_LookAt_points_at_target (c : Camera ℝ) (target : Vec3 ℝ)
    (hW : c.WorldUp = ⟨0, 1, 0⟩) (ht : target ≠ c.Position)
    (hpar : glm.cross (glm.normalize (target - c.Position)) c.WorldUp ≠ ⟨0, 0, 0⟩)
    (hel : c.Mode = EULER →
      -89 ≤ glm.degrees (Real.arcsin (glm.normalize (target - c.Position)).y) ∧
      glm.degrees (Real.arcsin (glm.normalize (target - c.Position)).y) ≤ 89) :
    (c.LookAt target).Front = glm.normalize (target - c.Position) ∧
    (c.LookAt (c.Position + ⟨0, 0, -1⟩)).Front = ⟨0, 0, -1⟩ := by
  have hd : glm.normalize (c.Position + ⟨0, 0, -1⟩ - c.Position) = ⟨0, 0, -1⟩ := by
    rw [vec3_add_sub_cancel]
    exact normalize_of_unit _ (by simp [glm.dot])
  have hne : c.Position + ⟨0, 0, -1⟩ ≠ c.Position := by
    intro h0
    have hz := congrArg Vec3.z h0
    simp only [vec3_add_z] at hz
    linarith
  constructor
  · cases hm : c.Mode
    · exact LookAt_Front c target ht (Or.inl ⟨hm, hel hm⟩)
    · exact LookAt_Front c target ht (Or.inr ⟨hm, hpar⟩)
  · have key := LookAt_Front c (c.Position + ⟨0, 0, -1⟩) hne
    rw [hd] at key
    apply key
    cases hm : c.Mode
    · left
      have h0 : glm.degrees (Real.arcsin (0 : ℝ)) = 0 := by simp [glm.degrees]
      refine ⟨rfl, ?_, ?_⟩
      · show -89 ≤ glm.degrees (Real.arcsin (0 : ℝ))
        rw [h0]; norm_num
      · show glm.degrees (Real.arcsin (0 : ℝ)) ≤ 89
        rw [h0]; norm_num
    · right
      refine ⟨rfl, ?_⟩
      rw [hW]
      intro h0
      have hx := congrArg Vec3.x h0
      simp [glm.cross] at hx

/-- C6 at the sample camera in EULER mode, looking at the point `(1, 0, 3)` to its right. -/
theorem C6_LookAt_points_at_target_witness :
    ((Camera.sample EULER : Camera ℝ).LookAt ⟨1, 0, 3⟩).Front
      = glm.normalize (⟨1, 0, 3⟩ - (Camera.sample EULER : Camera ℝ).Position) :=
  (C6_LookAt_points_at_target (Camera.sample EULER) ⟨1, 0, 3⟩ rfl
    (by intro h; have := congrArg Vec3.x h; simp [Camera.sample] at this)
    (by
      intro h
      have hz := congrArg Vec3.z h
      simp [Camera.sample, glm.cross, glm.normalize, glm.dot] at hz)
    (by
      intro _
      have h0 : glm.degrees (Real.arcsin
          (glm.normalize (⟨1, 0, 3⟩ - (Camera.sample EULER : Camera ℝ).Position)).y) = 0 := by
        simp [Camera.sample, glm.normalize, glm.dot, glm.degrees]
      rw [h0]
      constructor <;> norm_num)).1

/-! ## The mode switch -/

/-- The quaternion `eulerToQuaternion` builds, before normalisation, in terms of the half
angles `a = Yaw / 2` and `b = Pitch / 2` (in radians):
`(cos a cos b, cos a sin b, sin a cos b, -sin a sin b)`. -/
theorem eulerToQuaternion_product (yaw pitch : ℝ) :
    glm.angleAxis pitch (glm.rotateVec (glm.angleAxis yaw ⟨0, 1, 0⟩) ⟨1, 0, 0⟩)
        * glm.angleAxis yaw ⟨0, 1, 0⟩
      = ⟨Real.cos (yaw * (1 / 2)) * Real.cos (pitch * (1 / 2)),
         Real.cos (yaw * (1 / 2)) * Real.sin (pitch * (1 / 2)),
         Real.sin (yaw * (1 / 2)) * Real.cos (pitch * (1 / 2)),
         -(Real.sin (yaw * (1 / 2)) * Real.sin (pitch * (1 / 2)))⟩ := by
  have hA := Real.sin_sq_add_cos_sq (yaw * (1 / 2))
  ext
  · simp only [quat_mul_w, glm.angleAxis, glm.rotateVec, glm.cross, cmath_sin, cmath_cos,
      vec3_add_x, vec3_add_y, vec3_add_z, vec3_mul_x, vec3_mul_y, vec3_mul_z]
    ring
  · simp only [quat_mul_x, glm.angleAxis, glm.rotateVec, glm.cross, cmath_sin, cmath_cos,
      vec3_add_x, vec3_add_y, vec3_add_z, vec3_mul_x, vec3_mul_y, vec3_mul_z]
    ring
  · simp only [quat_mul_y, glm.angleAxis, glm.rotateVec, glm.cross, cmath_sin, cmath_cos,
      vec3_add_x, vec3_add_y, vec3_add_z, vec3_mul_x, vec3_mul_y, vec3_mul_z]
    ring
  · simp only [quat_mul_z, glm.angleAxis, glm.rotateVec, glm.cross, cmath_sin, cmath_cos,
      vec3_add_x, vec3_add_y, vec3_add_z, vec3_mul_x, vec3_mul_y, vec3_mul_z]
    linear_combination
      (-2 * Real.sin (yaw * (1 / 2)) * Real.sin (pitch * (1 / 2))) * hA

/-- The quaternion of `eulerToQuaternion_product` is a unit quaternion. -/
theorem half_angle_quat_unit (a b : ℝ) :
    glm.qdot
        (⟨Real.cos a * Real.cos b, Real.cos a * Real.sin b, Real.sin a * Real.cos b,
          -(Real.sin a * Real.sin b)⟩ : Quat ℝ)
        ⟨Real.cos a * Real.cos b, Real.cos a * Real.sin b, Real.sin a * Real.cos b,
          -(Real.sin a * Real.sin b)⟩ = 1 := by
  have hA := Real.sin_sq_add_cos_sq a
  have hB := Real.sin_sq_add_cos_sq b
  simp only [glm.qdot]
  linear_combination (Real.sin b ^ 2 + Real.cos b ^ 2) * hA + hB

/-- The orientation `SetMode QUATERNION` stores when it leaves EULER mode, in half angles. -/
theorem SetMode_quaternion_Orientation_eq (c : Camera ℝ) (hm : c.Mode = EULER) :
    (c.SetMode QUATERNION).Orientation
      = ⟨Real.cos (glm.radians c.Yaw * (1 / 2)) * Real.cos (glm.radians c.Pitch * (1 / 2)),
         Real.cos (glm.radians c.Yaw * (1 / 2)) * Real.sin (glm.radians c.Pitch * (1 / 2)),
         Real.sin (glm.radians c.Yaw * (1 / 2)) * Real.cos (glm.radians c.Pitch * (1 / 2)),
         -(Real.sin (glm.radians c.Yaw * (1 / 2))
            * Real.sin (glm.radians c.Pitch * (1 / 2)))⟩ := by
  rw [SetMode_quaternion_Orientation c hm, eulerToQuaternion_product,
    qnormalize_of_unit _ (half_angle_quat_unit _ _)]

theorem SetMode_quaternion_Mode (c : Camera ℝ) (hm : c.Mode = EULER) :
    (c.SetMode QUATERNION).Mode = QUATERNION := by
  have hne : c.Mode ≠ QUATERNION := by rw [hm]; decide
  unfold Camera.SetMode
  rw [if_pos hne, updateCameraVectors_Mode]
  simp only [if_true]
  rfl

/-- The method `SetMode` to another mode ends with `updateCameraVectors`, which does not change
`Orientation`: the vectors are the ones derived from the stored orientation. -/
theorem SetMode_quaternion_Front (c : Camera ℝ) (hm : c.Mode = EULER) :
    (c.SetMode QUATERNION).Front
      = -glm.normalize (glm.mat3_cast (c.SetMode QUATERNION).Orientation).c2 := by
  have hne : c.Mode ≠ QUATERNION := by rw [hm]; decide
  have e : c.SetMode QUATERNION
      = Camera.updateCameraVectors (Camera.eulerToQuaternion { c with Mode := QUATERNION }) := by
    unfold Camera.SetMode
    rw [if_pos hne]
    simp only [if_true]
  rw [e, updateCameraVectors_Orientation]
  exact updateCameraVectors_Front_quaternion _ rfl

/-- After `SetMode QUATERNION` from EULER mode, `Front` is
`(-sin Yaw cos Pitch, sin Pitch, -cos Yaw cos Pitch)`, whereas the Euler front is
`(cos Yaw cos Pitch, sin Pitch, sin Yaw cos Pitch)`. -/
theorem SetMode_quaternion_Front_eq (c : Camera ℝ) (hm : c.Mode = EULER) :
    (c.SetMode QUATERNION).Front
      = ⟨-(Real.sin (glm.radians c.Yaw) * Real.cos (glm.radians c.Pitch)),
         Real.sin (glm.radians c.Pitch),
         -(Real.cos (glm.radians c.Yaw) * Real.cos (glm.radians c.Pitch))⟩ := by
  have hu := half_angle_quat_unit (glm.radians c.Yaw * (1 / 2)) (glm.radians c.Pitch * (1 / 2))
  have h2 := (mat3_cast_frame _ hu).2.2.1
  rw [SetMode_quaternion_Front c hm, SetMode_quaternion_Orientation_eq c hm,
    normalize_of_unit _ h2]
  have eY : glm.radians c.Yaw = 2 * (glm.radians c.Yaw * (1 / 2)) := by ring
  have eP : glm.radians c.Pitch = 2 * (glm.radians c.Pitch * (1 / 2)) := by ring
  have hA := Real.sin_sq_add_cos_sq (glm.radians c.Yaw * (1 / 2))
  have hB := Real.sin_sq_add_cos_sq (glm.radians c.Pitch * (1 / 2))
  generalize glm.radians c.Yaw * (1 / 2) = a at eY hA
  generalize glm.radians c.Pitch * (1 / 2) = b at eP hB
  rw [eY, eP]
  ext
  · simp only [glm.mat3_cast, vec3_neg_x, Real.sin_two_mul, Real.cos_two_mul]
    linear_combination (2 * Real.sin a * Real.cos a) * hB
  · simp only [glm.mat3_cast, vec3_neg_y, Real.sin_two_mul, Real.cos_two_mul]
    linear_combination (2 * Real.sin b * Real.cos b) * hA
  · simp only [glm.mat3_cast, vec3_neg_z, Real.sin_two_mul, Real.cos_two_mul]
    linear_combination (2 * Real.cos a ^ 2) * hB + (2 * Real.cos b ^ 2) * hA

/-- C1 fails at the default camera: in EULER mode (yaw `-90`, pitch `0`, roll `0`,
`WorldUp = (0, 1, 0)`) `updateCameraVectors` gives `Front = (0, 0, -1)`, and after
`SetMode QUATERNION` the `Front` computed from the converted quaternion is `(1, 0, 0)`. -/
theorem C1_mode_switch_turns_front :
    (Camera.sample EULER : Camera ℝ).updateCameraVectors.Front = ⟨0, 0, -1⟩ ∧
    ((Camera.sample EULER : Camera ℝ).SetMode QUATERNION).Front = ⟨1, 0, 0⟩ := by
  constructor
  · rw [updateCameraVectors_Front_euler _ rfl]
    simp [Camera.eulerFront, Camera.sample, radians_neg_ninety, radians_zero]
  · rw [SetMode_quaternion_Front_eq _ rfl]
    simp [Camera.sample, radians_neg_ninety, radians_zero]

/-! ## The round trip EULER → QUATERNION → EULER -/

/-- The angles `quaternionToEuler` stores. -/
theorem quaternionToEuler_angles (c : Camera ℝ) :
    c.quaternionToEuler.Pitch = glm.degrees (glm.pitch c.Orientation) ∧
    c.quaternionToEuler.Yaw =
      (if glm.degrees (glm.yaw c.Orientation) > 180 then
          glm.degrees (glm.yaw c.Orientation) - 360
        else if glm.degrees (glm.yaw c.Orientation) < -180 then
          glm.degrees (glm.yaw c.Orientation) + 360
        else glm.degrees (glm.yaw c.Orientation)) := by
  unfold Camera.quaternionToEuler
  simp only [glm.eulerAngles]
  by_cases h1 : glm.degrees (glm.yaw c.Orientation) > 180
  · simp only [h1, if_true, and_self]
  · by_cases h2 : glm.degrees (glm.yaw c.Orientation) < -180
    · simp only [h1, if_false, h2, if_true, and_self]
    · simp only [h1, if_false, h2, and_self]

/-- The angles `SetMode EULER` stores when it leaves QUATERNION mode. -/
theorem SetMode_euler_angles (c : Camera ℝ) (hm : c.Mode = QUATERNION) :
    (c.SetMode EULER).Pitch = glm.degrees (glm.pitch c.Orientation) ∧
    (c.SetMode EULER).Yaw =
      (if glm.degrees (glm.yaw c.Orientation) > 180 then
          glm.degrees (glm.yaw c.Orientation) - 360
        else if glm.degrees (glm.yaw c.Orientation) < -180 then
          glm.degrees (glm.yaw c.Orientation) + 360
        else glm.degrees (glm.yaw c.Orientation)) := by
  have hne : c.Mode ≠ EULER := by rw [hm]; decide
  have hne2 : ¬ (EULER = QUATERNION) := by decide
  unfold Camera.SetMode
  rw [if_pos hne]
  simp only [if_neg hne2, updateCameraVectors_Pitch, updateCameraVectors_Yaw]
  exact quaternionToEuler_angles { c with Mode := EULER }

/-- The yaw and pitch GLM extracts from the quaternion `eulerToQuaternion` builds: the
arcsine of `sin Yaw`, and the argument of `cos Yaw * (cos Pitch + i sin Pitch)`. -/
theorem half_angle_quat_angles (a b : ℝ) :
    glm.yaw (⟨Real.cos a * Real.cos b, Real.cos a * Real.sin b, Real.sin a * Real.cos b,
        -(Real.sin a * Real.sin b)⟩ : Quat ℝ) = Real.arcsin (Real.sin (2 * a)) ∧
    glm.pitch (⟨Real.cos a * Real.cos b, Real.cos a * Real.sin b, Real.sin a * Real.cos b,
        -(Real.sin a * Real.sin b)⟩ : Quat ℝ)
      = Complex.arg ⟨Real.cos (2 * a) * Real.cos (2 * b), Real.cos (2 * a) * Real.sin (2 * b)⟩ := by
  have hA := Real.sin_sq_add_cos_sq a
  have hB := Real.sin_sq_add_cos_sq b
  constructor
  · have e : -2 * (Real.cos a * Real.sin b * -(Real.sin a * Real.sin b)
        - Real.cos a * Real.cos b * (Real.sin a * Real.cos b)) = Real.sin (2 * a) := by
      rw [Real.sin_two_mul]
      linear_combination (2 * Real.sin a * Real.cos a) * hB
    simp only [glm.yaw, cmath_asin, e, glm.clamp]
    rw [max_eq_left (Real.neg_one_le_sin _), min_eq_left (Real.sin_le_one _)]
  · have e1 : 2 * (Real.sin a * Real.cos b * -(Real.sin a * Real.sin b)
        + Real.cos a * Real.cos b * (Real.cos a * Real.sin b))
          = Real.cos (2 * a) * Real.sin (2 * b) := by
      rw [Real.sin_two_mul, Real.cos_two_mul]
      linear_combination (-2 * Real.sin b * Real.cos b) * hA
    have e2 : Real.cos a * Real.cos b * (Real.cos a * Real.cos b)
        - Real.cos a * Real.sin b * (Real.cos a * Real.sin b)
        - Real.sin a * Real.cos b * (Real.sin a * Real.cos b)
        + -(Real.sin a * Real.sin b) * -(Real.sin a * Real.sin b)
          = Real.cos (2 * a) * Real.cos (2 * b) := by
      rw [Real.cos_two_mul, Real.cos_two_mul]
      linear_combination (1 - 2 * Real.cos b ^ 2) * hA
        + (Real.sin a ^ 2 - Real.cos a ^ 2) * hB
    simp only [glm.pitch, cmath_atan2, e1, e2]

/-- The angles an EULER-mode camera has after `SetMode QUATERNION` and `SetMode EULER`. -/
theorem round_trip_angles (c : Camera ℝ) (hm : c.Mode = EULER) :
    ((c.SetMode QUATERNION).SetMode EULER).Yaw
        = glm.degrees (Real.arcsin (Real.sin (glm.radians c.Yaw))) ∧
    ((c.SetMode QUATERNION).SetMode EULER).Pitch
        = glm.degrees (Complex.arg
            ⟨Real.cos (glm.radians c.Yaw) * Real.cos (glm.radians c.Pitch),
             Real.cos (glm.radians c.Yaw) * Real.sin (glm.radians c.Pitch)⟩) := by
  obtain ⟨hP, hY⟩ := SetMode_euler_angles (c.SetMode QUATERNION) (SetMode_quaternion_Mode c hm)
  obtain ⟨hy, hp⟩ := half_angle_quat_angles (glm.radians c.Yaw * (1 / 2))
    (glm.radians c.Pitch * (1 / 2))
  have eY : 2 * (glm.radians c.Yaw * (1 / 2)) = glm.radians c.Yaw := by ring
  have eP : 2 * (glm.radians c.Pitch * (1 / 2)) = glm.radians c.Pitch := by ring
  rw [eY] at hy
  rw [eY, eP] at hp
  rw [SetMode_quaternion_Orientation_eq c hm] at hP hY
  rw [hy] at hY
  rw [hp] at hP
  refine ⟨?_, hP⟩
  rw [hY]
  have hpi := Real.pi_pos
  have h1 := Real.arcsin_le_pi_div_two (Real.sin (glm.radians c.Yaw))
  have h2 := Real.neg_pi_div_two_le_arcsin (Real.sin (glm.radians c.Yaw))
  have e90 : Real.pi / 2 * (180 / Real.pi) = 90 := by field_simp; ring
  have hk : (0 : ℝ) < 180 / Real.pi := by positivity
  have hle : glm.degrees (Real.arcsin (Real.sin (glm.radians c.Yaw))) ≤ 90 := by
    simp only [glm.degrees, cmath_pi]
    nlinarith [mul_le_mul_of_nonneg_right h1 hk.le]
  have hge : -90 ≤ glm.degrees (Real.arcsin (Real.sin (glm.radians c.Yaw))) := by
    simp only [glm.degrees, cmath_pi]
    nlinarith [mul_le_mul_of_nonneg_right h2 hk.le]
  rw [if_neg (by linarith), if_neg (by linarith)]

/-- C2 fails at yaw 135, pitch 0: after `SetEulerAngles 135 0 0`, `SetMode QUATERNION` and
`SetMode EULER`, the camera has `Yaw = 45` and `Pitch = 180`. -/
theorem C2_round_trip_at_yaw_135 :
    ((((Camera.sample EULER : Camera ℝ).SetEulerAngles 135 0 0 false).SetMode
        QUATERNION).SetMode EULER).Yaw = 45 ∧
    ((((Camera.sample EULER : Camera ℝ).SetEulerAngles 135 0 0 false).SetMode
        QUATERNION).SetMode EULER).Pitch = 180 := by
  have hM : ((Camera.sample EULER : Camera ℝ).SetEulerAngles 135 0 0 false).Mode = EULER := by
    rw [SetEulerAngles_unconstrained, updateCameraVectors_Mode]; rfl
  have hY : ((Camera.sample EULER : Camera ℝ).SetEulerAngles 135 0 0 false).Yaw = 135 := by
    rw [SetEulerAngles_unconstrained, updateCameraVectors_Yaw]
  have hP : ((Camera.sample EULER : Camera ℝ).SetEulerAngles 135 0 0 false).Pitch = 0 := by
    rw [SetEulerAngles_unconstrained, updateCameraVectors_Pitch]
  have hpi := Real.pi_pos
  have hr : glm.radians (135 : ℝ) = Real.pi - Real.pi / 4 := by
    simp only [glm.radians, cmath_pi]; ring
  obtain ⟨h1, h2⟩ := round_trip_angles _ hM
  rw [hY, hr, Real.sin_pi_sub,
    Real.arcsin_sin (by linarith) (by linarith)] at h1
  rw [hY, hP, hr, radians_zero, Real.cos_zero, Real.sin_zero, mul_one, mul_zero] at h2
  constructor
  · rw [h1]
    simp only [glm.degrees, cmath_pi]
    field_simp
    ring
  · rw [h2]
    have hneg : Real.cos (Real.pi - Real.pi / 4) < 0 :=
      Real.cos_neg_of_pi_div_two_lt_of_lt (by linarith) (by linarith)
    have e : (⟨Real.cos (Real.pi - Real.pi / 4), 0⟩ : ℂ)
        = ((Real.cos (Real.pi - Real.pi / 4) : ℝ) : ℂ) := by
      apply Complex.ext <;> simp
    rw [e, Complex.arg_ofReal_of_neg hneg]
    simp only [glm.degrees, cmath_pi]
    field_simp

/-- For a yaw strictly between -90 and 90 degrees and a pitch in `(-180, 180]`, the round
trip EULER → QUATERNION → EULER gives the yaw and the pitch back. -/
theorem round_trip_small_yaw (c : Camera ℝ) (hm : c.Mode = EULER)
    (hy1 : -90 < c.Yaw) (hy2 : c.Yaw < 90) (hp1 : -180 < c.Pitch) (hp2 : c.Pitch ≤ 180) :
    ((c.SetMode QUATERNION).SetMode EULER).Yaw = c.Yaw ∧
    ((c.SetMode QUATERNION).SetMode EULER).Pitch = c.Pitch := by
  obtain ⟨h1, h2⟩ := round_trip_angles c hm
  have hpi := Real.pi_pos
  have hk : (0 : ℝ) < Real.pi / 180 := by positivity
  have hY1 : -(Real.pi / 2) < glm.radians c.Yaw := by
    simp only [glm.radians, cmath_pi]
    nlinarith [mul_lt_mul_of_pos_right hy1 hk]
  have hY2 : glm.radians c.Yaw < Real.pi / 2 := by
    simp only [glm.radians, cmath_pi]
    nlinarith [mul_lt_mul_of_pos_right hy2 hk]
  have hP1 : -Real.pi < glm.radians c.Pitch := by
    simp only [glm.radians, cmath_pi]
    nlinarith [mul_lt_mul_of_pos_right hp1 hk]
  have hP2 : glm.radians c.Pitch ≤ Real.pi := by
    simp only [glm.radians, cmath_pi]
    nlinarith [mul_le_mul_of_nonneg_right hp2 hk.le]
  constructor
  · rw [h1, Real.arcsin_sin hY1.le hY2.le, degrees_radians]
  · have hcos : 0 < Real.cos (glm.radians c.Yaw) :=
      Real.cos_pos_of_mem_Ioo ⟨hY1, hY2⟩
    rw [h2]
    generalize glm.radians c.Yaw = Y at hcos
    have hd := degrees_radians c.Pitch
    generalize glm.radians c.Pitch = P at hP1 hP2 hd
    have e : (⟨Real.cos Y * Real.cos P, Real.cos Y * Real.sin P⟩ : ℂ)
        = ((Real.cos Y : ℝ) : ℂ) * (Complex.cos (P : ℂ) + Complex.sin (P : ℂ) * Complex.I) := by
      apply Complex.ext
      · simp [Complex.cos_ofReal_re, Complex.sin_ofReal_im, Complex.cos_ofReal_im,
          Complex.sin_ofReal_re]
      · simp [Complex.cos_ofReal_re, Complex.sin_ofReal_im, Complex.cos_ofReal_im,
          Complex.sin_ofReal_re]
    rw [e, Complex.arg_mul_cos_add_sin_mul_I hcos ⟨hP1, hP2⟩, hd]

/-! ## Translation, mouse look and angle setting -/

/-- C12: `ProcessKeyboard` only moves `Position`: with `v = MovementSpeed * deltaTime`,
FORWARD adds `Front * v`, BACKWARD subtracts it, LEFT subtracts `Right * v`, RIGHT adds it,
and every other field (`Yaw`, `Pitch`, `Roll`, `Orientation`, `Front`, `Right`, `Up`, `Mode`,
`Fov`, ...) is as before; FORWARD followed by BACKWARD with the same `deltaTime` gives the
camera back, `Position` included. -/
theorem C12_ProcessKeyboard_translates (c : Camera ℝ) (deltaTime : ℝ) :
    c.ProcessKeyboard FORWARD deltaTime
      = { c with Position := c.Position + c.Front * (c.MovementSpeed * deltaTime) } ∧
    c.ProcessKeyboard BACKWARD deltaTime
      = { c with Position := c.Position - c.Front * (c.MovementSpeed * deltaTime) } ∧
    c.ProcessKeyboard LEFT deltaTime
      = { c with Position := c.Position - c.Right * (c.MovementSpeed * deltaTime) } ∧
    c.ProcessKeyboard RIGHT deltaTime
      = { c with Position := c.Position + c.Right * (c.MovementSpeed * deltaTime) } ∧
    (c.ProcessKeyboard FORWARD deltaTime).ProcessKeyboard BACKWARD deltaTime = c := by
  have hF : c.ProcessKeyboard FORWARD deltaTime
      = { c with Position := c.Position + c.Front * (c.MovementSpeed * deltaTime) } := by
    simp [Camera.ProcessKeyboard]
  have hB : ∀ d : Camera ℝ, d.ProcessKeyboard BACKWARD deltaTime
      = { d with Position := d.Position - d.Front * (d.MovementSpeed * deltaTime) } := by
    intro d
    simp [Camera.ProcessKeyboard]
  refine ⟨hF, hB c, ?_, ?_, ?_⟩
  · simp [Camera.ProcessKeyboard]
  · simp [Camera.ProcessKeyboard]
  · rw [hB, hF]
    have e : c.Position + c.Front * (c.MovementSpeed * deltaTime)
        - c.Front * (c.MovementSpeed * deltaTime) = c.Position := by
      ext <;> simp
    simp only [e]

/-- The two pitch guards `if Pitch > 89 ... if Pitch < -89 ...` clamp to `[-89, 89]`. -/
theorem pitch_guards_eq (p : ℝ) :
    (if (if p > 89 then (89 : ℝ) else p) < -89 then (-89 : ℝ)
      else (if p > 89 then (89 : ℝ) else p)) = min (max p (-89)) 89 := by
  by_cases h1 : p > 89
  · have h2 : ¬ ((89 : ℝ) < -89) := by norm_num
    rw [if_pos h1, if_neg h2, max_eq_left (by linarith), min_eq_right (le_of_lt h1)]
  · rw [if_neg h1]
    by_cases h2 : p < -89
    · rw [if_pos h2, max_eq_right (le_of_lt h2), min_eq_left (by norm_num)]
    · rw [if_neg h2, max_eq_left (not_lt.mp h2), min_eq_left (not_lt.mp h1)]

theorem updateCameraVectors_Fov (c : Camera ℝ) : c.updateCameraVectors.Fov = c.Fov := by
  rw [updateCameraVectors_eq]

theorem updateCameraVectors_MovementSpeed (c : Camera ℝ) :
    c.updateCameraVectors.MovementSpeed = c.MovementSpeed := by
  rw [updateCameraVectors_eq]

/-- In EULER mode `ProcessMouseMovement` is `updateCameraVectors` after one update of `Yaw`
and `Pitch`. -/
theorem ProcessMouseMovement_euler_eq (c : Camera ℝ) (xoffset yoffset : ℝ)
    (constrainPitch : Bool) (hm : c.Mode = EULER) :
    c.ProcessMouseMovement xoffset yoffset constrainPitch
      = Camera.updateCameraVectors
          { c with
            Yaw := c.Yaw + xoffset * c.MouseSensitivity
            Pitch := if constrainPitch then
                min (max (c.Pitch + yoffset * c.MouseSensitivity) (-89)) 89
              else c.Pitch + yoffset * c.MouseSensitivity } := by
  cases constrainPitch
  · simp only [Bool.false_eq_true, if_false]
    exact ProcessMouseMovement_euler_unconstrained c xoffset yoffset hm
  · simp only [if_true]
    rw [← pitch_guards_eq]
    unfold Camera.ProcessMouseMovement
    simp only [hm, if_true]
    by_cases h1 : c.Pitch + yoffset * c.MouseSensitivity > 89
    · have h2 : ¬ ((89 : ℝ) < -89) := by norm_num
      simp only [h1, if_true, h2, if_false]
    · by_cases h2 : c.Pitch + yoffset * c.MouseSensitivity < -89
      · simp only [h1, if_false, h2, if_true]
      · simp only [h1, if_false, h2]

/-- C13: in EULER mode `ProcessMouseMovement dx dy` sets `Yaw` to
`Yaw + dx * MouseSensitivity` and `Pitch` to `Pitch + dy * MouseSensitivity`, clamped to
`[-89, 89]` when `constrainPitch` is set and unclamped otherwise; with `constrainPitch` set
the new `Pitch` lies in `[-89, 89]` whatever the old one was; `Orientation` and `Position`
are unchanged. -/
theorem C13_ProcessMouseMovement_euler (c : Camera ℝ) (dx dy : ℝ) (constrainPitch : Bool)
    (hm : c.Mode = EULER) :
    (c.ProcessMouseMovement dx dy constrainPitch).Yaw = c.Yaw + dx * c.MouseSensitivity ∧
    (c.ProcessMouseMovement dx dy constrainPitch).Pitch
      = (if constrainPitch then min (max (c.Pitch + dy * c.MouseSensitivity) (-89)) 89
          else c.Pitch + dy * c.MouseSensitivity) ∧
    (constrainPitch = true →
      -89 ≤ (c.ProcessMouseMovement dx dy constrainPitch).Pitch ∧
      (c.ProcessMouseMovement dx dy constrainPitch).Pitch ≤ 89) ∧
    (c.ProcessMouseMovement dx dy constrainPitch).Orientation = c.Orientation ∧
    (c.ProcessMouseMovement dx dy constrainPitch).Position = c.Position := by
  rw [ProcessMouseMovement_euler_eq c dx dy constrainPitch hm]
  refine ⟨updateCameraVectors_Yaw _, updateCameraVectors_Pitch _, ?_,
    updateCameraVectors_Orientation _, updateCameraVectors_Position _⟩
  intro hb
  rw [updateCameraVectors_Pitch]
  subst hb
  simp only [if_true]
  exact ⟨le_min (le_max_right _ _) (by norm_num), min_le_right _ _⟩

/-- C13 at the sample camera: a mouse move of `(100, 4000)` with the pitch constraint takes
the pitch `0 + 4000 * 0.05 = 200` down to `89`. -/
theorem C13_ProcessMouseMovement_euler_witness :
    ((Camera.sample EULER : Camera ℝ).ProcessMouseMovement 100 4000 true).Pitch ≤ 89 :=
  ((C13_ProcessMouseMovement_euler (Camera.sample EULER) 100 4000 true rfl).2.2.1 rfl).2

/-- The method `SetEulerAngles` is `updateCameraVectors` after one update of the three
angles. -/
theorem SetEulerAngles_eq (c : Camera ℝ) (yaw pitch roll : ℝ) (constrainPitch : Bool) :
    c.SetEulerAngles yaw pitch roll constrainPitch
      = Camera.updateCameraVectors
          { c with
            Yaw := yaw
            Pitch := if constrainPitch then min (max pitch (-89)) 89 else pitch
            Roll := roll } := by
  cases constrainPitch
  · simp only [Bool.false_eq_true, if_false]
    exact SetEulerAngles_unconstrained c yaw pitch roll
  · simp only [if_true]
    rw [← pitch_guards_eq]
    unfold Camera.SetEulerAngles
    simp only [if_true]
    by_cases h1 : pitch > 89
    · have h2 : ¬ ((89 : ℝ) < -89) := by norm_num
      simp only [h1, if_true, h2, if_false]
    · by_cases h2 : pitch < -89
      · simp only [h1, if_false, h2, if_true]
      · simp only [h1, if_false, h2]

/-- C14: `SetEulerAngles yaw pitch roll constrainPitch` leaves `Yaw = yaw`, `Roll = roll`,
and `Pitch = pitch` when `constrainPitch` is false or `min (max pitch (-89)) 89` when it is
true; `Position`, `Fov`, `Mode` and `Orientation` are unchanged. -/
theorem C14_SetEulerAngles_overwrites (c : Camera ℝ) (yaw pitch roll : ℝ)
    (constrainPitch : Bool) :
    (c.SetEulerAngles yaw pitch roll constrainPitch).Yaw = yaw ∧
    (c.SetEulerAngles yaw pitch roll constrainPitch).Roll = roll ∧
    (c.SetEulerAngles yaw pitch roll constrainPitch).Pitch
      = (if constrainPitch then min (max pitch (-89)) 89 else pitch) ∧
    (c.SetEulerAngles yaw pitch roll constrainPitch).Position = c.Position ∧
    (c.SetEulerAngles yaw pitch roll constrainPitch).Fov = c.Fov ∧
    (c.SetEulerAngles yaw pitch roll constrainPitch).Mode = c.Mode ∧
    (c.SetEulerAngles yaw pitch roll constrainPitch).Orientation = c.Orientation := by
  rw [SetEulerAngles_eq]
  exact ⟨updateCameraVectors_Yaw _, updateCameraVectors_Roll _, updateCameraVectors_Pitch _,
    updateCameraVectors_Position _, updateCameraVectors_Fov _, updateCameraVectors_Mode _,
    updateCameraVectors_Orientation _⟩

/-! ## The mode flag -/

theorem eulerToQuaternion_Mode (c : Camera ℝ) : c.eulerToQuaternion.Mode = c.Mode := rfl

theorem quaternionToEuler_Mode (c : Camera ℝ) : c.quaternionToEuler.Mode = c.Mode := by
  unfold Camera.quaternionToEuler
  simp only []
  split_ifs <;> rfl

theorem quaternionToEuler_Roll (c : Camera ℝ) : c.quaternionToEuler.Roll = c.Roll := by
  unfold Camera.quaternionToEuler
  simp only []
  split_ifs <;> rfl

/-- After `SetMode mode` the mode is `mode`. -/
theorem SetMode_Mode (c : Camera ℝ) (mode : Camera_Mode) : (c.SetMode mode).Mode = mode := by
  unfold Camera.SetMode
  by_cases h : c.Mode ≠ mode
  · rw [if_pos h, updateCameraVectors_Mode]
    cases mode
    · have hne : ¬ (EULER = QUATERNION) := by decide
      simp only [if_neg hne, quaternionToEuler_Mode]
    · simp only [if_true, eulerToQuaternion_Mode]
  · rw [if_neg h]
    exact not_not.mp h

/-- Setting the mode a camera is already in changes nothing. -/
theorem SetMode_same (c : Camera ℝ) (mode : Camera_Mode) (h : c.Mode = mode) :
    c.SetMode mode = c := by
  unfold Camera.SetMode
  rw [if_neg (not_not.mpr h)]

/-- C15: `SetMode m` on a camera whose mode is `m` already leaves every field unchanged
(the state is the same), and so `SetMode m` twice is `SetMode m` once, for every camera. -/
theorem C15_SetMode_same_mode (c : Camera ℝ) (m : Camera_Mode) :
    (c.Mode = m → c.SetMode m = c) ∧ (c.SetMode m).SetMode m = c.SetMode m :=
  ⟨SetMode_same c m, SetMode_same _ m (SetMode_Mode c m)⟩

/-- C15 at the sample camera in QUATERNION mode. -/
theorem C15_SetMode_same_mode_witness :
    (Camera.sample QUATERNION : Camera ℝ).SetMode QUATERNION = Camera.sample QUATERNION :=
  (C15_SetMode_same_mode (Camera.sample QUATERNION) QUATERNION).1 rfl

theorem LookAt_Mode (c : Camera ℝ) (target : Vec3 ℝ) : (c.LookAt target).Mode = c.Mode := by
  obtain ⟨c1, h1, h2, _⟩ := LookAt_eq c target
  rw [h1, updateCameraVectors_Mode, h2]

theorem ProcessMouseMovement_Mode (c : Camera ℝ) (xoffset yoffset : ℝ) (constrainPitch : Bool) :
    (c.ProcessMouseMovement xoffset yoffset constrainPitch).Mode = c.Mode := by
  cases hm : c.Mode
  · rw [ProcessMouseMovement_euler_eq c xoffset yoffset constrainPitch hm,
      updateCameraVectors_Mode]
    exact hm
  · have hne : ¬ (c.Mode = EULER) := by rw [hm]; decide
    unfold Camera.ProcessMouseMovement
    rw [updateCameraVectors_Mode]
    simp only [if_neg hne]
    exact hm

theorem ProcessKeyboard_Mode (c : Camera ℝ) (direction : Camera_Movement) (deltaTime : ℝ) :
    (c.ProcessKeyboard direction deltaTime).Mode = c.Mode := by
  cases direction <;> simp [Camera.ProcessKeyboard]

theorem ProcessMouseScroll_Mode (c : Camera ℝ) (yoffset : ℝ) :
    (c.ProcessMouseScroll yoffset).Mode = c.Mode := by
  unfold Camera.ProcessMouseScroll
  simp only []
  split_ifs <;> rfl

/-- C16: the mode changes only through `SetMode`: `LookAt`, `SetEulerAngles`,
`SetQuaternionEulerAngles`, `SetQuaternionAxisAngle`, `ApplyIncrementalRotation`,
`GetViewMatrix`, `ProcessKeyboard`, `ProcessMouseMovement` and `ProcessMouseScroll` leave
`Mode` as it was, and after `SetMode m` the mode is `m`. -/
theorem C16_mode_changes_only_by_SetMode (c : Camera ℝ) (target axis : Vec3 ℝ)
    (yaw pitch roll angle deltaTime dx dy scroll : ℝ) (constrainPitch : Bool)
    (direction : Camera_Movement) (m : Camera_Mode) :
    (c.LookAt target).Mode = c.Mode ∧
    (c.SetEulerAngles yaw pitch roll constrainPitch).Mode = c.Mode ∧
    (c.SetQuaternionEulerAngles yaw pitch roll).Mode = c.Mode ∧
    (c.SetQuaternionAxisAngle axis angle).Mode = c.Mode ∧
    (c.ApplyIncrementalRotation axis angle).Mode = c.Mode ∧
    c.GetViewMatrix.2.Mode = c.Mode ∧
    (c.ProcessKeyboard direction deltaTime).Mode = c.Mode ∧
    (c.ProcessMouseMovement dx dy constrainPitch).Mode = c.Mode ∧
    (c.ProcessMouseScroll scroll).Mode = c.Mode ∧
    (c.SetMode m).Mode = m := by
  refine ⟨LookAt_Mode c target, ?_, ?_, ?_, ?_, rfl, ProcessKeyboard_Mode c direction deltaTime,
    ProcessMouseMovement_Mode c dx dy constrainPitch, ProcessMouseScroll_Mode c scroll,
    SetMode_Mode c m⟩
  · rw [SetEulerAngles_eq, updateCameraVectors_Mode]
  · unfold Camera.SetQuaternionEulerAngles
    rw [updateCameraVectors_Mode]
  · unfold Camera.SetQuaternionAxisAngle
    rw [updateCameraVectors_Mode]
  · rw [ApplyIncrementalRotation_eq, updateCameraVectors_Mode]

/-! ## Construction -/

/-- The constructor is `updateCameraVectors` on the initialised members. -/
theorem new_eq (storage : Camera ℝ) (position up : Vec3 ℝ) (yaw pitch : ℝ)
    (mode : Camera_Mode) :
    Camera.new storage position up yaw pitch mode
      = Camera.updateCameraVectors
          { storage with
            Position := position
            Front := ⟨0, 0, -1⟩
            WorldUp := up
            Yaw := yaw
            Pitch := pitch
            Roll := 0
            MovementSpeed := 1
            MouseSensitivity := 0.05
            Fov := 45
            Mode := mode } :=
  rfl

/-- The vectors `updateCameraVectors` gives in EULER mode without roll when the Euler front
is `(0, 0, -1)` and `WorldUp` is `(0, 1, 0)`. -/
theorem updateCameraVectors_minus_Z (c : Camera ℝ) (hm : c.Mode = EULER) (hr : c.Roll = 0)
    (hf : c.eulerFront = ⟨0, 0, -1⟩) (hw : c.WorldUp = ⟨0, 1, 0⟩) :
    c.updateCameraVectors.Right = ⟨1, 0, 0⟩ ∧ c.updateCameraVectors.Up = ⟨0, 1, 0⟩ := by
  have hroll : ¬ (|c.Roll| > 0.001) := by rw [hr]; norm_num
  have h1 : glm.normalize (⟨0, 0, -1⟩ : Vec3 ℝ) = ⟨0, 0, -1⟩ :=
    normalize_of_unit _ (by simp [glm.dot])
  have h2 : glm.cross (⟨0, 0, -1⟩ : Vec3 ℝ) ⟨0, 1, 0⟩ = ⟨1, 0, 0⟩ := by
    ext <;> simp [glm.cross]
  have h3 : glm.normalize (⟨1, 0, 0⟩ : Vec3 ℝ) = ⟨1, 0, 0⟩ :=
    normalize_of_unit _ (by simp [glm.dot])
  have h4 : glm.cross (⟨1, 0, 0⟩ : Vec3 ℝ) ⟨0, 0, -1⟩ = ⟨0, 1, 0⟩ := by
    ext <;> simp [glm.cross]
  have h5 : glm.normalize (⟨0, 1, 0⟩ : Vec3 ℝ) = ⟨0, 1, 0⟩ :=
    normalize_of_unit _ (by simp [glm.dot])
  rw [updateCameraVectors_euler c hm, if_neg hroll, hf, hw, h1, h2, h3, h4, h5]
  exact ⟨rfl, rfl⟩

/-- C17: a camera constructed in EULER mode with yaw `y`, pitch `p` (degrees) and
`WorldUp = (0, 1, 0)` has `Yaw = y`, `Pitch = p`, `Roll = 0`, `Fov = 45`,
`MovementSpeed = 1`, `MouseSensitivity = 0.05` and
`Front = (cos y cos p, sin p, sin y cos p)`; with the defaults `YAW = -90`, `PITCH = 0` it
has `Front = (0, 0, -1)`, `Right = (1, 0, 0)`, `Up = (0, 1, 0)`. -/
theorem C17_construction (storage : Camera ℝ) (position : Vec3 ℝ) (y p : ℝ) :
    (Camera.new storage position ⟨0, 1, 0⟩ y p EULER).Yaw = y ∧
    (Camera.new storage position ⟨0, 1, 0⟩ y p EULER).Pitch = p ∧
    (Camera.new storage position ⟨0, 1, 0⟩ y p EULER).Roll = 0 ∧
    (Camera.new storage position ⟨0, 1, 0⟩ y p EULER).Fov = 45 ∧
    (Camera.new storage position ⟨0, 1, 0⟩ y p EULER).MovementSpeed = 1 ∧
    (Camera.new storage position ⟨0, 1, 0⟩ y p EULER).MouseSensitivity = 0.05 ∧
    (Camera.new storage position ⟨0, 1, 0⟩ y p EULER).Front
      = ⟨Real.cos (glm.radians y) * Real.cos (glm.radians p), Real.sin (glm.radians p),
         Real.sin (glm.radians y) * Real.cos (glm.radians p)⟩ ∧
    (Camera.new storage position ⟨0, 1, 0⟩ YAW PITCH EULER).Front = ⟨0, 0, -1⟩ ∧
    (Camera.new storage position ⟨0, 1, 0⟩ YAW PITCH EULER).Right = ⟨1, 0, 0⟩ ∧
    (Camera.new storage position ⟨0, 1, 0⟩ YAW PITCH EULER).Up = ⟨0, 1, 0⟩ := by
  have hF : ∀ y p : ℝ, (Camera.new storage position ⟨0, 1, 0⟩ y p EULER).Front
      = ⟨Real.cos (glm.radians y) * Real.cos (glm.radians p), Real.sin (glm.radians p),
         Real.sin (glm.radians y) * Real.cos (glm.radians p)⟩ := by
    intro y p
    rw [new_eq, updateCameraVectors_Front_euler _ rfl]
    rfl
  have hF0 : (Camera.new storage position ⟨0, 1, 0⟩ YAW PITCH EULER).Front = ⟨0, 0, -1⟩ := by
    rw [hF]
    simp [YAW, PITCH, radians_neg_ninety, radians_zero]
  refine ⟨?_, ?_, ?_, ?_, ?_, ?_, hF y p, hF0, ?_, ?_⟩
  · rw [new_eq, updateCameraVectors_Yaw]
  · rw [new_eq, updateCameraVectors_Pitch]
  · rw [new_eq, updateCameraVectors_Roll]
  · rw [new_eq, updateCameraVectors_Fov]
  · rw [new_eq, updateCameraVectors_MovementSpeed]
  · rw [new_eq, updateCameraVectors_MouseSensitivity]
  · rw [new_eq]
    refine (updateCameraVectors_minus_Z _ rfl rfl ?_ rfl).1
    simp [Camera.eulerFront, YAW, PITCH, radians_neg_ninety, radians_zero]
  · rw [new_eq]
    refine (updateCameraVectors_minus_Z _ rfl rfl ?_ rfl).2
    simp [Camera.eulerFront, YAW, PITCH, radians_neg_ninety, radians_zero]

/-! ## Roll across the mode switch -/

/-- Leaving EULER mode, `SetMode QUATERNION` is `updateCameraVectors` after
`eulerToQuaternion`. -/
theorem SetMode_quaternion_eq (c : Camera ℝ) (hm : c.Mode = EULER) :
    c.SetMode QUATERNION
      = Camera.updateCameraVectors (Camera.eulerToQuaternion { c with Mode := QUATERNION }) := by
  have hne : c.Mode ≠ QUATERNION := by rw [hm]; decide
  unfold Camera.SetMode
  rw [if_pos hne]
  simp only [if_true]

/-- The state after `SetMode QUATERNION` depends on `Roll` only through the field `Roll`
itself, which is carried along. -/
theorem SetMode_quaternion_ignores_Roll (c : Camera ℝ) (hm : c.Mode = EULER) :
    c.SetMode QUATERNION
      = { (Camera.SetMode { c with Roll := 0 } QUATERNION) with Roll := c.Roll } := by
  have hm0 : ({ c with Roll := 0 } : Camera ℝ).Mode = EULER := hm
  rw [SetMode_quaternion_eq c hm, SetMode_quaternion_eq _ hm0,
    updateCameraVectors_quaternion _ rfl, updateCameraVectors_quaternion _ rfl]
  rfl

/-- Neither conversion writes `Roll`: it is the same after the round trip. -/
theorem round_trip_Roll (c : Camera ℝ) :
    ((c.SetMode QUATERNION).SetMode EULER).Roll = c.Roll := by
  have key : ∀ (d : Camera ℝ) (m : Camera_Mode), (d.SetMode m).Roll = d.Roll := by
    intro d m
    unfold Camera.SetMode
    by_cases h : d.Mode ≠ m
    · rw [if_pos h, updateCameraVectors_Roll]
      cases m
      · have hne : ¬ (EULER = QUATERNION) := by decide
        simp only [if_neg hne, quaternionToEuler_Roll]
      · simp only [if_true]
        rfl
    · rw [if_neg h]
  rw [key, key]

/-- C18 (amended): `Roll` takes no part in the mode round trip. From EULER mode with
`Roll = r`, `SetMode QUATERNION` gives the state it gives for `Roll = 0` (the same
`Orientation`, `Front`, `Right`, `Up`: the vectors of the roll-free orientation), with the
field `Roll` still `r`; and after `SetMode QUATERNION` followed by `SetMode EULER` the
camera's `Roll` is still `r`. -/
theorem C18_roll_untouched_by_round_trip (c : Camera ℝ) (hm : c.Mode = EULER) :
    c.SetMode QUATERNION
        = { (Camera.SetMode { c with Roll := 0 } QUATERNION) with Roll := c.Roll } ∧
    ((c.SetMode QUATERNION).SetMode EULER).Roll = c.Roll :=
  ⟨SetMode_quaternion_ignores_Roll c hm, round_trip_Roll c⟩

/-- C18 (amended) at the sample camera with a roll of 30 degrees. -/
theorem C18_roll_untouched_by_round_trip_witness :
    (((Camera.SetMode { (Camera.sample EULER : Camera ℝ) with Roll := 30 }
        QUATERNION).SetMode EULER).Roll) = 30 :=
  (C18_roll_untouched_by_round_trip { (Camera.sample EULER : Camera ℝ) with Roll := 30 }
    rfl).2

/-- C18 as stated fails: starting in EULER mode with `Roll = 30`, after
`SetMode QUATERNION` and `SetMode EULER` the camera's `Roll` is 30 as before. -/
theorem C18_roll_is_kept :
    (30 : ℝ) ≠ 0 ∧
    ¬ (((Camera.SetMode { (Camera.sample EULER : Camera ℝ) with Roll := 30 }
        QUATERNION).SetMode EULER).Roll ≠ 30) := by
  refine ⟨by norm_num, ?_⟩
  rw [round_trip_Roll]
  exact not_not.mpr rfl

/-! ## Mouse look in QUATERNION mode from straight up -/

/-- The vectors derived from the quaternion
`(cos a cos b, cos a sin b, sin a cos b, -sin a sin b)`:
`Right = (cos 2a, 0, -sin 2a)` and
`Front = (-sin 2a cos 2b, sin 2b, -cos 2a cos 2b)`. -/
theorem half_angle_quat_vectors (a b : ℝ) :
    glm.normalize (glm.mat3_cast
        (⟨Real.cos a * Real.cos b, Real.cos a * Real.sin b, Real.sin a * Real.cos b,
          -(Real.sin a * Real.sin b)⟩ : Quat ℝ)).c0
      = ⟨Real.cos (2 * a), 0, -Real.sin (2 * a)⟩ ∧
    -glm.normalize (glm.mat3_cast
        (⟨Real.cos a * Real.cos b, Real.cos a * Real.sin b, Real.sin a * Real.cos b,
          -(Real.sin a * Real.sin b)⟩ : Quat ℝ)).c2
      = ⟨-(Real.sin (2 * a) * Real.cos (2 * b)), Real.sin (2 * b),
          -(Real.cos (2 * a) * Real.cos (2 * b))⟩ := by
  have hu := half_angle_quat_unit a b
  obtain ⟨h0, _, h2, _⟩ := mat3_cast_frame _ hu
  have hA := Real.sin_sq_add_cos_sq a
  have hB := Real.sin_sq_add_cos_sq b
  rw [normalize_of_unit _ h0, normalize_of_unit _ h2]
  constructor
  · ext
    · simp only [glm.mat3_cast, Real.cos_two_mul]
      linear_combination (-2 * Real.sin a ^ 2) * hB - 2 * hA
    · simp only [glm.mat3_cast]
      ring
    · simp only [glm.mat3_cast, Real.sin_two_mul]
      linear_combination (-2 * Real.sin a * Real.cos a) * hB
  · ext
    · simp only [glm.mat3_cast, vec3_neg_x, Real.sin_two_mul, Real.cos_two_mul]
      linear_combination (2 * Real.sin a * Real.cos a) * hB
    · simp only [glm.mat3_cast, vec3_neg_y, Real.sin_two_mul, Real.cos_two_mul]
      linear_combination (2 * Real.sin b * Real.cos b) * hA
    · simp only [glm.mat3_cast, vec3_neg_z, Real.sin_two_mul, Real.cos_two_mul]
      linear_combination (2 * Real.cos a ^ 2) * hB + (2 * Real.cos b ^ 2) * hA

/-- A yaw about the world Y axis, applied on the left, adds to the yaw half angle. -/
theorem angleAxis_Y_mul_half_angle_quat (θ a b : ℝ) :
    glm.angleAxis θ (⟨0, 1, 0⟩ : Vec3 ℝ)
        * (⟨Real.cos a * Real.cos b, Real.cos a * Real.sin b, Real.sin a * Real.cos b,
            -(Real.sin a * Real.sin b)⟩ : Quat ℝ)
      = ⟨Real.cos (a + θ * (1 / 2)) * Real.cos b, Real.cos (a + θ * (1 / 2)) * Real.sin b,
          Real.sin (a + θ * (1 / 2)) * Real.cos b,
          -(Real.sin (a + θ * (1 / 2)) * Real.sin b)⟩ := by
  ext
  · simp only [quat_mul_w, glm.angleAxis, cmath_sin, cmath_cos, Real.cos_add]
    ring
  · simp only [quat_mul_x, glm.angleAxis, cmath_sin, cmath_cos, Real.cos_add]
    ring
  · simp only [quat_mul_y, glm.angleAxis, cmath_sin, cmath_cos, Real.sin_add]
    ring
  · simp only [quat_mul_z, glm.angleAxis, cmath_sin, cmath_cos, Real.sin_add]
    ring

/-- A rotation by the angle zero is the identity quaternion, on the right. -/
theorem mul_angleAxis_zero (q : Quat ℝ) (v : Vec3 ℝ) : q * glm.angleAxis 0 v = q := by
  ext <;> simp [glm.angleAxis]

/-- In QUATERNION mode the recomputed `Right` is the normalised first column of the
rotation matrix of `Orientation`. -/
theorem updateCameraVectors_Right_quaternion (c : Camera ℝ) (hm : c.Mode = QUATERNION) :
    c.updateCameraVectors.Right = glm.normalize (glm.mat3_cast c.Orientation).c0 := by
  rw [updateCameraVectors_quaternion c hm]

/-- In QUATERNION mode `ProcessMouseMovement` is `updateCameraVectors` after one update of
`Orientation`. -/
theorem ProcessMouseMovement_quaternion_eq (c : Camera ℝ) (xoffset yoffset : ℝ)
    (constrainPitch : Bool) (hm : c.Mode = QUATERNION) :
    c.ProcessMouseMovement xoffset yoffset constrainPitch
      = Camera.updateCameraVectors
          { c with
            Orientation := glm.qnormalize
              (glm.angleAxis (glm.radians (-(xoffset * c.MouseSensitivity))) ⟨0, 1, 0⟩
                * c.Orientation
                * glm.angleAxis (glm.radians (yoffset * c.MouseSensitivity)) c.Right) } := by
  have hne : ¬ (c.Mode = EULER) := by rw [hm]; decide
  unfold Camera.ProcessMouseMovement
  simp only [if_neg hne]

/-- The camera after `SetMode QUATERNION` from EULER mode: mode, sensitivity, orientation,
`Right` and `Front` in terms of `Yaw` and `Pitch`. -/
theorem SetMode_quaternion_state (c : Camera ℝ) (hm : c.Mode = EULER) :
    (c.SetMode QUATERNION).Mode = QUATERNION ∧
    (c.SetMode QUATERNION).MouseSensitivity = c.MouseSensitivity ∧
    (c.SetMode QUATERNION).Right
      = ⟨Real.cos (glm.radians c.Yaw), 0, -Real.sin (glm.radians c.Yaw)⟩ ∧
    (c.SetMode QUATERNION).Front
      = ⟨-(Real.sin (glm.radians c.Yaw) * Real.cos (glm.radians c.Pitch)),
         Real.sin (glm.radians c.Pitch),
         -(Real.cos (glm.radians c.Yaw) * Real.cos (glm.radians c.Pitch))⟩ := by
  refine ⟨SetMode_quaternion_Mode c hm, ?_, ?_, SetMode_quaternion_Front_eq c hm⟩
  · rw [SetMode_quaternion_eq c hm, updateCameraVectors_MouseSensitivity]
    rfl
  · have hO := SetMode_quaternion_Orientation_eq c hm
    have e : c.SetMode QUATERNION = Camera.updateCameraVectors
        (Camera.eulerToQuaternion { c with Mode := QUATERNION }) := SetMode_quaternion_eq c hm
    have hO2 : (Camera.eulerToQuaternion { c with Mode := QUATERNION }).Orientation
        = (c.SetMode QUATERNION).Orientation := by
      rw [e, updateCameraVectors_Orientation]
    rw [e, updateCameraVectors_Right_quaternion _ rfl, hO2, hO,
      (half_angle_quat_vectors _ _).1]
    have eY : 2 * (glm.radians c.Yaw * (1 / 2)) = glm.radians c.Yaw := by ring
    rw [eY]

/-- For a camera in QUATERNION mode whose orientation is
`(cos a cos b, cos a sin b, sin a cos b, -sin a sin b)`, a horizontal mouse move `dx` (no
vertical part) turns the yaw `2a` by `-dx * MouseSensitivity` degrees and keeps `2b`. -/
theorem mouse_yaw_of_half_angle_quat (d : Camera ℝ) (hm : d.Mode = QUATERNION) (a b : ℝ)
    (hO : d.Orientation = ⟨Real.cos a * Real.cos b, Real.cos a * Real.sin b,
      Real.sin a * Real.cos b, -(Real.sin a * Real.sin b)⟩)
    (dx : ℝ) (constrainPitch : Bool) :
    (d.ProcessMouseMovement dx 0 constrainPitch).Right
      = ⟨Real.cos (2 * a + glm.radians (-(dx * d.MouseSensitivity))), 0,
         -Real.sin (2 * a + glm.radians (-(dx * d.MouseSensitivity)))⟩ ∧
    (d.ProcessMouseMovement dx 0 constrainPitch).Front
      = ⟨-(Real.sin (2 * a + glm.radians (-(dx * d.MouseSensitivity))) * Real.cos (2 * b)),
         Real.sin (2 * b),
         -(Real.cos (2 * a + glm.radians (-(dx * d.MouseSensitivity))) * Real.cos (2 * b))⟩ := by
  have h0 : glm.radians (0 * d.MouseSensitivity) = 0 := by
    rw [zero_mul, radians_zero]
  generalize ht : glm.radians (-(dx * d.MouseSensitivity)) = t
  have hq : glm.qnormalize
      (glm.angleAxis (glm.radians (-(dx * d.MouseSensitivity))) ⟨0, 1, 0⟩ * d.Orientation
        * glm.angleAxis (glm.radians (0 * d.MouseSensitivity)) d.Right)
      = ⟨Real.cos (a + t * (1 / 2)) * Real.cos b, Real.cos (a + t * (1 / 2)) * Real.sin b,
          Real.sin (a + t * (1 / 2)) * Real.cos b,
          -(Real.sin (a + t * (1 / 2)) * Real.sin b)⟩ := by
    rw [h0, mul_angleAxis_zero, hO, ht, angleAxis_Y_mul_half_angle_quat,
      qnormalize_of_unit _ (half_angle_quat_unit _ _)]
  have e2 : 2 * (a + t * (1 / 2)) = 2 * a + t := by ring
  obtain ⟨hR, hF⟩ := half_angle_quat_vectors (a + t * (1 / 2)) b
  rw [e2] at hR hF
  have hm2 : ({ d with Orientation := (glm.qnormalize
      (glm.angleAxis (glm.radians (-(dx * d.MouseSensitivity))) ⟨0, 1, 0⟩ * d.Orientation
        * glm.angleAxis (glm.radians (0 * d.MouseSensitivity)) d.Right)) } : Camera ℝ).Mode
        = QUATERNION := hm
  rw [ProcessMouseMovement_quaternion_eq _ _ _ _ hm]
  constructor
  · rw [updateCameraVectors_Right_quaternion _ hm2]
    show glm.normalize (glm.mat3_cast (glm.qnormalize _)).c0 = _
    rw [hq, hR]
  · rw [updateCameraVectors_Front_quaternion _ hm2]
    show -glm.normalize (glm.mat3_cast (glm.qnormalize _)).c2 = _
    rw [hq, hF]

/-- From EULER mode with `Pitch = 90`, switched to QUATERNION mode: `Front` is `(0, 1, 0)`,
a horizontal mouse move leaves it there, and `Right` goes from `(cos Y, 0, -sin Y)` to
`(cos (Y + t), 0, -sin (Y + t))`, with `Y` the yaw and `t` minus the mouse angle, in
radians. -/
theorem mouse_yaw_from_straight_up (c : Camera ℝ) (dx : ℝ) (constrainPitch : Bool)
    (hm : c.Mode = EULER) (hp : c.Pitch = 90) :
    (c.SetMode QUATERNION).Front = ⟨0, 1, 0⟩ ∧
    ((c.SetMode QUATERNION).ProcessMouseMovement dx 0 constrainPitch).Front = ⟨0, 1, 0⟩ ∧
    (c.SetMode QUATERNION).Right
      = ⟨Real.cos (glm.radians c.Yaw), 0, -Real.sin (glm.radians c.Yaw)⟩ ∧
    ((c.SetMode QUATERNION).ProcessMouseMovement dx 0 constrainPitch).Right
      = ⟨Real.cos (glm.radians c.Yaw + glm.radians (-(dx * c.MouseSensitivity))), 0,
         -Real.sin (glm.radians c.Yaw + glm.radians (-(dx * c.MouseSensitivity)))⟩ := by
  obtain ⟨hM, hS, hR, hF⟩ := SetMode_quaternion_state c hm
  have hO := SetMode_quaternion_Orientation_eq c hm
  obtain ⟨hR2, hF2⟩ := mouse_yaw_of_half_angle_quat (c.SetMode QUATERNION) hM _ _ hO dx
    constrainPitch
  have eY : 2 * (glm.radians c.Yaw * (1 / 2)) = glm.radians c.Yaw := by ring
  have eP : 2 * (glm.radians c.Pitch * (1 / 2)) = Real.pi / 2 := by
    rw [hp]
    simp only [glm.radians, cmath_pi]
    ring
  rw [eY, hS] at hR2
  rw [eY, eP, hS, Real.cos_pi_div_two, Real.sin_pi_div_two, mul_zero, mul_zero, neg_zero]
    at hF2
  rw [hp, radians_ninety, Real.cos_pi_div_two, Real.sin_pi_div_two, mul_zero, mul_zero,
    neg_zero] at hF
  exact ⟨hF, hF2, hR, hR2⟩

/-- C11 (amended): for the orientation obtained from Euler angles (any yaw, pitch 90
degrees) by `SetMode QUATERNION`, whose `Front` is `(0, 1, 0)`, `ProcessMouseMovement dx 0`
leaves `Front` at `(0, 1, 0)`: the move yaws about the world Y axis, which is the viewing
direction. The camera still turns: when `dx * MouseSensitivity` is not a multiple of 360
degrees the new `Right` differs from the one before. -/
theorem C11_mouse_yaw_turns_right_not_front (c : Camera ℝ) (dx : ℝ) (constrainPitch : Bool)
    (hm : c.Mode = EULER) (hp : c.Pitch = 90)
    (hdx : ∀ n : ℤ, dx * c.MouseSensitivity ≠ 360 * n) :
    (c.SetMode QUATERNION).Front = ⟨0, 1, 0⟩ ∧
    ((c.SetMode QUATERNION).ProcessMouseMovement dx 0 constrainPitch).Front = ⟨0, 1, 0⟩ ∧
    ((c.SetMode QUATERNION).ProcessMouseMovement dx 0 constrainPitch).Right
      ≠ (c.SetMode QUATERNION).Right := by
  obtain ⟨hF, hF2, hR, hR2⟩ := mouse_yaw_from_straight_up c dx constrainPitch hm hp
  refine ⟨hF, hF2, ?_⟩
  rw [hR, hR2]
  intro heq
  have hx := congrArg Vec3.x heq
  have hz := congrArg Vec3.z heq
  simp only [neg_inj] at hx hz
  generalize glm.radians c.Yaw = Y at hx hz
  have ht : glm.radians (-(dx * c.MouseSensitivity))
      = -(dx * c.MouseSensitivity) * (Real.pi / 180) := by
    simp only [glm.radians, cmath_pi]
  generalize glm.radians (-(dx * c.MouseSensitivity)) = t at hx hz ht
  have hcos : Real.cos t = 1 := by
    have e : t = (Y + t) - Y := by ring
    have h1 := Real.sin_sq_add_cos_sq Y
    rw [e, Real.cos_sub, hx, hz]
    nlinarith [h1]
  obtain ⟨n, hn⟩ := (Real.cos_eq_one_iff t).mp hcos
  apply hdx (-n)
  have hpi := Real.pi_pos
  have h2 : -(dx * c.MouseSensitivity) * (Real.pi / 180) = (n : ℝ) * (2 * Real.pi) := by
    rw [← ht, hn]
  have h3 : (dx * c.MouseSensitivity + 360 * (n : ℝ)) * Real.pi = 0 := by
    linear_combination (-180) * h2
  have h4 : dx * c.MouseSensitivity + 360 * (n : ℝ) = 0 :=
    (mul_eq_zero.mp h3).resolve_right hpi.ne'
  push_cast
  linarith

/-- C11 (amended) at the sample camera with its pitch at 90 degrees and a mouse move of
200, that is 10 degrees. -/
theorem C11_mouse_yaw_turns_right_not_front_witness :
    ((Camera.SetMode { (Camera.sample EULER : Camera ℝ) with Pitch := 90 }
        QUATERNION).ProcessMouseMovement 200 0 true).Right
      ≠ (Camera.SetMode { (Camera.sample EULER : Camera ℝ) with Pitch := 90 } QUATERNION).Right :=
  (C11_mouse_yaw_turns_right_not_front
    { (Camera.sample EULER : Camera ℝ) with Pitch := 90 } 200 true rfl rfl
    (by
      intro n h
      have h10 : (200 : ℝ) * 0.05 = 10 := by norm_num
      have h1 : (10 : ℝ) = 360 * (n : ℝ) := by
        rw [← h10]; exact h
      have h2 : ((10 : ℤ) : ℝ) = ((360 * n : ℤ) : ℝ) := by
        push_cast; exact h1
      have h3 : (10 : ℤ) = 360 * n := by exact_mod_cast h2
      omega)).2.2

/-- C11 as stated fails: at the sample camera with its pitch at 90 degrees, switched to
QUATERNION mode, a mouse move of 200 (10 degrees, not a multiple of 360) leaves `Front`
equal to the `Front` before the call. -/
theorem C11_front_unchanged :
    (∀ n : ℤ, (200 : ℝ) * 0.05 ≠ 360 * n) ∧
    ¬ (((Camera.SetMode { (Camera.sample EULER : Camera ℝ) with Pitch := 90 }
          QUATERNION).ProcessMouseMovement 200 0 true).Front
        ≠ (Camera.SetMode { (Camera.sample EULER : Camera ℝ) with Pitch := 90 }
          QUATERNION).Front) := by
  constructor
  · intro n h
    have h10 : (200 : ℝ) * 0.05 = 10 := by norm_num
    have h1 : (10 : ℝ) = 360 * (n : ℝ) := by
      rw [← h10]; exact h
    have h2 : ((10 : ℤ) : ℝ) = ((360 * n : ℤ) : ℝ) := by
      push_cast; exact h1
    have h3 : (10 : ℤ) = 360 * n := by exact_mod_cast h2
    omega
  · obtain ⟨hF, hF2, _, _⟩ := mouse_yaw_from_straight_up
      { (Camera.sample EULER : Camera ℝ) with Pitch := 90 } 200 true rfl rfl
    rw [hF, hF2]
    exact not_not.mpr rfl

/-! ## Missing shader and texture files -/

/-- What `readFile` returns for a file that cannot be opened is the empty string. -/
theorem readFile_missing {σ : Type} (fs : FileSystem) (filePath : String) (w : World σ)
    (h : fs filePath = none) : (Utils.readFile fs filePath w).1 = "" := by
  simp [Utils.readFile, h]

/-- The empty string is empty. -/
theorem isEmpty_empty : "".isEmpty = true := by decide

/-- The guarded `createShaderProgram` of CP6 returns 0 when a shader file cannot be
opened, whatever the driver. -/
theorem CP6_createShaderProgram_missing {σ : Type} (gl : GLDriver σ) (fs : FileSystem)
    (vertexPath fragmentPath : String) (w : World σ)
    (h : fs vertexPath = none ∨ fs fragmentPath = none) :
    (CP6.createShaderProgram gl fs vertexPath fragmentPath w).1 = 0 := by
  unfold CP6.createShaderProgram
  rcases h with h | h
  · simp [Utils.readFile, h, isEmpty_empty]
  · cases hv : fs vertexPath <;> simp [Utils.readFile, h, hv, isEmpty_empty]

/-- The guarded `createShaderProgram` of CP5 returns 0 when a shader file cannot be
opened, whatever the driver. -/
theorem CP5_createShaderProgram_missing {σ : Type} (gl : GLDriver σ) (fs : FileSystem)
    (vertexPath fragmentPath : String) (w : World σ)
    (h : fs vertexPath = none ∨ fs fragmentPath = none) :
    (CP5.createShaderProgram gl fs vertexPath fragmentPath w).1 = 0 := by
  unfold CP5.createShaderProgram
  rcases h with h | h
  · simp [Utils.readFile, h, isEmpty_empty]
  · cases hv : fs vertexPath <;> simp [Utils.readFile, h, hv, isEmpty_empty]

/-- The function `loadShaderSource` of CP1 returns the empty string when the file opens
neither as given nor under the executable directory. -/
theorem CP1_loadShaderSource_missing {σ : Type} (fs : FileSystem) (exeDir filepath : String)
    (w : World σ) (h1 : fs filepath = none) (h2 : fs (exeDir ++ "/" ++ filepath) = none) :
    (CP1.loadShaderSource fs exeDir filepath w).1 = "" := by
  simp [CP1.loadShaderSource, h1, h2]

/-- The `createShaderProgram` of CP1 returns 0 when a shader source comes back empty,
whatever the driver. -/
theorem CP1_createShaderProgram_missing {σ : Type} (gl : GLDriver σ) (fs : FileSystem)
    (exeDir vertexPath fragmentPath : String) (w : World σ)
    (h : (CP1.loadShaderSource fs exeDir vertexPath w).1 = "" ∨
      (CP1.loadShaderSource fs exeDir fragmentPath
        (CP1.loadShaderSource fs exeDir vertexPath w).2).1 = "") :
    (CP1.createShaderProgram gl fs exeDir vertexPath fragmentPath w).1 = 0 := by
  unfold CP1.createShaderProgram
  rcases h with h | h
  · simp [h, isEmpty_empty]
  · simp [h, isEmpty_empty]

/-- The unguarded `createShaderProgram` of CP4 returns the name `glCreateProgram` hands
out, whether or not the files could be opened. -/
theorem CP4_createShaderProgram_fst {σ : Type} (gl : GLDriver σ) (fs : FileSystem)
    (vertexPath fragmentPath : String) (w : World σ) :
    ∃ g : σ, (CP4.createShaderProgram gl fs vertexPath fragmentPath w).1
      = (gl.glCreateProgram g).1 :=
  ⟨_, rfl⟩

/-- C19 fails for the `createShaderProgram` of CP4 and of CP2: with no shader file to open
and a driver that numbers its objects from 1, both return the program name 3, not 0; the
`createShaderProgram` of CP6 returns 0 on the same input. -/
theorem C19_unguarded_createShaderProgram :
    (CP4.createShaderProgram GLDriver.counting (fun _ => none) "shaders/vertex.glsl"
      "shaders/fragment.glsl" World.start).1 = 3 ∧
    (CP2.createShaderProgram GLDriver.counting (fun _ => none) "shaders/vertex.glsl"
      "shaders/fragment.glsl" World.start).1 = 3 ∧
    (CP6.createShaderProgram GLDriver.counting (fun _ => none) "shaders/vertex.glsl"
      "shaders/fragment.glsl" World.start).1 = 0 := by
  refine ⟨rfl, rfl, ?_⟩
  exact CP6_createShaderProgram_missing _ _ _ _ _ (Or.inl rfl)

/-- The function `loadTexture` returns the name `glGenTextures` handed out, whether or not
the image could be decoded. -/
theorem loadTexture_fst {σ : Type} (gl : GLDriver σ) (stbi_load : StbLoader) (path : String)
    (w : World σ) :
    (CP6.loadTexture gl stbi_load path w).1 = (gl.glGenTextures w.gl).1 := by
  unfold CP6.loadTexture
  cases stbi_load path <;> rfl

/-- C20 fails: when `stbi_load` returns null, `loadTexture` logs the failure and returns
the texture name it generated, here 1 for a driver that numbers its objects from 1, so the
renderer's test `map != 0` takes the map as present. -/
theorem C20_loadTexture_failed_decode :
    (CP6.loadTexture GLDriver.counting (fun _ => none) "textures/missing.png"
        World.start).1 = 1 ∧
    (CP6.loadTexture GLDriver.counting (fun _ => none) "textures/missing.png"
        World.start).1 ≠ 0 ∧
    (CP6.loadTexture GLDriver.counting (fun _ => none) "textures/missing.png"
        World.start).2.cerr = ["纹理加载失败: textures/missing.png"] := by
  refine ⟨rfl, by decide, by decide⟩

/-! ## Mouse look in QUATERNION mode: the order of the product -/

theorem quat_one_unit : glm.qdot (⟨1, 0, 0, 0⟩ : Quat ℝ) ⟨1, 0, 0, 0⟩ = 1 := by
  simp [glm.qdot]

theorem dot_unit_X : glm.dot (⟨1, 0, 0⟩ : Vec3 ℝ) ⟨1, 0, 0⟩ = 1 := by
  simp [glm.dot]

theorem dot_unit_Y : glm.dot (⟨0, 1, 0⟩ : Vec3 ℝ) ⟨0, 1, 0⟩ = 1 := by
  simp [glm.dot]

/-- The square of `sin (π / 4)` is a half. -/
theorem sin_pi_div_four_sq : Real.sin (Real.pi / 4) * Real.sin (Real.pi / 4) = 1 / 2 := by
  rw [Real.sin_pi_div_four]
  have h : Real.sqrt 2 * Real.sqrt 2 = 2 := Real.mul_self_sqrt (by norm_num)
  linear_combination (1 / 4) * h

/-- In QUATERNION mode the product `ProcessMouseMovement` stores needs no normalisation
when `Orientation` and `Right` are unit. -/
theorem mouse_product_unit (c : Camera ℝ) (a b : ℝ)
    (hq : glm.qdot c.Orientation c.Orientation = 1) (hr : glm.dot c.Right c.Right = 1) :
    glm.qnormalize (glm.angleAxis a ⟨0, 1, 0⟩ * c.Orientation * glm.angleAxis b c.Right)
      = glm.angleAxis a ⟨0, 1, 0⟩ * c.Orientation * glm.angleAxis b c.Right := by
  apply qnormalize_of_unit
  rw [qdot_mul, qdot_mul, qdot_angleAxis _ _ dot_unit_Y, qdot_angleAxis _ _ hr, hq]
  norm_num

/-- C21, as the code has it: in QUATERNION mode, with
`qPitch = angleAxis (dy * MouseSensitivity) Right` and
`qYaw = angleAxis (-(dx * MouseSensitivity)) (0,1,0)` (angles in degrees), the new
`Orientation` is `normalize (qYaw * q * qPitch)`: the yaw on the left of `q` and the pitch
on its right; for unit `q` and unit `Right` the product is unit already. -/
theorem C21_mouse_look_yaw_left_pitch_right (c : Camera ℝ) (dx dy : ℝ)
    (constrainPitch : Bool) (hm : c.Mode = QUATERNION) :
    (c.ProcessMouseMovement dx dy constrainPitch).Orientation
      = glm.qnormalize
          (glm.angleAxis (glm.radians (-(dx * c.MouseSensitivity))) ⟨0, 1, 0⟩
            * c.Orientation
            * glm.angleAxis (glm.radians (dy * c.MouseSensitivity)) c.Right) ∧
    (glm.qdot c.Orientation c.Orientation = 1 → glm.dot c.Right c.Right = 1 →
      (c.ProcessMouseMovement dx dy constrainPitch).Orientation
        = glm.angleAxis (glm.radians (-(dx * c.MouseSensitivity))) ⟨0, 1, 0⟩
            * c.Orientation
            * glm.angleAxis (glm.radians (dy * c.MouseSensitivity)) c.Right) := by
  refine ⟨ProcessMouseMovement_quaternion_Orientation c dx dy constrainPitch hm, ?_⟩
  intro hq hr
  rw [ProcessMouseMovement_quaternion_Orientation c dx dy constrainPitch hm,
    mouse_product_unit c _ _ hq hr]

/-- C21 at the sample camera in QUATERNION mode, for a mouse move of `(1800, 1800)`. -/
theorem C21_mouse_look_yaw_left_pitch_right_witness :
    ((Camera.sample QUATERNION : Camera ℝ).ProcessMouseMovement 1800 1800 true).Orientation
      = glm.angleAxis (glm.radians (-(1800 * (0.05 : ℝ)))) ⟨0, 1, 0⟩
          * (⟨1, 0, 0, 0⟩ : Quat ℝ)
          * glm.angleAxis (glm.radians (1800 * (0.05 : ℝ))) ⟨1, 0, 0⟩ :=
  (C21_mouse_look_yaw_left_pitch_right (Camera.sample QUATERNION) 1800 1800 true rfl).2
    quat_one_unit dot_unit_X

/-- The quarter turns the mouse move `(1800, 1800)` makes at sensitivity `0.05`:
their products with the identity in the two orders differ in the sign of `z`. -/
theorem quarter_turn_products :
    (glm.angleAxis (glm.radians (-(1800 * (0.05 : ℝ)))) ⟨0, 1, 0⟩ * (⟨1, 0, 0, 0⟩ : Quat ℝ)
        * glm.angleAxis (glm.radians (1800 * (0.05 : ℝ))) ⟨1, 0, 0⟩).z = 1 / 2 ∧
    (glm.angleAxis (glm.radians (1800 * (0.05 : ℝ))) ⟨1, 0, 0⟩
        * (glm.angleAxis (glm.radians (-(1800 * (0.05 : ℝ)))) ⟨0, 1, 0⟩
            * (⟨1, 0, 0, 0⟩ : Quat ℝ))).z = -(1 / 2) := by
  have e1 : glm.radians (-(1800 * (0.05 : ℝ))) * (1 / 2) = -(Real.pi / 4) := by
    simp only [glm.radians, cmath_pi]; ring
  have e2 : glm.radians (1800 * (0.05 : ℝ)) * (1 / 2) = Real.pi / 4 := by
    simp only [glm.radians, cmath_pi]; ring
  have hs := sin_pi_div_four_sq
  constructor
  · simp only [quat_mul_w, quat_mul_x, quat_mul_y, quat_mul_z, glm.angleAxis, cmath_sin,
      cmath_cos, e1, e2, Real.sin_neg, Real.cos_neg]
    linear_combination hs
  · simp only [quat_mul_w, quat_mul_x, quat_mul_y, quat_mul_z, glm.angleAxis, cmath_sin,
      cmath_cos, e1, e2, Real.sin_neg, Real.cos_neg]
    linear_combination -hs

/-- C21 as stated fails: at the sample camera in QUATERNION mode (unit `Orientation`, the
identity, and `Right = (1,0,0)`), after the mouse move `(1800, 1800)`, a quarter turn each
way, the new `Orientation` is not `normalize (qPitch * (qYaw * q))`. -/
theorem C21_pitch_is_not_on_the_left :
    glm.qdot (Camera.sample QUATERNION : Camera ℝ).Orientation
        (Camera.sample QUATERNION : Camera ℝ).Orientation = 1 ∧
    ((Camera.sample QUATERNION : Camera ℝ).ProcessMouseMovement 1800 1800 true).Orientation
      ≠ glm.qnormalize
          (glm.angleAxis (glm.radians (1800 * (Camera.sample QUATERNION : Camera ℝ).MouseSensitivity))
              (Camera.sample QUATERNION : Camera ℝ).Right
            * (glm.angleAxis
                (glm.radians (-(1800 * (Camera.sample QUATERNION : Camera ℝ).MouseSensitivity)))
                ⟨0, 1, 0⟩
              * (Camera.sample QUATERNION : Camera ℝ).Orientation)) := by
  refine ⟨quat_one_unit, ?_⟩
  rw [ProcessMouseMovement_quaternion_Orientation _ 1800 1800 true rfl,
    mouse_product_unit _ _ _ quat_one_unit dot_unit_X]
  have hu : glm.qdot
      (glm.angleAxis (glm.radians (1800 * (0.05 : ℝ))) ⟨1, 0, 0⟩
        * (glm.angleAxis (glm.radians (-(1800 * (0.05 : ℝ)))) ⟨0, 1, 0⟩
            * (⟨1, 0, 0, 0⟩ : Quat ℝ)))
      (glm.angleAxis (glm.radians (1800 * (0.05 : ℝ))) ⟨1, 0, 0⟩
        * (glm.angleAxis (glm.radians (-(1800 * (0.05 : ℝ)))) ⟨0, 1, 0⟩
            * (⟨1, 0, 0, 0⟩ : Quat ℝ))) = 1 := by
    rw [qdot_mul, qdot_mul, qdot_angleAxis _ _ dot_unit_Y, qdot_angleAxis _ _ dot_unit_X,
      quat_one_unit]
    norm_num
  intro h
  have h2 : glm.angleAxis (glm.radians (-(1800 * (0.05 : ℝ)))) ⟨0, 1, 0⟩
        * (⟨1, 0, 0, 0⟩ : Quat ℝ)
        * glm.angleAxis (glm.radians (1800 * (0.05 : ℝ))) ⟨1, 0, 0⟩
      = glm.qnormalize (glm.angleAxis (glm.radians (1800 * (0.05 : ℝ))) ⟨1, 0, 0⟩
        * (glm.angleAxis (glm.radians (-(1800 * (0.05 : ℝ)))) ⟨0, 1, 0⟩
            * (⟨1, 0, 0, 0⟩ : Quat ℝ))) := h
  rw [qnormalize_of_unit _ hu] at h2
  have hz := congrArg Quat.z h2
  rw [quarter_turn_products.1, quarter_turn_products.2] at hz
  norm_num at hz

/-! ## The two ways from Euler angles to a quaternion -/

/-- The orientation `SetQuaternionEulerAngles` stores. -/
theorem SetQuaternionEulerAngles_Orientation (c : Camera ℝ) (yaw pitch roll : ℝ) :
    (c.SetQuaternionEulerAngles yaw pitch roll).Orientation
      = glm.qnormalize
          (glm.angleAxis (glm.radians yaw) ⟨0, 1, 0⟩
            * glm.angleAxis (glm.radians pitch) ⟨1, 0, 0⟩
            * glm.angleAxis (glm.radians roll) ⟨0, 0, 1⟩) := by
  unfold Camera.SetQuaternionEulerAngles
  simp only [updateCameraVectors_Orientation]

/-- A yaw about the world Y axis times a pitch about the world X axis, in half angles:
the quaternion `eulerToQuaternion` builds from the pitch about the yaw-rotated X axis
times the yaw. -/
theorem angleAxis_Y_mul_angleAxis_X (yaw pitch : ℝ) :
    glm.angleAxis yaw ⟨0, 1, 0⟩ * glm.angleAxis pitch ⟨1, 0, 0⟩
      = glm.angleAxis pitch (glm.rotateVec (glm.angleAxis yaw ⟨0, 1, 0⟩) ⟨1, 0, 0⟩)
          * glm.angleAxis yaw ⟨0, 1, 0⟩ := by
  rw [eulerToQuaternion_product]
  ext <;> simp [glm.angleAxis]

/-- With roll 0, `SetQuaternionEulerAngles yaw pitch 0` stores the orientation that
`SetMode QUATERNION` computes from the Euler angles `yaw`, `pitch`. -/
theorem euler_paths_agree (c d : Camera ℝ) (hm : d.Mode = EULER) :
    (c.SetQuaternionEulerAngles d.Yaw d.Pitch 0).Orientation
      = (d.SetMode QUATERNION).Orientation := by
  rw [SetQuaternionEulerAngles_Orientation, SetMode_quaternion_Orientation d hm, radians_zero,
    mul_angleAxis_zero, angleAxis_Y_mul_angleAxis_X]

/-- C22, as the code has it: the two paths agree at roll 0. For every camera `c` and every
camera `d` in EULER mode, `SetQuaternionEulerAngles d.Yaw d.Pitch 0` on `c` stores the
`Orientation` that `SetMode QUATERNION` produces on `d`. -/
theorem C22_euler_to_quaternion_paths_agree (c d : Camera ℝ) (hm : d.Mode = EULER) :
    (c.SetQuaternionEulerAngles d.Yaw d.Pitch 0).Orientation
      = (d.SetMode QUATERNION).Orientation :=
  euler_paths_agree c d hm

/-- C22 at the sample camera with yaw 30 and pitch 40. -/
theorem C22_euler_to_quaternion_paths_agree_witness :
    ((Camera.sample QUATERNION : Camera ℝ).SetQuaternionEulerAngles 30 40 0).Orientation
      = (Camera.SetMode { (Camera.sample EULER : Camera ℝ) with Yaw := 30, Pitch := 40 }
          QUATERNION).Orientation :=
  C22_euler_to_quaternion_paths_agree (Camera.sample QUATERNION)
    { (Camera.sample EULER : Camera ℝ) with Yaw := 30, Pitch := 40 } rfl

/-- C22 as stated fails: there are no `yaw` and `pitch` (and no cameras) for which the
`Orientation` stored by `SetQuaternionEulerAngles yaw pitch 0` differs from the one
`SetMode QUATERNION` produces from an EULER-mode camera with that `Yaw` and `Pitch`. -/
theorem C22_no_disagreeing_angles :
    ¬ ∃ (c d : Camera ℝ) (yaw pitch : ℝ),
        d.Mode = EULER ∧ d.Yaw = yaw ∧ d.Pitch = pitch ∧
        (c.SetQuaternionEulerAngles yaw pitch 0).Orientation
          ≠ (d.SetMode QUATERNION).Orientation := by
  rintro ⟨c, d, yaw, pitch, hm, rfl, rfl, hne⟩
  exact hne (euler_paths_agree c d hm)

/-! ## The view matrix -/

theorem mat4_mulVec_w (m : Mat4 ℝ) (v : Vec4 ℝ) :
    (m * v).w = m.c0.w * v.x + m.c1.w * v.y + m.c2.w * v.z + m.c3.w * v.w := rfl

/-- The matrix `lookAt eye (eye + F) U` for unit, orthogonal `F` and `U`: its rows are
`F × U`, `U`, `-F`, and the translation takes `eye` to the origin. -/
theorem lookAt_of_orthonormal (eye F U : Vec3 ℝ) (hF : glm.dot F F = 1)
    (hU : glm.dot U U = 1) (hFU : glm.dot F U = 0) :
    glm.lookAt eye (eye + F) U
      = { c0 := ⟨(glm.cross F U).x, U.x, -F.x, 0⟩
          c1 := ⟨(glm.cross F U).y, U.y, -F.y, 0⟩
          c2 := ⟨(glm.cross F U).z, U.z, -F.z, 0⟩
          c3 := ⟨-glm.dot (glm.cross F U) eye, -glm.dot U eye, glm.dot F eye, 1⟩ } := by
  have e1 : eye + F - eye = F := by ext <;> simp
  have hs : glm.dot (glm.cross F U) (glm.cross F U) = 1 := by
    rw [dot_cross_cross, hF, hU, hFU]; norm_num
  have hu : glm.cross (glm.cross F U) F = U := by
    simp only [glm.dot] at hF hFU
    ext
    · simp only [glm.cross]
      linear_combination U.x * hF - F.x * hFU
    · simp only [glm.cross]
      linear_combination U.y * hF - F.y * hFU
    · simp only [glm.cross]
      linear_combination U.z * hF - F.z * hFU
  unfold glm.lookAt
  simp only [e1, normalize_of_unit F hF, normalize_of_unit _ hs, hu]

/-- C23: `GetViewMatrix` is the look-at transform of the state. For `Front` and `Up` unit
and orthogonal, the matrix takes the point `Position` to the origin and the directions
`Front`, `Up`, `Front × Up` to `(0,0,-1)`, `(0,1,0)`, `(1,0,0)`; the call changes no field
of the camera. -/
theorem C23_GetViewMatrix_look_at (c : Camera ℝ) (hF : glm.dot c.Front c.Front = 1)
    (hU : glm.dot c.Up c.Up = 1) (hFU : glm.dot c.Front c.Up = 0) :
    c.GetViewMatrix.1 * Vec4.ofVec3 c.Position 1 = ⟨0, 0, 0, 1⟩ ∧
    c.GetViewMatrix.1 * Vec4.ofVec3 c.Front 0 = ⟨0, 0, -1, 0⟩ ∧
    c.GetViewMatrix.1 * Vec4.ofVec3 c.Up 0 = ⟨0, 1, 0, 0⟩ ∧
    c.GetViewMatrix.1 * Vec4.ofVec3 (glm.cross c.Front c.Up) 0 = ⟨1, 0, 0, 0⟩ ∧
    c.GetViewMatrix.2 = c := by
  have hM : c.GetViewMatrix.1 = glm.lookAt c.Position (c.Position + c.Front) c.Up := rfl
  have hs : glm.dot (glm.cross c.Front c.Up) (glm.cross c.Front c.Up) = 1 := by
    rw [dot_cross_cross, hF, hU, hFU]; norm_num
  have h1 := dot_cross_left c.Front c.Up
  have h2 := dot_cross_right c.Front c.Up
  rw [hM, lookAt_of_orthonormal _ _ _ hF hU hFU]
  simp only [glm.dot] at hF hU hFU hs h1 h2
  refine ⟨?_, ?_, ?_, ?_, rfl⟩
  · ext
    · simp only [mat4_mulVec_x, Vec4.ofVec3, glm.dot]; ring
    · simp only [mat4_mulVec_y, Vec4.ofVec3, glm.dot]; ring
    · simp only [mat4_mulVec_z, Vec4.ofVec3, glm.dot]; ring
    · simp only [mat4_mulVec_w, Vec4.ofVec3]; ring
  · ext
    · simp only [mat4_mulVec_x, Vec4.ofVec3]; linear_combination h1
    · simp only [mat4_mulVec_y, Vec4.ofVec3]; linear_combination hFU
    · simp only [mat4_mulVec_z, Vec4.ofVec3]; linear_combination -hF
    · simp only [mat4_mulVec_w, Vec4.ofVec3]; ring
  · ext
    · simp only [mat4_mulVec_x, Vec4.ofVec3]; linear_combination h2
    · simp only [mat4_mulVec_y, Vec4.ofVec3]; linear_combination hU
    · simp only [mat4_mulVec_z, Vec4.ofVec3]; linear_combination -hFU
    · simp only [mat4_mulVec_w, Vec4.ofVec3]; ring
  · ext
    · simp only [mat4_mulVec_x, Vec4.ofVec3]; linear_combination hs
    · simp only [mat4_mulVec_y, Vec4.ofVec3]; linear_combination h2
    · simp only [mat4_mulVec_z, Vec4.ofVec3]; linear_combination -h1
    · simp only [mat4_mulVec_w, Vec4.ofVec3]; ring

/-- C23 at the sample camera (`Position (0,0,3)`, `Front (0,0,-1)`, `Up (0,1,0)`): the view
matrix takes the position to the origin. -/
theorem C23_GetViewMatrix_look_at_witness :
    (Camera.sample EULER : Camera ℝ).GetViewMatrix.1
        * Vec4.ofVec3 (Camera.sample EULER : Camera ℝ).Position 1
      = (⟨0, 0, 0, 1⟩ : Vec4 ℝ) :=
  (C23_GetViewMatrix_look_at (Camera.sample EULER) (by simp [glm.dot, Camera.sample])
    (by simp [glm.dot, Camera.sample]) (by simp [glm.dot, Camera.sample])).1

/-! ## `SetEulerAngles` in QUATERNION mode -/

/-- C30: in QUATERNION mode, for a camera whose `Front`, `Right`, `Up` are the vectors
`updateCameraVectors` derives from its `Orientation`, `SetEulerAngles` stores the three
angles (the pitch clamped when `constrainPitch` is set) and changes nothing else:
`Orientation`, `Front`, `Right`, `Up` and the view matrix are as before. -/
theorem C30_SetEulerAngles_quaternion_mode (c : Camera ℝ) (yaw pitch roll : ℝ)
    (constrainPitch : Bool) (hm : c.Mode = QUATERNION)
    (hF : c.updateCameraVectors.Front = c.Front)
    (hR : c.updateCameraVectors.Right = c.Right)
    (hU : c.updateCameraVectors.Up = c.Up) :
    c.SetEulerAngles yaw pitch roll constrainPitch
      = { c with
          Yaw := yaw
          Pitch := if constrainPitch then min (max pitch (-89)) 89 else pitch
          Roll := roll } ∧
    (c.SetEulerAngles yaw pitch roll constrainPitch).Orientation = c.Orientation ∧
    (c.SetEulerAngles yaw pitch roll constrainPitch).Front = c.Front ∧
    (c.SetEulerAngles yaw pitch roll constrainPitch).Right = c.Right ∧
    (c.SetEulerAngles yaw pitch roll constrainPitch).Up = c.Up ∧
    (c.SetEulerAngles yaw pitch roll constrainPitch).GetViewMatrix.1 = c.GetViewMatrix.1 := by
  have hm2 : ({ c with
      Yaw := yaw
      Pitch := if constrainPitch then min (max pitch (-89)) 89 else pitch
      Roll := roll } : Camera ℝ).Mode = QUATERNION := hm
  rw [updateCameraVectors_quaternion c hm] at hF hR hU
  have key : c.SetEulerAngles yaw pitch roll constrainPitch
      = { c with
          Yaw := yaw
          Pitch := if constrainPitch then min (max pitch (-89)) 89 else pitch
          Roll := roll } := by
    rw [SetEulerAngles_eq, updateCameraVectors_quaternion _ hm2]
    simp only at hF hR hU ⊢
    rw [hF, hR, hU]
  rw [key]
  exact ⟨rfl, rfl, rfl, rfl, rfl, rfl⟩

/-- C30 at the sample camera in QUATERNION mode: after `SetEulerAngles 30 100 5 true` the
front is still `(0,0,-1)`. -/
theorem C30_SetEulerAngles_quaternion_mode_witness :
    ((Camera.sample QUATERNION : Camera ℝ).SetEulerAngles 30 100 5 true).Front
      = ⟨0, 0, -1⟩ :=
  (C30_SetEulerAngles_quaternion_mode (Camera.sample QUATERNION) 30 100 5 true rfl
    (by rw [updateCameraVectors_quaternion _ rfl]
        ext <;> simp [Camera.sample, glm.mat3_cast, glm.normalize, glm.dot])
    (by rw [updateCameraVectors_quaternion _ rfl]
        ext <;> simp [Camera.sample, glm.mat3_cast, glm.normalize, glm.dot])
    (by rw [updateCameraVectors_quaternion _ rfl]
        ext <;> simp [Camera.sample, glm.mat3_cast, glm.normalize, glm.dot])).2.2.1

/-! ## The OBJ loader: building the vertex data -/

/-- Inside the vector, `v[i]` reads the element. -/
theorem vectorAt_of_get? {α : Type} (pastEnd : Nat → α) (v : List α) (i : Nat) (a : α)
    (h : v.get? i = some a) : vectorAt pastEnd v i = a := by
  unfold vectorAt
  rw [h]
  rfl

/-- A loop that pushes one vertex and one index per round builds the two vectors
`f 0, f 1, ...` and `g 0, g 1, ...`. -/
theorem push_loop_eq_map {K : Type} (f : Nat → Vertex K) (g : Nat → Nat) (n : Nat) :
    (List.range n).foldl
        (fun (self : OBJLoader K) i =>
          { vertices := self.vertices ++ [f i], indices := self.indices ++ [g i] })
        { vertices := [], indices := [] }
      = { vertices := (List.range n).map f, indices := (List.range n).map g } := by
  induction n with
  | zero => rfl
  | succ n ih =>
    rw [List.range_succ, List.foldl_append, ih]
    simp

/-- The vectors `buildVertexData` leaves: one vertex and one index per entry of
`vertex_indices`, in order. -/
theorem buildVertexData_eq {K : Type} [LinearOrderedField K] (u : Unspecified K)
    (temp_vertices : List (Vec3 K)) (temp_uvs : List (Vec2 K)) (temp_normals : List (Vec3 K))
    (vertex_indices uv_indices normal_indices : List Nat) (hasOriginalNormals : Bool) :
    OBJLoader.buildVertexData u temp_vertices temp_uvs temp_normals vertex_indices uv_indices
        normal_indices hasOriginalNormals
      = { vertices := (List.range vertex_indices.length).map fun i =>
            { Position :=
                vectorAt u.pastEnd temp_vertices (vectorAt u.pastEndIndex vertex_indices i)
              Normal :=
                if hasOriginalNormals = true ∧ i < normal_indices.length then
                  vectorAt u.pastEnd temp_normals (vectorAt u.pastEndIndex normal_indices i)
                else vectorAt u.pastEnd temp_normals (vectorAt u.pastEndIndex vertex_indices i)
              TexCoords :=
                if i < uv_indices.length
                    ∧ vectorAt u.pastEndIndex uv_indices i < temp_uvs.length then
                  vectorAt (fun _ => u.vec2) temp_uvs (vectorAt u.pastEndIndex uv_indices i)
                else ⟨0, 0⟩ }
          indices := (List.range vertex_indices.length).map fun i => i % 4294967296 } :=
  push_loop_eq_map _ _ _

/-- The sizes `buildVertexData` leaves. -/
theorem buildVertexData_length {K : Type} [LinearOrderedField K] (u : Unspecified K)
    (temp_vertices : List (Vec3 K)) (temp_uvs : List (Vec2 K)) (temp_normals : List (Vec3 K))
    (vertex_indices uv_indices normal_indices : List Nat) (hasOriginalNormals : Bool) :
    (OBJLoader.buildVertexData u temp_vertices temp_uvs temp_normals vertex_indices uv_indices
        normal_indices hasOriginalNormals).vertices.length = vertex_indices.length ∧
    (OBJLoader.buildVertexData u temp_vertices temp_uvs temp_normals vertex_indices uv_indices
        normal_indices hasOriginalNormals).indices.length = vertex_indices.length := by
  rw [buildVertexData_eq]
  simp

/-- A digit character stands for its digit. -/
theorem digitChar_toNat (k : Nat) (hk : k < 10) : (Nat.digitChar k).toNat = 48 + k := by
  interval_cases k <;> rfl

theorem isdigit_iff (c : Char) : isdigit c = true ↔ 48 ≤ c.toNat ∧ c.toNat ≤ 57 := by
  simp [isdigit]

theorem isdigit_digitChar (k : Nat) (hk : k < 10) : isdigit (Nat.digitChar k) = true := by
  rw [isdigit_iff, digitChar_toNat k hk]
  omega

/-- A digit is not white space. -/
theorem isspace_of_isdigit (c : Char) (h : isdigit c = true) : isspace c = false := by
  rw [isdigit_iff] at h
  simp only [isspace, Bool.or_eq_false_iff, beq_eq_false_iff_ne, ne_eq, Bool.and_eq_false_imp,
    decide_eq_true_eq, decide_eq_false_iff_not, not_le]
  constructor
  · omega
  · intro; omega

/-- A digit is none of `/`, `-`, `+` and not the newline. -/
theorem ne_of_isdigit (c : Char) (h : isdigit c = true) :
    c ≠ '/' ∧ c ≠ '-' ∧ c ≠ '+' ∧ c ≠ Char.ofNat 10 := by
  rw [isdigit_iff] at h
  refine ⟨?_, ?_, ?_, ?_⟩ <;>
  · intro e
    rw [e] at h
    revert h
    decide

theorem decimalValue_foldl (ds : List Char) (n : Nat) :
    ds.foldl (fun n c => 10 * n + (c.toNat - 48)) n = n * 10 ^ ds.length + decimalValue ds := by
  induction ds generalizing n with
  | nil => simp [decimalValue]
  | cons d ds ih =>
    simp only [List.foldl_cons, List.length_cons, decimalValue]
    rw [ih, ih (10 * 0 + (d.toNat - 48))]
    ring

theorem decimalValue_cons (d : Char) (ds : List Char) :
    decimalValue (d :: ds) = (d.toNat - 48) * 10 ^ ds.length + decimalValue ds := by
  simp only [decimalValue, List.foldl_cons]
  rw [decimalValue_foldl]
  simp [decimalValue]

/-- The digits `Nat.toDigitsCore` puts in front of `ds` are digits and denote `n`. -/
theorem toDigitsCore_spec (fuel : Nat) : ∀ (n : Nat) (ds : List Char), n < fuel →
    (∀ c ∈ ds, isdigit c = true) →
    (∀ c ∈ Nat.toDigitsCore 10 fuel n ds, isdigit c = true) ∧
    Nat.toDigitsCore 10 fuel n ds ≠ [] ∧
    decimalValue (Nat.toDigitsCore 10 fuel n ds) = n * 10 ^ ds.length + decimalValue ds := by
  induction fuel with
  | zero => intro n ds h; omega
  | succ fuel ih =>
    intro n ds hn hds
    have hd : isdigit (Nat.digitChar (n % 10)) = true :=
      isdigit_digitChar _ (Nat.mod_lt _ (by norm_num))
    have hds2 : ∀ c ∈ Nat.digitChar (n % 10) :: ds, isdigit c = true := by
      intro c hc
      rcases List.mem_cons.mp hc with h | h
      · rw [h]; exact hd
      · exact hds c h
    have hv : decimalValue (Nat.digitChar (n % 10) :: ds)
        = (n % 10) * 10 ^ ds.length + decimalValue ds := by
      rw [decimalValue_cons, digitChar_toNat _ (Nat.mod_lt _ (by norm_num))]
      simp
    simp only [Nat.toDigitsCore]
    by_cases h0 : n / 10 = 0
    · rw [if_pos h0]
      refine ⟨hds2, List.cons_ne_nil _ _, ?_⟩
      rw [hv]
      have : n % 10 = n := Nat.mod_eq_of_lt (by omega)
      rw [this]
    · rw [if_neg h0]
      have hlt : n / 10 < fuel := by omega
      obtain ⟨h1, h2, h3⟩ := ih (n / 10) _ hlt hds2
      refine ⟨h1, h2, ?_⟩
      rw [h3, hv, List.length_cons, pow_succ]
      have key : n * 10 ^ ds.length
          = n / 10 * (10 ^ ds.length * 10) + n % 10 * 10 ^ ds.length := by
        nth_rewrite 1 [← Nat.div_add_mod n 10]
        ring
      rw [key]
      ring

/-- The characters of `toString a` are decimal digits, at least one, and denote `a`. -/
theorem toString_nat_spec (a : Nat) :
    (∀ c ∈ (toString a).data, isdigit c = true) ∧ (toString a).data ≠ [] ∧
    decimalValue (toString a).data = a := by
  have h := toDigitsCore_spec (a + 1) a [] (by omega) (by simp)
  have e : (toString a).data = Nat.toDigitsCore 10 (a + 1) a [] := rfl
  rw [e]
  refine ⟨h.1, h.2.1, ?_⟩
  rw [h.2.2]
  simp [decimalValue]

/-- On a run of digits that denotes an `int`, `std::stoi` returns the number. -/
theorem stoi_digits (ds : List Char) (hne : ds ≠ []) (hds : ∀ c ∈ ds, isdigit c = true)
    (hv : decimalValue ds ≤ 2147483647) :
    stoi (String.mk ds) = some (Int.ofNat (decimalValue ds)) := by
  obtain ⟨d, ds, rfl⟩ := List.exists_cons_of_ne_nil hne
  have hd := hds d (List.mem_cons_self _ _)
  have hsp : isspace d = false := isspace_of_isdigit d hd
  obtain ⟨_, hm, hp, _⟩ := ne_of_isdigit d hd
  have htw : List.takeWhile isdigit (d :: ds) = d :: ds :=
    List.takeWhile_eq_self_iff.mpr hds
  unfold stoi
  simp only [List.dropWhile_cons, hsp, Bool.false_eq_true, if_false, if_neg hm, if_neg hp, htw,
    List.isEmpty_cons]
  have h1 : ¬ ((decimalValue (d :: ds) : Int) < INT_MIN ∨ INT_MAX < (decimalValue (d :: ds) : Int)) := by
    simp only [INT_MIN, INT_MAX]
    omega
  rw [if_neg h1]
  rfl

/-- Storing `a - 1` as `unsigned int` for a positive `int` value `a`. -/
theorem toUnsigned_pred (a : Nat) (h0 : 0 < a) (h1 : a ≤ 2147483647) :
    toUnsigned ((a : Int) - 1) = a - 1 := by
  unfold toUnsigned
  omega

/-- What `std::stoi` makes of the numeral of a positive `int`. -/
theorem stoi_toString (a : Nat) (h1 : a ≤ 2147483647) :
    stoi (toString a) = some (Int.ofNat a) := by
  obtain ⟨hd, hne, hv⟩ := toString_nat_spec a
  have := stoi_digits (toString a).data hne hd (by rw [hv]; exact h1)
  rw [hv] at this
  exact this

/-! ## `std::getline` on a token and `parseVertex` -/

/-- Reading up to a delimiter that is there: the token is what stands before it, the
delimiter is dropped, and the stream stays good. -/
theorem getline_delim (ds rest : List Char) (old : String) (delim : Char)
    (h : ∀ c ∈ ds, c ≠ delim) :
    IStringStream.getline ⟨ds ++ delim :: rest, false, false⟩ old delim
      = (true, String.mk ds, ⟨rest, false, false⟩) := by
  have hp : ∀ c ∈ ds, (fun d => d != delim) c = true := by
    intro c hc
    simpa using h c hc
  unfold IStringStream.getline
  simp only [IStringStream.good, Bool.not_false, Bool.and_self, if_true,
    List.takeWhile_append_of_pos hp, List.dropWhile_append_of_pos hp]
  simp

/-- Reading the last token: the stream is at its end afterwards, `eofbit` set. -/
theorem getline_end (ds : List Char) (old : String) (delim : Char) (hne : ds ≠ [])
    (h : ∀ c ∈ ds, c ≠ delim) :
    IStringStream.getline ⟨ds, false, false⟩ old delim
      = (true, String.mk ds, ⟨[], true, false⟩) := by
  have hp : ∀ c ∈ ds, (fun d => d != delim) c = true := by
    intro c hc
    simpa using h c hc
  have ht : ds.takeWhile (fun d => d != delim) = ds := List.takeWhile_eq_self_iff.mpr hp
  have hd : ds.dropWhile (fun d => d != delim) = [] := List.dropWhile_eq_nil_iff.mpr hp
  unfold IStringStream.getline
  simp only [IStringStream.good, Bool.not_false, Bool.and_self, if_true, ht, hd]
  obtain ⟨d, ds, rfl⟩ := List.exists_cons_of_ne_nil hne
  simp

/-- Reading from a stream that has met its end gives nothing. -/
theorem getline_eof (r : List Char) (f : Bool) (old : String) (delim : Char) :
    IStringStream.getline ⟨r, true, f⟩ old delim = (false, old, ⟨r, true, true⟩) := by
  simp [IStringStream.getline, IStringStream.good]

/-- The numeral of a number is not the empty string. -/
theorem toString_nat_isEmpty (a : Nat) : (toString a).isEmpty = false := by
  have h := (toString_nat_spec a).2.1
  cases hE : (toString a).isEmpty
  · rfl
  · exfalso
    have := (String.isEmpty_iff _).mp hE
    rw [this] at h
    exact h rfl

theorem toString_nat_mk_isEmpty (a : Nat) :
    (String.mk (toString a).data).isEmpty = false :=
  toString_nat_isEmpty a

/-- The characters of a numeral are none of `/` and the newline. -/
theorem toString_nat_ne (a : Nat) :
    (∀ c ∈ (toString a).data, c ≠ '/') ∧ (∀ c ∈ (toString a).data, c ≠ Char.ofNat 10) :=
  ⟨fun c hc => (ne_of_isdigit c ((toString_nat_spec a).1 c hc)).1,
   fun c hc => (ne_of_isdigit c ((toString_nat_spec a).1 c hc)).2.2.2⟩

/-- The token `a/b/c`. -/
theorem parseVertex_full (a b c : Nat) (ha : 0 < a ∧ a ≤ 2147483647)
    (hb : 0 < b ∧ b ≤ 2147483647) (hc : 0 < c ∧ c ≤ 2147483647) (vi ui ni : List Nat) :
    OBJLoader.parseVertex (toString a ++ "/" ++ toString b ++ "/" ++ toString c) vi ui ni
      = some (vi ++ [a - 1], ui ++ [b - 1], ni ++ [c - 1]) := by
  have e : (IStringStream.ofString (toString a ++ "/" ++ toString b ++ "/" ++ toString c))
      = ⟨(toString a).data ++ '/' :: ((toString b).data ++ '/' :: (toString c).data),
          false, false⟩ := by
    simp [IStringStream.ofString]
  unfold OBJLoader.parseVertex
  simp only [e, getline_delim _ _ _ _ (toString_nat_ne a).1,
    getline_delim _ _ _ _ (toString_nat_ne b).1,
    getline_end _ _ _ (toString_nat_spec c).2.1 (toString_nat_ne c).2]
  simp [stoi_toString a ha.2, stoi_toString b hb.2, stoi_toString c hc.2,
    toString_nat_mk_isEmpty, toUnsigned_pred a ha.1 ha.2, toUnsigned_pred b hb.1 hb.2,
    toUnsigned_pred c hc.1 hc.2]

/-- The token `a//c`. -/
theorem parseVertex_no_uv (a c : Nat) (ha : 0 < a ∧ a ≤ 2147483647)
    (hc : 0 < c ∧ c ≤ 2147483647) (vi ui ni : List Nat) :
    OBJLoader.parseVertex (toString a ++ "//" ++ toString c) vi ui ni
      = some (vi ++ [a - 1], ui, ni ++ [c - 1]) := by
  have e : (IStringStream.ofString (toString a ++ "//" ++ toString c))
      = ⟨(toString a).data ++ '/' :: ([] ++ '/' :: (toString c).data), false, false⟩ := by
    simp [IStringStream.ofString]
  unfold OBJLoader.parseVertex
  simp only [e, getline_delim _ _ _ _ (toString_nat_ne a).1,
    getline_delim [] _ _ _ (by simp),
    getline_end _ _ _ (toString_nat_spec c).2.1 (toString_nat_ne c).2]
  simp [stoi_toString a ha.2, stoi_toString c hc.2, isEmpty_empty,
    toString_nat_mk_isEmpty, toUnsigned_pred a ha.1 ha.2, toUnsigned_pred c hc.1 hc.2]

/-- The token `a/b`. -/
theorem parseVertex_no_normal (a b : Nat) (ha : 0 < a ∧ a ≤ 2147483647)
    (hb : 0 < b ∧ b ≤ 2147483647) (vi ui ni : List Nat) :
    OBJLoader.parseVertex (toString a ++ "/" ++ toString b) vi ui ni
      = some (vi ++ [a - 1], ui ++ [b - 1], ni) := by
  have e : (IStringStream.ofString (toString a ++ "/" ++ toString b))
      = ⟨(toString a).data ++ '/' :: (toString b).data, false, false⟩ := by
    simp [IStringStream.ofString]
  unfold OBJLoader.parseVertex
  simp only [e, getline_delim _ _ _ _ (toString_nat_ne a).1,
    getline_end _ _ _ (toString_nat_spec b).2.1 (toString_nat_ne b).1, getline_eof]
  simp [stoi_toString a ha.2, stoi_toString b hb.2,
    toString_nat_mk_isEmpty, toUnsigned_pred a ha.1 ha.2, toUnsigned_pred b hb.1 hb.2]

/-- The token `a`. -/
theorem parseVertex_position_only (a : Nat) (ha : 0 < a ∧ a ≤ 2147483647)
    (vi ui ni : List Nat) :
    OBJLoader.parseVertex (toString a) vi ui ni = some (vi ++ [a - 1], ui, ni) := by
  have e : (IStringStream.ofString (toString a)) = ⟨(toString a).data, false, false⟩ := rfl
  unfold OBJLoader.parseVertex
  simp only [e, getline_end _ _ _ (toString_nat_spec a).2.1 (toString_nat_ne a).1, getline_eof]
  simp [stoi_toString a ha.2, toUnsigned_pred a ha.1 ha.2]

/-- C26: `parseVertex` turns the 1-based indices of OBJ into 0-based ones. For positive
`a`, `b`, `c` in the range of `int`, written in decimal: the token `a/b/c` appends `a - 1`
to `vertex_indices`, `b - 1` to `uv_indices` and `c - 1` to `normal_indices`; `a//c`
appends `a - 1` and `c - 1` and nothing to `uv_indices`; `a/b` appends `a - 1` and
`b - 1` and nothing to `normal_indices`; `a` appends `a - 1` only. In each case one
position index is appended. -/
theorem C26_parseVertex_one_based (a b c : Nat) (ha : 0 < a ∧ a ≤ 2147483647)
    (hb : 0 < b ∧ b ≤ 2147483647) (hc : 0 < c ∧ c ≤ 2147483647) (vi ui ni : List Nat) :
    OBJLoader.parseVertex (toString a ++ "/" ++ toString b ++ "/" ++ toString c) vi ui ni
      = some (vi ++ [a - 1], ui ++ [b - 1], ni ++ [c - 1]) ∧
    OBJLoader.parseVertex (toString a ++ "//" ++ toString c) vi ui ni
      = some (vi ++ [a - 1], ui, ni ++ [c - 1]) ∧
    OBJLoader.parseVertex (toString a ++ "/" ++ toString b) vi ui ni
      = some (vi ++ [a - 1], ui ++ [b - 1], ni) ∧
    OBJLoader.parseVertex (toString a) vi ui ni = some (vi ++ [a - 1], ui, ni) :=
  ⟨parseVertex_full a b c ha hb hc vi ui ni, parseVertex_no_uv a c ha hc vi ui ni,
    parseVertex_no_normal a b ha hb vi ui ni, parseVertex_position_only a ha vi ui ni⟩

/-- C26 on the token `3/7/2` after one earlier vertex. -/
theorem C26_parseVertex_one_based_witness :
    OBJLoader.parseVertex "3/7/2" [0] [0] [0] = some ([0, 2], [0, 6], [0, 1]) :=
  (C26_parseVertex_one_based 3 7 2 (by decide) (by decide) (by decide) [0] [0] [0]).1

/-! ## The OBJ loader: smooth normals -/

theorem vec3_add_zero (v : Vec3 ℝ) : v + (⟨0, 0, 0⟩ : Vec3 ℝ) = v := by
  ext <;> simp

theorem vec3_zero_add (v : Vec3 ℝ) : (⟨0, 0, 0⟩ : Vec3 ℝ) + v = v := by
  ext <;> simp

theorem vec3_add_assoc (a b c : Vec3 ℝ) : a + b + c = a + (b + c) := by
  ext <;> simp [add_assoc]

/-- The statement `normals[i] += x` inside the vector, read at `k`. -/
theorem bump_get? (pastEnd : Nat → Vec3 ℝ) (l : List (Vec3 ℝ)) (i k : Nat) (x a : Vec3 ℝ)
    (hi : i < l.length) (hk : l.get? k = some a) :
    (l.set i (vectorAt pastEnd l i + x)).get? k
      = some (a + if i = k then x else ⟨0, 0, 0⟩) := by
  rw [List.get?_eq_getElem?] at hk ⊢
  rw [List.getElem?_set]
  by_cases h : i = k
  · subst h
    rw [if_pos rfl, if_pos hi, if_pos rfl]
    rw [vectorAt_of_get? pastEnd l i a (by rw [List.get?_eq_getElem?]; exact hk)]
  · rw [if_neg h, if_neg h, hk, vec3_add_zero]

/-- One round of the loop of `generateNormals` for the triangle `(i0, i1, i2)` with face
normal `x`, read at `k`. -/
theorem round_get? (pastEnd : Nat → Vec3 ℝ) (l : List (Vec3 ℝ)) (i0 i1 i2 k : Nat)
    (x a : Vec3 ℝ) (h0 : i0 < l.length) (h1 : i1 < l.length) (h2 : i2 < l.length)
    (hk : l.get? k = some a) :
    (((l.set i0 (vectorAt pastEnd l i0 + x)).set i1
          (vectorAt pastEnd (l.set i0 (vectorAt pastEnd l i0 + x)) i1 + x)).set i2
        (vectorAt pastEnd
          ((l.set i0 (vectorAt pastEnd l i0 + x)).set i1
            (vectorAt pastEnd (l.set i0 (vectorAt pastEnd l i0 + x)) i1 + x)) i2 + x)).get? k
      = some (a + ((if i0 = k then x else ⟨0, 0, 0⟩) + (if i1 = k then x else ⟨0, 0, 0⟩)
          + (if i2 = k then x else ⟨0, 0, 0⟩))) := by
  have e1 := bump_get? pastEnd l i0 k x a h0 hk
  have e2 := bump_get? pastEnd _ i1 k x _ (by rw [List.length_set]; exact h1) e1
  have e3 := bump_get? pastEnd _ i2 k x _ (by rw [List.length_set, List.length_set]; exact h2) e2
  rw [e3, vec3_add_assoc, vec3_add_assoc, vec3_add_assoc]

/-- Inside the vector, `v[i]` is `getD`. -/
theorem vectorAt_eq_getD {α : Type} (pastEnd : Nat → α) (v : List α) (i : Nat) (d : α)
    (h : i < v.length) : vectorAt pastEnd v i = v.getD i d := by
  unfold vectorAt
  rw [List.get?_eq_getElem?, List.getElem?_eq_getElem h, List.getD_eq_getElem?_getD,
    List.getElem?_eq_getElem h]
  rfl

/-- An entry of a vector read with `getD` is an element of it. -/
theorem getD_mem {α : Type} (v : List α) (i : Nat) (d : α) (h : i < v.length) :
    v.getD i d ∈ v := by
  rw [List.getD_eq_getElem?_getD, List.getElem?_eq_getElem h]
  exact List.getElem_mem _

/-- The accumulation loop of `generateNormals` after `n` full triangles: the vector keeps
its size and holds at `k` the sum of what the triangles so far add at `k`. -/
theorem generateNormals_loop (u : Unspecified ℝ) (V : List (Vec3 ℝ)) (I : List Nat)
    (hI : ∀ j ∈ I, j < V.length) (n : Nat) (hn : 3 * n ≤ I.length) :
    ((List.range n).foldl
        (fun (normals : List (Vec3 ℝ)) t =>
          let i := 3 * t
          let i0 := vectorAt u.pastEndIndex I i
          let i1 := vectorAt u.pastEndIndex I (i + 1)
          let i2 := vectorAt u.pastEndIndex I (i + 2)
          let v0 := vectorAt u.pastEnd V i0
          let v1 := vectorAt u.pastEnd V i1
          let v2 := vectorAt u.pastEnd V i2
          let edge1 := v1 - v0
          let edge2 := v2 - v0
          let normal := glm.normalize (glm.cross edge1 edge2)
          let normals := normals.set i0 (vectorAt u.pastEnd normals i0 + normal)
          let normals := normals.set i1 (vectorAt u.pastEnd normals i1 + normal)
          let normals := normals.set i2 (vectorAt u.pastEnd normals i2 + normal)
          normals)
        (List.replicate V.length (⟨0, 0, 0⟩ : Vec3 ℝ))).length = V.length ∧
    ∀ k, k < V.length →
      ((List.range n).foldl
        (fun (normals : List (Vec3 ℝ)) t =>
          let i := 3 * t
          let i0 := vectorAt u.pastEndIndex I i
          let i1 := vectorAt u.pastEndIndex I (i + 1)
          let i2 := vectorAt u.pastEndIndex I (i + 2)
          let v0 := vectorAt u.pastEnd V i0
          let v1 := vectorAt u.pastEnd V i1
          let v2 := vectorAt u.pastEnd V i2
          let edge1 := v1 - v0
          let edge2 := v2 - v0
          let normal := glm.normalize (glm.cross edge1 edge2)
          let normals := normals.set i0 (vectorAt u.pastEnd normals i0 + normal)
          let normals := normals.set i1 (vectorAt u.pastEnd normals i1 + normal)
          let normals := normals.set i2 (vectorAt u.pastEnd normals i2 + normal)
          normals)
        (List.replicate V.length (⟨0, 0, 0⟩ : Vec3 ℝ))).get? k
      = some (((List.range n).map (spec_contribution V I k)).foldl (· + ·) ⟨0, 0, 0⟩) := by
  induction n with
  | zero =>
    refine ⟨by simp, ?_⟩
    intro k hk
    simp [List.getElem?_replicate, hk]
  | succ n ih =>
    obtain ⟨hlen, hget⟩ := ih (by omega)
    have h0 : 3 * n < I.length := by omega
    have h1 : 3 * n + 1 < I.length := by omega
    have h2 : 3 * n + 2 < I.length := by omega
    have e0 : vectorAt u.pastEndIndex I (3 * n) = I.getD (3 * n) 0 :=
      vectorAt_eq_getD _ _ _ _ h0
    have e1 : vectorAt u.pastEndIndex I (3 * n + 1) = I.getD (3 * n + 1) 0 :=
      vectorAt_eq_getD _ _ _ _ h1
    have e2 : vectorAt u.pastEndIndex I (3 * n + 2) = I.getD (3 * n + 2) 0 :=
      vectorAt_eq_getD _ _ _ _ h2
    have b0 : I.getD (3 * n) 0 < V.length := hI _ (getD_mem _ _ _ h0)
    have b1 : I.getD (3 * n + 1) 0 < V.length := hI _ (getD_mem _ _ _ h1)
    have b2 : I.getD (3 * n + 2) 0 < V.length := hI _ (getD_mem _ _ _ h2)
    have f0 : vectorAt u.pastEnd V (I.getD (3 * n) 0)
        = V.getD (I.getD (3 * n) 0) ⟨0, 0, 0⟩ := vectorAt_eq_getD _ _ _ _ b0
    have f1 : vectorAt u.pastEnd V (I.getD (3 * n + 1) 0)
        = V.getD (I.getD (3 * n + 1) 0) ⟨0, 0, 0⟩ := vectorAt_eq_getD _ _ _ _ b1
    have f2 : vectorAt u.pastEnd V (I.getD (3 * n + 2) 0)
        = V.getD (I.getD (3 * n + 2) 0) ⟨0, 0, 0⟩ := vectorAt_eq_getD _ _ _ _ b2
    rw [List.range_succ, List.foldl_append]
    simp only [List.foldl_cons, List.foldl_nil, e0, e1, e2, f0, f1, f2]
    refine ⟨by simp only [List.length_set]; exact hlen, ?_⟩
    intro k hk
    rw [round_get? u.pastEnd _ _ _ _ k _ _ (by rw [hlen]; exact b0) (by rw [hlen]; exact b1)
      (by rw [hlen]; exact b2) (hget k hk)]
    simp only [List.map_append, List.map_cons, List.map_nil, List.foldl_append, List.foldl_cons,
      List.foldl_nil]
    rfl

/-- The vector `generateNormals` returns, entry by entry, for an index list made of whole
triangles with all entries in range. -/
theorem generateNormals_spec (u : Unspecified ℝ) (V : List (Vec3 ℝ)) (I : List Nat)
    (h3 : I.length % 3 = 0) (hI : ∀ j ∈ I, j < V.length) :
    (OBJLoader.generateNormals u V I).length = V.length ∧
    ∀ k, k < V.length →
      (OBJLoader.generateNormals u V I).get? k = some (spec_smoothNormal V I k) := by
  have hn : (I.length + 2) / 3 = I.length / 3 := by omega
  obtain ⟨hlen, hget⟩ := generateNormals_loop u V I hI (I.length / 3) (by omega)
  unfold OBJLoader.generateNormals
  simp only [hn]
  refine ⟨by rw [List.length_map]; exact hlen, ?_⟩
  intro k hk
  rw [List.get?_eq_getElem?, List.getElem?_map, ← List.get?_eq_getElem?, hget k hk]
  rfl

theorem cross_self (a : Vec3 ℝ) : glm.cross a a = ⟨0, 0, 0⟩ := by
  ext <;> simp [glm.cross]

theorem cross_zero_any_left (a b : Vec3 ℝ) : glm.cross (a - a) b = ⟨0, 0, 0⟩ := by
  ext <;> simp [glm.cross]

theorem cross_zero_any_right (a b : Vec3 ℝ) : glm.cross b (a - a) = ⟨0, 0, 0⟩ := by
  ext <;> simp [glm.cross]

/-- A single triangle whose edges span a plane: `generateNormals` gives each of its three
corners the face normal. -/
theorem generateNormals_single (u : Unspecified ℝ) (V : List (Vec3 ℝ)) (i0 i1 i2 : Nat)
    (h0 : i0 < V.length) (h1 : i1 < V.length) (h2 : i2 < V.length)
    (hnd : glm.cross (V.getD i1 ⟨0, 0, 0⟩ - V.getD i0 ⟨0, 0, 0⟩)
      (V.getD i2 ⟨0, 0, 0⟩ - V.getD i0 ⟨0, 0, 0⟩) ≠ ⟨0, 0, 0⟩) :
    ∀ k, k = i0 ∨ k = i1 ∨ k = i2 →
      (OBJLoader.generateNormals u V [i0, i1, i2]).get? k
        = some (glm.normalize (glm.cross (V.getD i1 ⟨0, 0, 0⟩ - V.getD i0 ⟨0, 0, 0⟩)
            (V.getD i2 ⟨0, 0, 0⟩ - V.getD i0 ⟨0, 0, 0⟩))) := by
  have d01 : i0 ≠ i1 := by
    intro e; subst e; exact hnd (cross_zero_any_left _ _)
  have d02 : i0 ≠ i2 := by
    intro e; subst e; exact hnd (cross_zero_any_right _ _)
  have d12 : i1 ≠ i2 := by
    intro e; subst e; exact hnd (cross_self _)
  have hI : ∀ j ∈ [i0, i1, i2], j < V.length := by
    intro j hj
    simp only [List.mem_cons, List.mem_singleton, List.not_mem_nil, or_false] at hj
    rcases hj with rfl | rfl | rfl <;> assumption
  have hunit : glm.dot
      (glm.normalize (glm.cross (V.getD i1 ⟨0, 0, 0⟩ - V.getD i0 ⟨0, 0, 0⟩)
        (V.getD i2 ⟨0, 0, 0⟩ - V.getD i0 ⟨0, 0, 0⟩)))
      (glm.normalize (glm.cross (V.getD i1 ⟨0, 0, 0⟩ - V.getD i0 ⟨0, 0, 0⟩)
        (V.getD i2 ⟨0, 0, 0⟩ - V.getD i0 ⟨0, 0, 0⟩))) = 1 :=
    dot_normalize_self _ (fun h => hnd ((dot_self_eq_zero_iff _).mp h))
  obtain ⟨_, hget⟩ := generateNormals_spec u V [i0, i1, i2] (by simp) hI
  intro k hk
  have hkV : k < V.length := by rcases hk with rfl | rfl | rfl <;> assumption
  rw [hget k hkV]
  have hface : spec_faceNormal V [i0, i1, i2] 0
      = glm.normalize (glm.cross (V.getD i1 ⟨0, 0, 0⟩ - V.getD i0 ⟨0, 0, 0⟩)
          (V.getD i2 ⟨0, 0, 0⟩ - V.getD i0 ⟨0, 0, 0⟩)) := rfl
  have hsum : ((List.range ([i0, i1, i2].length / 3)).map
        (spec_contribution V [i0, i1, i2] k)).foldl (· + ·) (⟨0, 0, 0⟩ : Vec3 ℝ)
      = spec_faceNormal V [i0, i1, i2] 0 := by
    have hr : List.range ([i0, i1, i2].length / 3) = [0] := by
      simp [List.range_succ]
    rw [hr]
    simp only [List.map_cons, List.map_nil, List.foldl_cons, List.foldl_nil, vec3_zero_add]
    have g0 : [i0, i1, i2].getD (3 * 0) 0 = i0 := rfl
    have g1 : [i0, i1, i2].getD (3 * 0 + 1) 0 = i1 := rfl
    have g2 : [i0, i1, i2].getD (3 * 0 + 2) 0 = i2 := rfl
    unfold spec_contribution
    rw [g0, g1, g2]
    rcases hk with rfl | rfl | rfl
    · rw [if_pos rfl, if_neg (Ne.symm d01), if_neg (Ne.symm d02), vec3_add_zero, vec3_add_zero]
    · rw [if_neg d01, if_pos rfl, if_neg (Ne.symm d12), vec3_zero_add, vec3_add_zero]
    · rw [if_neg d02, if_neg d12, if_pos rfl, vec3_zero_add, vec3_zero_add]
  unfold spec_smoothNormal
  rw [hsum, hface, normalize_of_unit _ hunit]

/-- C27: `generateNormals` computes smooth normals without area weights. For every vertex
list `V` and index list `I` whose length is a multiple of 3 with all entries below `|V|`,
the result has length `|V|` and its entry `k` is the normalisation of the sum, over the
triangles `(i0, i1, i2)` of `I`, of `normalize((V[i1] - V[i0]) × (V[i2] - V[i0]))` taken
once for every corner that is `k`; for a single triangle with non-zero cross product the
three corners get that face normal. -/
theorem C27_generateNormals_smooth (u : Unspecified ℝ) (V : List (Vec3 ℝ)) (I : List Nat)
    (h3 : I.length % 3 = 0) (hI : ∀ j ∈ I, j < V.length) :
    (OBJLoader.generateNormals u V I).length = V.length ∧
    (∀ k, k < V.length →
      (OBJLoader.generateNormals u V I).get? k = some (spec_smoothNormal V I k)) ∧
    (∀ i0 i1 i2, I = [i0, i1, i2] →
      glm.cross (V.getD i1 ⟨0, 0, 0⟩ - V.getD i0 ⟨0, 0, 0⟩)
        (V.getD i2 ⟨0, 0, 0⟩ - V.getD i0 ⟨0, 0, 0⟩) ≠ ⟨0, 0, 0⟩ →
      ∀ k, k = i0 ∨ k = i1 ∨ k = i2 →
        (OBJLoader.generateNormals u V I).get? k
          = some (glm.normalize (glm.cross (V.getD i1 ⟨0, 0, 0⟩ - V.getD i0 ⟨0, 0, 0⟩)
              (V.getD i2 ⟨0, 0, 0⟩ - V.getD i0 ⟨0, 0, 0⟩)))) := by
  refine ⟨(generateNormals_spec u V I h3 hI).1, (generateNormals_spec u V I h3 hI).2, ?_⟩
  rintro i0 i1 i2 rfl hnd k hk
  exact generateNormals_single u V i0 i1 i2 (hI _ (by simp)) (hI _ (by simp)) (hI _ (by simp))
    hnd k hk

/-- C27 on the triangle `(0,0,0)`, `(1,0,0)`, `(0,1,0)`: three normals come out, and the
one at the first corner is the face normal. -/
theorem C27_generateNormals_smooth_witness :
    (OBJLoader.generateNormals
        (⟨⟨0, 0, 0⟩, ⟨0, 0⟩, 0, fun _ => ⟨0, 0, 0⟩, fun _ => 0⟩ : Unspecified ℝ)
        [⟨0, 0, 0⟩, ⟨1, 0, 0⟩, ⟨0, 1, 0⟩] [0, 1, 2]).length = 3 ∧
    (OBJLoader.generateNormals
        (⟨⟨0, 0, 0⟩, ⟨0, 0⟩, 0, fun _ => ⟨0, 0, 0⟩, fun _ => 0⟩ : Unspecified ℝ)
        [⟨0, 0, 0⟩, ⟨1, 0, 0⟩, ⟨0, 1, 0⟩] [0, 1, 2]).get? 0
      = some (glm.normalize (glm.cross
          ((⟨1, 0, 0⟩ : Vec3 ℝ) - ⟨0, 0, 0⟩) ((⟨0, 1, 0⟩ : Vec3 ℝ) - ⟨0, 0, 0⟩))) :=
  ⟨(C27_generateNormals_smooth _ [⟨0, 0, 0⟩, ⟨1, 0, 0⟩, ⟨0, 1, 0⟩] [0, 1, 2]
      (by simp) (by simp)).1,
   (C27_generateNormals_smooth _ [⟨0, 0, 0⟩, ⟨1, 0, 0⟩, ⟨0, 1, 0⟩] [0, 1, 2]
      (by simp) (by simp)).2.2 0 1 2 rfl
      (by
        intro h
        have := congrArg Vec3.z h
        simp [glm.cross] at this)
      0 (Or.inl rfl)⟩

/-! ## The OBJ loader: faces -/

theorem forall_mem_append_singleton (p : Nat → Prop) (l : List Nat) (x : Nat)
    (hl : ∀ j ∈ l, p j) (hx : p x) : ∀ j ∈ l ++ [x], p j := by
  intro j hj
  rcases List.mem_append.mp hj with h | h
  · exact hl j h
  · rw [List.mem_singleton.mp h]; exact hx

/-- A well-formed vertex token whose indices name what is there makes `parseVertex` append
one position index below `nv`, and keeps the normal indices below `nn`. -/
theorem parseVertex_within (nv nn : Nat) (token : String)
    (h : WellFormedVertexWithin nv nn token) (vi ui ni : List Nat) :
    ∃ r, OBJLoader.parseVertex token vi ui ni = some r ∧ r.1.length = vi.length + 1 ∧
      ((∀ j ∈ vi, j < nv) → ∀ j ∈ r.1, j < nv) ∧
      ((∀ j ∈ ni, j < nn) → ∀ j ∈ r.2.2, j < nn) := by
  obtain ⟨a, b, c, ha, hb, hc, hav, h | h | h | h⟩ := h
  · obtain ⟨h, hcn⟩ := h
    refine ⟨_, by rw [h]; exact parseVertex_full a b c ha hb hc vi ui ni, by simp, ?_, ?_⟩
    · exact fun hv => forall_mem_append_singleton _ _ _ hv (by omega)
    · exact fun hn => forall_mem_append_singleton _ _ _ hn (by omega)
  · obtain ⟨h, hcn⟩ := h
    refine ⟨_, by rw [h]; exact parseVertex_no_uv a c ha hc vi ui ni, by simp, ?_, ?_⟩
    · exact fun hv => forall_mem_append_singleton _ _ _ hv (by omega)
    · exact fun hn => forall_mem_append_singleton _ _ _ hn (by omega)
  · refine ⟨_, by rw [h]; exact parseVertex_no_normal a b ha hb vi ui ni, by simp, ?_, ?_⟩
    · exact fun hv => forall_mem_append_singleton _ _ _ hv (by omega)
    · exact fun hn => hn
  · refine ⟨_, by rw [h]; exact parseVertex_position_only a ha vi ui ni, by simp, ?_, ?_⟩
    · exact fun hv => forall_mem_append_singleton _ _ _ hv (by omega)
    · exact fun hn => hn

/-- A line that is not a face line leaves the index vectors as they are; a `v` line adds
one position and a `vn` line one normal. -/
theorem loadOBJ_line_other (num_get : NumGet ℝ) (u : Unspecified ℝ) (t : OBJLoader.Temp ℝ)
    (line : String) (h : firstWord line ≠ "f") :
    ∃ t2, OBJLoader.loadOBJ_line num_get u t line = some t2 ∧
      t2.vertex_indices = t.vertex_indices ∧ t2.normal_indices = t.normal_indices ∧
      t2.temp_vertices.length
        = t.temp_vertices.length + (if firstWord line = "v" then 1 else 0) ∧
      t2.temp_normals.length
        = t.temp_normals.length + (if firstWord line = "vn" then 1 else 0) := by
  unfold firstWord at h ⊢
  unfold OBJLoader.loadOBJ_line
  simp only []
  by_cases h1 : ((IStringStream.ofString line).readString "").1 = "v"
  · have hvn : ¬ ("v" = "vn") := by decide
    simp only [h1, if_true, if_neg hvn]
    exact ⟨_, rfl, rfl, rfl, by simp, by simp⟩
  · by_cases h2 : ((IStringStream.ofString line).readString "").1 = "vt"
    · have hvn : ¬ ("vt" = "vn") := by decide
      have hv : ¬ ("vt" = "v") := by decide
      simp only [h2, if_true, if_neg hvn, if_neg hv]
      exact ⟨_, rfl, rfl, rfl, by simp, by simp⟩
    · by_cases h3 : ((IStringStream.ofString line).readString "").1 = "vn"
      · have hv : ¬ ("vn" = "v") := by decide
        have hvt : ¬ ("vn" = "vt") := by decide
        simp only [h3, if_true, if_neg hv, if_neg hvt]
        exact ⟨_, rfl, rfl, rfl, by simp, by simp⟩
      · simp only [if_neg h1, if_neg h2, if_neg h3, if_neg h]
        exact ⟨_, rfl, rfl, rfl, by simp, by simp⟩

/-- A face line is read through its first three vertex tokens and nothing else. -/
theorem loadOBJ_line_face_eq (num_get : NumGet ℝ) (u : Unspecified ℝ) (t : OBJLoader.Temp ℝ)
    (line : String) (h : firstWord line = "f") :
    OBJLoader.loadOBJ_line num_get u t line
      = (OBJLoader.parseVertex (faceWords line).1 t.vertex_indices t.uv_indices
          t.normal_indices).bind fun r1 =>
        (OBJLoader.parseVertex (faceWords line).2.1 r1.1 r1.2.1 r1.2.2).bind fun r2 =>
        (OBJLoader.parseVertex (faceWords line).2.2 r2.1 r2.2.1 r2.2.2).bind fun r3 =>
        some { t with vertex_indices := r3.1, uv_indices := r3.2.1, normal_indices := r3.2.2 } := by
  unfold firstWord at h
  have hv : ¬ ("f" = "v") := by decide
  have hvt : ¬ ("f" = "vt") := by decide
  have hvn : ¬ ("f" = "vn") := by decide
  unfold OBJLoader.loadOBJ_line faceWords
  simp only [h, if_neg hv, if_neg hvt, if_neg hvn, if_true]

/-- A face line whose first three vertex tokens are well formed and name what is there
adds three entries to `vertex_indices`, keeps the indices in range, and leaves the
positions and normals alone. -/
theorem loadOBJ_line_face (num_get : NumGet ℝ) (u : Unspecified ℝ) (nv nn : Nat)
    (t : OBJLoader.Temp ℝ) (line : String) (h : firstWord line = "f")
    (hw : WellFormedVertexWithin nv nn (faceWords line).1 ∧
      WellFormedVertexWithin nv nn (faceWords line).2.1 ∧
      WellFormedVertexWithin nv nn (faceWords line).2.2) :
    ∃ t2, OBJLoader.loadOBJ_line num_get u t line = some t2 ∧
      t2.vertex_indices.length = t.vertex_indices.length + 3 ∧
      t2.temp_vertices = t.temp_vertices ∧ t2.temp_normals = t.temp_normals ∧
      ((∀ j ∈ t.vertex_indices, j < nv) → ∀ j ∈ t2.vertex_indices, j < nv) ∧
      ((∀ j ∈ t.normal_indices, j < nn) → ∀ j ∈ t2.normal_indices, j < nn) := by
  obtain ⟨w1, w2, w3⟩ := hw
  obtain ⟨r1, e1, l1, v1, n1⟩ := parseVertex_within nv nn _ w1 t.vertex_indices t.uv_indices
    t.normal_indices
  obtain ⟨r2, e2, l2, v2, n2⟩ := parseVertex_within nv nn _ w2 r1.1 r1.2.1 r1.2.2
  obtain ⟨r3, e3, l3, v3, n3⟩ := parseVertex_within nv nn _ w3 r2.1 r2.2.1 r2.2.2
  rw [loadOBJ_line_face_eq num_get u t line h, e1, Option.some_bind, e2, Option.some_bind, e3,
    Option.some_bind]
  exact ⟨_, rfl, by simp only [l3, l2, l1], rfl, rfl, fun hv => v3 (v2 (v1 hv)),
    fun hn => n3 (n2 (n1 hn))⟩

/-- The loop of `loadOBJ` over lines whose face lines all start with three well-formed
vertex tokens that name what is there: it ends; `vertex_indices` has grown by three per
face line, the positions by one per `v` line, the normals by one per `vn` line; and the
indices stay in range. -/
theorem loadOBJ_loop (num_get : NumGet ℝ) (u : Unspecified ℝ) (nv nn : Nat)
    (lines : List String)
    (hw : ∀ line ∈ lines, firstWord line = "f" →
      WellFormedVertexWithin nv nn (faceWords line).1 ∧
        WellFormedVertexWithin nv nn (faceWords line).2.1 ∧
        WellFormedVertexWithin nv nn (faceWords line).2.2)
    (t : OBJLoader.Temp ℝ) :
    ∃ t2, lines.foldlM (OBJLoader.loadOBJ_line num_get u) t = some t2 ∧
      t2.vertex_indices.length
        = t.vertex_indices.length
          + 3 * (lines.filter fun line => firstWord line = "f").length ∧
      t2.temp_vertices.length
        = t.temp_vertices.length + (lines.filter fun line => firstWord line = "v").length ∧
      t2.temp_normals.length
        = t.temp_normals.length + (lines.filter fun line => firstWord line = "vn").length ∧
      ((∀ j ∈ t.vertex_indices, j < nv) → ∀ j ∈ t2.vertex_indices, j < nv) ∧
      ((∀ j ∈ t.normal_indices, j < nn) → ∀ j ∈ t2.normal_indices, j < nn) := by
  induction lines generalizing t with
  | nil => exact ⟨t, rfl, by simp, by simp, by simp, fun h => h, fun h => h⟩
  | cons line lines ih =>
    have hw2 : ∀ l ∈ lines, firstWord l = "f" →
        WellFormedVertexWithin nv nn (faceWords l).1 ∧
          WellFormedVertexWithin nv nn (faceWords l).2.1 ∧
          WellFormedVertexWithin nv nn (faceWords l).2.2 :=
      fun l hl => hw l (List.mem_cons_of_mem _ hl)
    by_cases hf : firstWord line = "f"
    · have hnv : ¬ (firstWord line = "v") := by rw [hf]; decide
      have hnvn : ¬ (firstWord line = "vn") := by rw [hf]; decide
      obtain ⟨t1, e1, l1, p1, q1, v1, n1⟩ := loadOBJ_line_face num_get u nv nn t line hf
        (hw line (List.mem_cons_self _ _) hf)
      obtain ⟨t2, e2, l2, p2, q2, v2, n2⟩ := ih hw2 t1
      refine ⟨t2, ?_, ?_, ?_, ?_, fun h => v2 (v1 h), fun h => n2 (n1 h)⟩
      · rw [List.foldlM_cons, e1]
        exact e2
      · rw [l2, l1, List.filter_cons_of_pos (by simpa using hf), List.length_cons]
        ring
      · rw [p2, p1, List.filter_cons_of_neg (by simpa using hnv)]
      · rw [q2, q1, List.filter_cons_of_neg (by simpa using hnvn)]
    · obtain ⟨t1, e1, l1, m1, p1, q1⟩ := loadOBJ_line_other num_get u t line hf
      obtain ⟨t2, e2, l2, p2, q2, v2, n2⟩ := ih hw2 t1
      refine ⟨t2, ?_, ?_, ?_, ?_, fun h => v2 (by rw [l1]; exact h),
        fun h => n2 (by rw [m1]; exact h)⟩
      · rw [List.foldlM_cons, e1]
        exact e2
      · rw [l2, l1, List.filter_cons_of_neg (by simpa using hf)]
      · rw [p2, p1]
        by_cases hv : firstWord line = "v"
        · rw [if_pos hv, List.filter_cons_of_pos (by simpa using hv), List.length_cons]
          ring
        · rw [if_neg hv, List.filter_cons_of_neg (by simpa using hv)]
          ring
      · rw [q2, q1]
        by_cases hv : firstWord line = "vn"
        · rw [if_pos hv, List.filter_cons_of_pos (by simpa using hv), List.length_cons]
          ring
        · rw [if_neg hv, List.filter_cons_of_neg (by simpa using hv)]
          ring

/-- The vector `generateNormals` returns has the size of `vertices` when every access of
the call stays inside its vector. -/
theorem generateNormals_length_of_defined (u : Unspecified ℝ) (V : List (Vec3 ℝ))
    (I : List Nat) (h : OBJLoader.generateNormals_defined V I = true) :
    (OBJLoader.generateNormals u V I).length = V.length := by
  simp only [OBJLoader.generateNormals_defined, Bool.and_eq_true, beq_iff_eq, List.all_eq_true,
    decide_eq_true_eq] at h
  exact (generateNormals_spec u V I h.1 h.2).1

/-- Every access of `generateNormals` stays inside its vector for whole triangles whose
indices name positions. -/
theorem generateNormals_defined_of (V : List (Vec3 ℝ)) (I : List Nat) (h3 : I.length % 3 = 0)
    (hI : ∀ j ∈ I, j < V.length) : OBJLoader.generateNormals_defined V I = true := by
  simp only [OBJLoader.generateNormals_defined, Bool.and_eq_true, beq_iff_eq, List.all_eq_true,
    decide_eq_true_eq]
  exact ⟨h3, hI⟩

/-- Every unguarded access of `buildVertexData` stays inside its vector when the normals
were generated for the positions. -/
theorem buildVertexData_defined_generated (tv tn : List (Vec3 ℝ)) (vi : List Nat)
    (hv : ∀ j ∈ vi, j < tv.length) (hn : tn.length = tv.length) :
    OBJLoader.buildVertexData_defined tv tn vi vi false = true := by
  simp only [OBJLoader.buildVertexData_defined, List.all_eq_true, List.mem_range,
    Bool.and_eq_true, decide_eq_true_eq, Bool.false_eq_true, false_and, if_false]
  intro i hi
  have := hv _ (getD_mem vi i 0 hi)
  exact ⟨this, by rw [hn]; exact this⟩

/-- Every unguarded access of `buildVertexData` stays inside its vector when every vertex
has a normal index of the file and all indices are in range. -/
theorem buildVertexData_defined_original (tv tn : List (Vec3 ℝ)) (vi ni : List Nat)
    (hv : ∀ j ∈ vi, j < tv.length) (hn : ∀ j ∈ ni, j < tn.length)
    (hlen : ni.length = vi.length) :
    OBJLoader.buildVertexData_defined tv tn vi ni true = true := by
  simp only [OBJLoader.buildVertexData_defined, List.all_eq_true, List.mem_range,
    Bool.and_eq_true, decide_eq_true_eq, true_and]
  intro i hi
  have hi2 : i < ni.length := by rw [hlen]; exact hi
  rw [if_pos hi2]
  exact ⟨hv _ (getD_mem vi i 0 hi), decide_eq_true (hn _ (getD_mem ni i 0 hi2))⟩

/-- C25, as the code has it: `loadOBJ` reads triangles only, on files whose indices name
what is there. For a file that opens and in which every face line (first word `f`) starts
with three well-formed vertex tokens, whatever follows them on the line, with every
position index at most the number of `v` lines and every normal index at most the number
of `vn` lines, the load returns `true` and leaves `indices.size() = vertices.size() =
3 * (number of face lines)`: three vertices per face line. A fourth or later vertex is
never read: two face lines with the same first three vertex tokens do the same to the
vectors of the loader. -/
theorem C25_loadOBJ_triangles_only (fs : FileSystem) (num_get : NumGet ℝ)
    (u : Unspecified ℝ) (self : OBJLoader ℝ) (path content : String)
    (hopen : fs path = some content)
    (hw : ∀ line ∈ getlines content.data [], firstWord line = "f" →
      WellFormedVertexWithin (positionLines content).length (normalLines content).length
          (faceWords line).1 ∧
        WellFormedVertexWithin (positionLines content).length (normalLines content).length
          (faceWords line).2.1 ∧
        WellFormedVertexWithin (positionLines content).length (normalLines content).length
          (faceWords line).2.2) :
    (∃ out, OBJLoader.loadOBJ fs num_get u self path = some (true, out) ∧
      out.indices.length = 3 * (faceLines content).length ∧
      out.vertices.length = 3 * (faceLines content).length) ∧
    (∀ (t : OBJLoader.Temp ℝ) (line line2 : String), firstWord line = "f" →
      firstWord line2 = "f" → faceWords line = faceWords line2 →
      OBJLoader.loadOBJ_line num_get u t line = OBJLoader.loadOBJ_line num_get u t line2) := by
  obtain ⟨t, e, l, hv, hn, hvi, hni⟩ := loadOBJ_loop num_get u (positionLines content).length
    (normalLines content).length _ hw
    { temp_vertices := [], temp_uvs := [], temp_normals := [], vertex_indices := [],
      uv_indices := [], normal_indices := [] }
  simp only [List.length_nil, zero_add] at l hv hn
  have hvi2 : ∀ j ∈ t.vertex_indices, j < t.temp_vertices.length := by
    rw [hv]
    exact hvi (by simp)
  have hni2 : ∀ j ∈ t.normal_indices, j < t.temp_normals.length := by
    rw [hn]
    exact hni (by simp)
  have hG : OBJLoader.generateNormals_defined t.temp_vertices t.vertex_indices = true :=
    generateNormals_defined_of _ _ (by rw [l]; omega) hvi2
  constructor
  · unfold OBJLoader.loadOBJ
    simp only [hopen]
    rw [e, Option.some_bind]
    cases hN : (!t.temp_normals.isEmpty
        && t.normal_indices.length == t.vertex_indices.length)
    · have hB := buildVertexData_defined_generated t.temp_vertices
        (OBJLoader.generateNormals u t.temp_vertices t.vertex_indices) t.vertex_indices hvi2
        (generateNormals_length_of_defined u _ _ hG)
      simp only [hG, hB, Bool.not_false, Bool.not_true, Bool.and_false, Bool.false_eq_true,
        if_false, if_true]
      refine ⟨_, rfl, ?_, ?_⟩
      · rw [(buildVertexData_length _ _ _ _ _ _ _ _).2]
        exact l
      · rw [(buildVertexData_length _ _ _ _ _ _ _ _).1]
        exact l
    · have hlen : t.normal_indices.length = t.vertex_indices.length := by
        simp only [Bool.and_eq_true, beq_iff_eq] at hN
        exact hN.2
      have hB := buildVertexData_defined_original t.temp_vertices t.temp_normals
        t.vertex_indices t.normal_indices hvi2 hni2 hlen
      simp only [hB, Bool.not_true, Bool.false_and, Bool.false_eq_true, if_false]
      refine ⟨_, rfl, ?_, ?_⟩
      · rw [(buildVertexData_length _ _ _ _ _ _ _ _).2]
        exact l
      · rw [(buildVertexData_length _ _ _ _ _ _ _ _).1]
        exact l
  · intro t line line2 h1 h2 hsame
    rw [loadOBJ_line_face_eq num_get u t line h1, loadOBJ_line_face_eq num_get u t line2 h2,
      hsame]

/-- C25 on a file with four positions, one normal and two face lines, the first a quad:
six vertices and six indices come out. -/
theorem C25_loadOBJ_triangles_only_witness :
    ∃ out, OBJLoader.loadOBJ
        (fun _ => some
          "v 0 0 0\nv 1 0 0\nv 1 1 0\nv 0 1 0\nvn 0 0 1\nf 1 2 3 4\nf 1//1 3//1 4//1\n")
        (fun _ => none)
        (⟨⟨0, 0, 0⟩, ⟨0, 0⟩, 0, fun _ => ⟨0, 0, 0⟩, fun _ => 0⟩ : Unspecified ℝ)
        ⟨[], []⟩ "quad.obj" = some (true, out) ∧
      out.indices.length
        = 3 * (faceLines
            "v 0 0 0\nv 1 0 0\nv 1 1 0\nv 0 1 0\nvn 0 0 1\nf 1 2 3 4\nf 1//1 3//1 4//1\n").length ∧
      out.vertices.length
        = 3 * (faceLines
            "v 0 0 0\nv 1 0 0\nv 1 1 0\nv 0 1 0\nvn 0 0 1\nf 1 2 3 4\nf 1//1 3//1 4//1\n").length :=
  have hlines : getlines
      "v 0 0 0\nv 1 0 0\nv 1 1 0\nv 0 1 0\nvn 0 0 1\nf 1 2 3 4\nf 1//1 3//1 4//1\n".data []
      = ["v 0 0 0", "v 1 0 0", "v 1 1 0", "v 0 1 0", "vn 0 0 1", "f 1 2 3 4",
          "f 1//1 3//1 4//1"] := by
    decide
  have hnv : (positionLines
      "v 0 0 0\nv 1 0 0\nv 1 1 0\nv 0 1 0\nvn 0 0 1\nf 1 2 3 4\nf 1//1 3//1 4//1\n").length
      = 4 := by
    decide
  have hnn : (normalLines
      "v 0 0 0\nv 1 0 0\nv 1 1 0\nv 0 1 0\nvn 0 0 1\nf 1 2 3 4\nf 1//1 3//1 4//1\n").length
      = 1 := by
    decide
  (C25_loadOBJ_triangles_only
    (fun _ => some
      "v 0 0 0\nv 1 0 0\nv 1 1 0\nv 0 1 0\nvn 0 0 1\nf 1 2 3 4\nf 1//1 3//1 4//1\n")
    (fun _ => none) _ ⟨[], []⟩ "quad.obj"
    "v 0 0 0\nv 1 0 0\nv 1 1 0\nv 0 1 0\nvn 0 0 1\nf 1 2 3 4\nf 1//1 3//1 4//1\n" rfl (by
    intro line hl hf
    rw [hnv, hnn]
    rw [hlines] at hl
    simp only [List.mem_cons, List.mem_singleton, List.not_mem_nil, or_false] at hl
    rcases hl with rfl | rfl | rfl | rfl | rfl | rfl | rfl
    · exact absurd hf (by decide)
    · exact absurd hf (by decide)
    · exact absurd hf (by decide)
    · exact absurd hf (by decide)
    · exact absurd hf (by decide)
    · exact ⟨⟨1, 1, 1, by decide, by decide, by decide, by decide,
          Or.inr (Or.inr (Or.inr (by decide)))⟩,
        ⟨2, 1, 1, by decide, by decide, by decide, by decide,
          Or.inr (Or.inr (Or.inr (by decide)))⟩,
        ⟨3, 1, 1, by decide, by decide, by decide, by decide,
          Or.inr (Or.inr (Or.inr (by decide)))⟩⟩
    · exact ⟨⟨1, 1, 1, by decide, by decide, by decide, by decide,
          Or.inr (Or.inl ⟨by decide, by decide⟩)⟩,
        ⟨3, 1, 1, by decide, by decide, by decide, by decide,
          Or.inr (Or.inl ⟨by decide, by decide⟩)⟩,
        ⟨4, 1, 1, by decide, by decide, by decide, by decide,
          Or.inr (Or.inl ⟨by decide, by decide⟩)⟩⟩)).1

/-- C25 as stated fails. On the file `f 1 2 3`, which has no position, and on a file with
three positions and one normal whose face names the normal 5, every face line starts with
three well-formed vertex tokens, and yet the load gives no result: `generateNormals` on
the first and `buildVertexData` on the second index a vector past its end, so there are no
`vertices` and `indices` after loading to have the size 3. -/
theorem C25_dangling_index_stops_the_load :
    (∀ line ∈ getlines "f 1 2 3\n".data [], firstWord line = "f" →
      WellFormedVertex (faceWords line).1 ∧ WellFormedVertex (faceWords line).2.1 ∧
        WellFormedVertex (faceWords line).2.2) ∧
    OBJLoader.loadOBJ (fun _ => some "f 1 2 3\n") (fun _ => none)
        (⟨⟨0, 0, 0⟩, ⟨0, 0⟩, 0, fun _ => ⟨0, 0, 0⟩, fun _ => 0⟩ : Unspecified ℝ)
        ⟨[], []⟩ "triangle.obj" = none ∧
    (∀ line ∈ getlines "v 0 0 0\nv 1 0 0\nv 0 1 0\nvn 0 0 1\nf 1//5 2//5 3//5\n".data [],
      firstWord line = "f" →
      WellFormedVertex (faceWords line).1 ∧ WellFormedVertex (faceWords line).2.1 ∧
        WellFormedVertex (faceWords line).2.2) ∧
    OBJLoader.loadOBJ (fun _ => some "v 0 0 0\nv 1 0 0\nv 0 1 0\nvn 0 0 1\nf 1//5 2//5 3//5\n")
        (fun _ => none)
        (⟨⟨0, 0, 0⟩, ⟨0, 0⟩, 0, fun _ => ⟨0, 0, 0⟩, fun _ => 0⟩ : Unspecified ℝ)
        ⟨[], []⟩ "triangle.obj" = none := by
  have hlines1 : getlines "f 1 2 3\n".data [] = ["f 1 2 3"] := by decide
  have hlines2 : getlines "v 0 0 0\nv 1 0 0\nv 0 1 0\nvn 0 0 1\nf 1//5 2//5 3//5\n".data []
      = ["v 0 0 0", "v 1 0 0", "v 0 1 0", "vn 0 0 1", "f 1//5 2//5 3//5"] := by decide
  refine ⟨?_, rfl, ?_, rfl⟩
  · intro line hl _
    rw [hlines1] at hl
    rw [List.mem_singleton.mp hl]
    exact ⟨⟨1, 1, 1, by decide, by decide, by decide, Or.inr (Or.inr (Or.inr (by decide)))⟩,
      ⟨2, 1, 1, by decide, by decide, by decide, Or.inr (Or.inr (Or.inr (by decide)))⟩,
      ⟨3, 1, 1, by decide, by decide, by decide, Or.inr (Or.inr (Or.inr (by decide)))⟩⟩
  · intro line hl hf
    rw [hlines2] at hl
    simp only [List.mem_cons, List.mem_singleton, List.not_mem_nil, or_false] at hl
    rcases hl with rfl | rfl | rfl | rfl | rfl
    · exact absurd hf (by decide)
    · exact absurd hf (by decide)
    · exact absurd hf (by decide)
    · exact absurd hf (by decide)
    · exact ⟨⟨1, 1, 5, by decide, by decide, by decide, Or.inr (Or.inl (by decide))⟩,
        ⟨2, 1, 5, by decide, by decide, by decide, Or.inr (Or.inl (by decide))⟩,
        ⟨3, 1, 5, by decide, by decide, by decide, Or.inr (Or.inl (by decide))⟩⟩

/-! ## Materials: the specular exponent -/

/-- What an `Ns` line does to the loop state of `loadMTL`. -/
theorem loadMTL_line_Ns (num_get : NumGet ℝ) (u : Unspecified ℝ) (baseDir : String)
    (s : CP6.MtlLoop ℝ) (line : String) (h : firstWord line = "Ns") :
    CP6.loadMTL_line num_get u baseDir s line
      = { s with
          material :=
            { s.material with
              roughness := glm.clamp (1 - spec_nsRead num_get u line / 1000) 0 1 } } := by
  unfold firstWord at h
  have h1 : ¬ ("Ns" = "newmtl") := by decide
  have h2 : ¬ ("Ns" = "Kd") := by decide
  have h3 : ¬ ("Ns" = "map_Kd") := by decide
  have h4 : ¬ ("Ns" = "map_Pm") := by decide
  have h5 : ¬ ("Ns" = "map_Pr") := by decide
  have h6 : ¬ ("Ns" = "map_Bump" ∨ "Ns" = "bump") := by decide
  have h7 : ¬ ("Ns" = "map_Ka") := by decide
  unfold CP6.loadMTL_line spec_nsRead
  simp only [h, if_neg h1, if_neg h2, if_neg h3, if_neg h4, if_neg h5, if_neg h6, if_neg h7,
    if_true]

/-- C29: the mapping from `Ns` to roughness stays in range. For an `Ns` line that carries
the exponent `ns`, the material's roughness becomes `min (max (1 - ns / 1000) 0) 1`; it lies
in `[0, 1]`, is 1 for `ns ≤ 0` and 0 for `ns ≥ 1000`, and a larger exponent (on a second
`Ns` line) never gives a larger roughness. -/
theorem C29_Ns_roughness_in_range (num_get : NumGet ℝ) (u : Unspecified ℝ) (baseDir : String)
    (s s2 : CP6.MtlLoop ℝ) (line line2 : String) (h : firstWord line = "Ns")
    (h2 : firstWord line2 = "Ns") :
    (CP6.loadMTL_line num_get u baseDir s line).material.roughness
      = min (max (1 - spec_nsRead num_get u line / 1000) 0) 1 ∧
    0 ≤ (CP6.loadMTL_line num_get u baseDir s line).material.roughness ∧
    (CP6.loadMTL_line num_get u baseDir s line).material.roughness ≤ 1 ∧
    (spec_nsRead num_get u line ≤ 0 →
      (CP6.loadMTL_line num_get u baseDir s line).material.roughness = 1) ∧
    (1000 ≤ spec_nsRead num_get u line →
      (CP6.loadMTL_line num_get u baseDir s line).material.roughness = 0) ∧
    (spec_nsRead num_get u line ≤ spec_nsRead num_get u line2 →
      (CP6.loadMTL_line num_get u baseDir s2 line2).material.roughness
        ≤ (CP6.loadMTL_line num_get u baseDir s line).material.roughness) := by
  rw [loadMTL_line_Ns num_get u baseDir s line h, loadMTL_line_Ns num_get u baseDir s2 line2 h2]
  simp only [glm.clamp]
  refine ⟨trivial, ?_, ?_, ?_, ?_, ?_⟩
  · exact le_min (le_max_right _ _) (by norm_num)
  · exact min_le_right _ _
  · intro hns
    have : (1 : ℝ) ≤ 1 - spec_nsRead num_get u line / 1000 := by linarith
    rw [max_eq_left (by linarith), min_eq_right this]
  · intro hns
    have : 1 - spec_nsRead num_get u line / 1000 ≤ 0 := by linarith
    rw [max_eq_right this, min_eq_left (by norm_num)]
  · intro hle
    exact min_le_min (max_le_max (by linarith) le_rfl) le_rfl

/-- C29 on the line `Ns 250`, for a stream parser that reads `250` there: the roughness
stays within `[0, 1]`. -/
theorem C29_Ns_roughness_in_range_witness :
    (CP6.loadMTL_line (fun _ => some ((250 : ℝ), []))
        (⟨⟨0, 0, 0⟩, ⟨0, 0⟩, 0, fun _ => ⟨0, 0, 0⟩, fun _ => 0⟩ : Unspecified ℝ) ""
        ⟨[], "steel", PBRMaterial.init⟩ "Ns 250").material.roughness ≤ 1 :=
  (C29_Ns_roughness_in_range (fun _ => some ((250 : ℝ), [])) _ ""
    ⟨[], "steel", PBRMaterial.init⟩ ⟨[], "steel", PBRMaterial.init⟩ "Ns 250" "Ns 250"
    (by decide) (by decide)).2.2.1

/-! ## Materials: `std::map` assignment -/

end CG
